import Mathlib

/-!
# zig-boot: memory management, ACPI discovery and SMP bring-up of `kernel/minimal_step9.c`

A shallow embedding of the bitmap frame allocator (PMM), of the
recursive-paging virtual memory manager (VMM), of the bump heap, of the IDT
setup and the exception handler, of the ACPI table search
(`kernel/minimal_step9.c` and `kernel/acpi.c`), of the trampoline and
INIT-SIPI-SIPI code, of the barrier, the distributed sum and the decimal
printing routines of `kernel/minimal_step9.c`, followed by the properties
established about them.

Conventions.  `uint64_t` values are natural numbers below `2 ^ 64`; every
addition or multiplication that can wrap carries an explicit `% 2 ^ 64`, and
subtraction is `sub64`.  The bytes
of the bitmap are natural numbers; a store to a `uint8_t` carries `% 256`.
Loops with a counter running over `lo .. hi - 1` are folds over
`List.range' lo (hi - lo)`.
-/

namespace ZigBoot

/-! ## Constants -/

/-- The macro `PAGE_SIZE`. -/
def PAGE_SIZE : Nat := 4096

/-- Two to the power 64: the modulus of `uint64_t` arithmetic. -/
def U64 : Nat := 18446744073709551616

/-- Subtraction `a - b` of two `uint64_t` values, wrapping around below zero. -/
def sub64 (a b : Nat) : Nat :=
  if b ≤ a then a - b else U64 - (b - a)

/-- The macro `PAGE_ALIGN(addr)`: `((addr) + PAGE_SIZE - 1) & ~(PAGE_SIZE - 1)`
on a `uint64_t`; the `int` mask `~4095` converts to `0xFFFFFFFFFFFFF000`. -/
def PAGE_ALIGN (addr : Nat) : Nat :=
  ((addr + PAGE_SIZE - 1) % U64) &&& 0xFFFFFFFFFFFFF000

/-- The macro `MULTIBOOT_MEMORY_AVAILABLE`. -/
def MULTIBOOT_MEMORY_AVAILABLE : Nat := 1

/-! ## Physical memory manager -/

/-- The globals of the PMM.  `pmm_bitmap k` is the byte `pmm_bitmap[k]`;
`pmm_bitmap_addr` is the value of the pointer `pmm_bitmap`. -/
structure PMM where
  pmm_bitmap : Nat → Nat
  pmm_bitmap_addr : Nat
  total_pages : Nat
  used_pages : Nat
  bitmap_size : Nat
  total_memory : Nat

/-- The loop `for (x = lo; x < hi; x++) body`. -/
def for_loop {σ : Type} (lo hi : Nat) (body : σ → Nat → σ) (s : σ) : σ :=
  (List.range' lo (hi - lo)).foldl body s

/-- Store of one byte into the bitmap. -/
def set_byte (s : PMM) (byte_idx v : Nat) : PMM :=
  { s with pmm_bitmap := fun k => if k = byte_idx then v % 256 else s.pmm_bitmap k }

/-- The function `pmm_mark_page`: `pmm_bitmap[byte_idx] |= (1 << bit_idx)`. -/
def pmm_mark_page (s : PMM) (page_idx : Nat) : PMM :=
  let byte_idx := page_idx / 8
  let bit_idx := page_idx % 8
  set_byte s byte_idx (s.pmm_bitmap byte_idx ||| (1 <<< bit_idx))

/-- The function `pmm_clear_page`: `pmm_bitmap[byte_idx] &= ~(1 << bit_idx)`;
the complement is taken on a 32-bit `int` and the result stored in a byte. -/
def pmm_clear_page (s : PMM) (page_idx : Nat) : PMM :=
  let byte_idx := page_idx / 8
  let bit_idx := page_idx % 8
  set_byte s byte_idx (s.pmm_bitmap byte_idx &&& (0xFFFFFFFF ^^^ (1 <<< bit_idx)))

/-- The function `pmm_is_page_used`. -/
def pmm_is_page_used (s : PMM) (page_idx : Nat) : Bool :=
  let byte_idx := page_idx / 8
  let bit_idx := page_idx % 8
  (s.pmm_bitmap byte_idx &&& (1 <<< bit_idx)) != 0

/-- The statement `used_pages--` on a `uint64_t`. -/
def dec_used (s : PMM) : PMM :=
  { s with used_pages := sub64 s.used_pages 1 }

/-- The statement `used_pages++` on a `uint64_t`. -/
def inc_used (s : PMM) : PMM :=
  { s with used_pages := (s.used_pages + 1) % U64 }

/-- Body of the two partial-byte loops of `pmm_mark_region_free`. -/
def free_bit_body (s : PMM) (page : Nat) : PMM :=
  if page < s.total_pages && pmm_is_page_used s page then
    dec_used (pmm_clear_page s page)
  else s

/-- Body of the whole-byte loop of `pmm_mark_region_free`: the byte is zeroed
and `used_pages` is decremented once for every bit set in its old value. -/
def free_byte_body (s : PMM) (byte : Nat) : PMM :=
  let old := s.pmm_bitmap byte
  let s1 := set_byte s byte 0
  for_loop 0 8 (fun t i => if (old &&& (1 <<< i)) != 0 then dec_used t else t) s1

/-- The function `pmm_mark_region_free`. -/
def pmm_mark_region_free (s : PMM) (base length : Nat) : PMM :=
  let start_page := base / PAGE_SIZE
  let end_page := ((base + length) % U64) / PAGE_SIZE
  let start_byte := start_page / 8
  let end_byte := end_page / 8
  -- starting partial byte
  let s1 :=
    if start_page % 8 != 0 then
      for_loop start_page (min ((start_byte + 1) * 8) end_page) free_bit_body s
    else s
  let start_byte1 := if start_page % 8 != 0 then start_byte + 1 else start_byte
  -- whole bytes
  let s2 := for_loop start_byte1 (min end_byte s1.bitmap_size) free_byte_body s1
  -- ending partial byte
  if end_page % 8 != 0 then
    for_loop (end_byte * 8) end_page free_bit_body s2
  else s2

/-- Body of the loop of `pmm_mark_region_used`. -/
def used_bit_body (s : PMM) (page : Nat) : PMM :=
  if page < s.total_pages && !pmm_is_page_used s page then
    inc_used (pmm_mark_page s page)
  else s

/-- The function `pmm_mark_region_used`. -/
def pmm_mark_region_used (s : PMM) (base length : Nat) : PMM :=
  let start_page := base / PAGE_SIZE
  let end_page := ((base + length + PAGE_SIZE - 1) % U64) / PAGE_SIZE
  for_loop start_page end_page used_bit_body s

/-- The scanning loop of `pmm_alloc_page`, started at index `i` with
`n` iterations left; the result is the new state and the returned address. -/
def pmm_alloc_scan (s : PMM) : Nat → Nat → PMM × Nat
  | 0, _ => (s, 0)
  | n + 1, i =>
    if !pmm_is_page_used s i then
      (inc_used (pmm_mark_page s i), (i * PAGE_SIZE) % U64)
    else pmm_alloc_scan s n (i + 1)

/-- The function `pmm_alloc_page`: `for (i = 0; i < total_pages; i++)`. -/
def pmm_alloc_page (s : PMM) : PMM × Nat :=
  pmm_alloc_scan s s.total_pages 0

/-- The function `pmm_free_page`. -/
def pmm_free_page (s : PMM) (phys_addr : Nat) : PMM :=
  let page_idx := phys_addr / PAGE_SIZE
  if page_idx < s.total_pages && pmm_is_page_used s page_idx then
    dec_used (pmm_clear_page s page_idx)
  else s

/-- Number of 1-bits among the frame indices below `total_pages`. -/
def count_used (s : PMM) : Nat :=
  (List.range s.total_pages).countP (pmm_is_page_used s)

/-- One record of the Multiboot2 memory map (`struct multiboot_mmap_entry`). -/
structure MmapEntry where
  addr : Nat
  len : Nat
  type : Nat

/-- The function `pmm_init`.  `total_memory` is the global computed by
`parse_multiboot_mmap`, `mb_size` the 32-bit size stored at
`multiboot_info_addr`, `kernel_end` the linker symbol and `mem` the bytes
found at the bitmap location before the `memset`. -/
def pmm_init (total_memory multiboot_info_addr mb_size kernel_end : Nat)
    (mem : Nat → Nat) : PMM :=
  let total_memory1 :=
    if total_memory > 64 * 1024 * 1024 then 64 * 1024 * 1024 else total_memory
  let total_pages := total_memory1 / PAGE_SIZE
  let bitmap_size := (total_pages + 7) / 8
  let mb_end := (multiboot_info_addr + mb_size) % U64
  let safe_addr := if mb_end > kernel_end then mb_end else kernel_end
  let bitmap_addr := PAGE_ALIGN safe_addr
  { pmm_bitmap := fun k => if k < bitmap_size then 0xFF else mem k
    pmm_bitmap_addr := bitmap_addr
    total_pages := total_pages
    used_pages := total_pages
    bitmap_size := bitmap_size
    total_memory := total_memory1 }

/-- Body of the entry loop of `pmm_mark_free_regions`. -/
def free_region_body (s : PMM) (entry : MmapEntry) : PMM :=
  if entry.type = MULTIBOOT_MEMORY_AVAILABLE then
    let region_start := entry.addr
    let region_len := entry.len
    if region_start ≥ s.total_memory then s
    else
      let region_len1 :=
        if (region_start + region_len) % U64 > s.total_memory then
          s.total_memory - region_start
        else region_len
      pmm_mark_region_free s region_start region_len1
  else s

/-- The function `pmm_mark_free_regions`.  `entries` are the records of the
memory-map tag found by the tag walk (none when the blob has no such tag);
`kernel_start` is the linker symbol. -/
def pmm_mark_free_regions (s : PMM) (entries : List MmapEntry) (kernel_start : Nat) : PMM :=
  let s1 := entries.foldl free_region_body s
  let kernel_start_addr := kernel_start
  let bitmap_end := (s1.pmm_bitmap_addr + s1.bitmap_size) % U64
  let kernel_size := sub64 bitmap_end kernel_start_addr
  pmm_mark_region_used s1 kernel_start_addr kernel_size

/-- The total-memory computation of `parse_multiboot_mmap`: the highest end
of an Available record that starts below 4 GiB. -/
def parse_multiboot_mmap (entries : List MmapEntry) : Nat :=
  entries.foldl (fun total_memory entry =>
    if entry.type = MULTIBOOT_MEMORY_AVAILABLE ∧ entry.addr < 0x100000000 then
      let end_addr := (entry.addr + entry.len) % U64
      if end_addr > total_memory then end_addr else total_memory
    else total_memory) 0

/-- The construction sequence of `kernel_main`: `pmm_init` followed by
`pmm_mark_free_regions` on the same boot information. -/
def pmm_construct (total_memory multiboot_info_addr mb_size kernel_start kernel_end : Nat)
    (mem : Nat → Nat) (entries : List MmapEntry) : PMM :=
  pmm_mark_free_regions
    (pmm_init total_memory multiboot_info_addr mb_size kernel_end mem) entries kernel_start

/-- Byte address `b` lies in an Available record of the memory map. -/
def in_available (entries : List MmapEntry) (b : Nat) : Prop :=
  ∃ e ∈ entries, e.type = MULTIBOOT_MEMORY_AVAILABLE ∧ e.addr ≤ b ∧ b < e.addr + e.len

/-- The whole byte range of frame `i` lies in Available records. -/
def frame_available (entries : List MmapEntry) (i : Nat) : Prop :=
  ∀ b, PAGE_SIZE * i ≤ b → b < PAGE_SIZE * (i + 1) → in_available entries b

/-- The bit-by-bit reference for `pmm_mark_region_free`, written from the
specification: the bit of every frame index `p` with
`base / 4096 ≤ p < (base + length) / 4096` and `p < total_pages` is cleared,
one at a time, and `used_pages` is decremented for each bit that was 1. -/
def pmm_mark_region_free_naive (s : PMM) (base length : Nat) : PMM :=
  for_loop (base / PAGE_SIZE) ((base + length) / PAGE_SIZE) free_bit_body s

/-- The state right after `pmm_init` when two frames are managed: one bitmap
byte, filled with `0xFF` by the `memset`. -/
def two_frame_state : PMM := pmm_init 8192 0x10000 64 0x20000 (fun _ => 0)

/-- The state right after `pmm_init` when eight frames are managed. -/
def eight_frame_state : PMM := pmm_init 32768 0x10000 64 0x20000 (fun _ => 0)

/-- A memory map whose first Available record starts at the second frame. -/
def sample_mmap : List MmapEntry :=
  [⟨0x0, 0x1000, 2⟩, ⟨0x1000, 0x4000, 1⟩, ⟨0x100000, 0x10000, 1⟩]

/-- The PMM built by `kernel_main` from `sample_mmap`, with the kernel image
at `[0x100000, 0x104000)` and the boot information at `0x108000`. -/
def sample_pmm : PMM :=
  pmm_construct (parse_multiboot_mmap sample_mmap) 0x108000 0x100 0x100000 0x104000
    (fun _ => 0) sample_mmap

/-- The fields of the PMM that no allocator operation writes. -/
def same_layout (s t : PMM) : Prop :=
  t.total_pages = s.total_pages ∧ t.bitmap_size = s.bitmap_size ∧
    t.pmm_bitmap_addr = s.pmm_bitmap_addr ∧ t.total_memory = s.total_memory

/-! ## Recursive-mapping address macros -/

/-- The macro `RECURSIVE_INDEX`, an `int` literal. -/
def RECURSIVE_INDEX : Nat := 511

/-- The macro `RECURSIVE_BASE`, an `unsigned long` literal. -/
def RECURSIVE_BASE : Nat := 0xFFFF000000000000

/-- The shift `a << n` of two `int` operands, as a 32-bit pattern.  For
`n < 32` the product wraps to 32 bits.  For `n ≥ 32` ISO C leaves the result
undefined; `ub` stands for the 32-bit pattern the compiler produces. -/
def shl_int (ub a n : Nat) : Nat :=
  if n < 32 then (a <<< n) % 2 ^ 32 else ub % 2 ^ 32

/-- Conversion of a 32-bit `int` pattern to `unsigned long`: sign extension. -/
def int_to_u64 (x : Nat) : Nat :=
  if x < 2 ^ 31 then x else x ||| 0xFFFFFFFF00000000

/-- The shift `a << n` of a `uint64_t` by a count below 64. -/
def shl_u64 (a n : Nat) : Nat := (a <<< n) % U64

/-- The value of an `int` shift by 32 or more as GCC folds it: 0.  ISO C does
not determine this value; the constant stands for the kernel as GCC builds
it, and a statement meant for every build quantifies over the value `ub`
instead. -/
def INT_SHIFT_OOB : Nat := 0

/-- The macro `PML4_VIRT_ADDR`. -/
def PML4_VIRT_ADDR (ub : Nat) : Nat :=
  RECURSIVE_BASE ||| int_to_u64 (shl_int ub RECURSIVE_INDEX 39)
    ||| int_to_u64 (shl_int ub RECURSIVE_INDEX 30)
    ||| int_to_u64 (shl_int ub RECURSIVE_INDEX 21)
    ||| int_to_u64 (shl_int ub RECURSIVE_INDEX 12)

/-- The macro `PDPT_VIRT_ADDR(pml4_idx)`, the index being a `uint64_t`. -/
def PDPT_VIRT_ADDR (ub pml4_idx : Nat) : Nat :=
  RECURSIVE_BASE ||| int_to_u64 (shl_int ub RECURSIVE_INDEX 39)
    ||| int_to_u64 (shl_int ub RECURSIVE_INDEX 30)
    ||| int_to_u64 (shl_int ub RECURSIVE_INDEX 21)
    ||| shl_u64 pml4_idx 12

/-- The macro `PD_VIRT_ADDR(pml4_idx, pdpt_idx)`. -/
def PD_VIRT_ADDR (ub pml4_idx pdpt_idx : Nat) : Nat :=
  RECURSIVE_BASE ||| int_to_u64 (shl_int ub RECURSIVE_INDEX 39)
    ||| int_to_u64 (shl_int ub RECURSIVE_INDEX 30)
    ||| shl_u64 pml4_idx 21
    ||| shl_u64 pdpt_idx 12

/-- The macro `PT_VIRT_ADDR(pml4_idx, pdpt_idx, pd_idx)`. -/
def PT_VIRT_ADDR (ub pml4_idx pdpt_idx pd_idx : Nat) : Nat :=
  RECURSIVE_BASE ||| int_to_u64 (shl_int ub RECURSIVE_INDEX 39)
    ||| shl_u64 pml4_idx 30
    ||| shl_u64 pdpt_idx 21
    ||| shl_u64 pd_idx 12

/-- The PML4 index `(virt_addr >> 39) & 0x1FF`. -/
def pml4_index (virt_addr : Nat) : Nat := (virt_addr >>> 39) &&& 0x1FF

/-- The PDPT index `(virt_addr >> 30) & 0x1FF`. -/
def pdpt_index (virt_addr : Nat) : Nat := (virt_addr >>> 30) &&& 0x1FF

/-- The PD index `(virt_addr >> 21) & 0x1FF`. -/
def pd_index (virt_addr : Nat) : Nat := (virt_addr >>> 21) &&& 0x1FF

/-- The PT index `(virt_addr >> 12) & 0x1FF`. -/
def pt_index (virt_addr : Nat) : Nat := (virt_addr >>> 12) &&& 0x1FF

/-- A 64-bit address is canonical when bits 63..48 all equal bit 47. -/
def canonical (a : Nat) : Bool :=
  if a.testBit 47 then a >>> 48 == 0xFFFF else a >>> 48 == 0

/-! ## Virtual memory manager -/

/-- The macro `PT_PRESENT`. -/
def PT_PRESENT : Nat := 1

/-- The macro `PT_WRITE`. -/
def PT_WRITE : Nat := 2

/-- The macro `PT_USER`. -/
def PT_USER : Nat := 4

/-- The physical-address mask `0x000FFFFFFFFFF000UL` of a table entry. -/
def ADDR_MASK : Nat := 0x000FFFFFFFFFF000

/-- State of the VMM: the PMM globals and the 64-bit words of memory that the
page-table code reads and writes, indexed by the virtual address used for the
access.  Two accesses touch the same word exactly when their virtual addresses
are equal; the translation performed by the MMU is not part of the model. -/
structure VMM where
  pmm : PMM
  mem : Nat → Nat

/-- The read `table[idx]` of a `uint64_t *table`, as a plain load: no fault is
raised, whatever the address (see `Faulting.rd` for the load that faults). -/
def rd (s : VMM) (table idx : Nat) : Nat := s.mem (table + 8 * idx)

/-- The write `table[idx] = v` of a `uint64_t *table`, as a plain store: no
fault is raised, whatever the address (see `Faulting.wr` for the store that
faults).  The functions built on it below tell which entries the code
computes and in which order it writes them, for the kernel as GCC builds it;
they do not tell whether the processor carries the access out. -/
def wr (s : VMM) (table idx v : Nat) : VMM :=
  { s with mem := fun a => if a = table + 8 * idx then v else s.mem a }

/-- The loop `for (int i = 0; i < 512; i++) table[i] = 0`. -/
def zero_table (s : VMM) (table : Nat) : VMM :=
  for_loop 0 512 (fun t i => wr t table i 0) s

/-- The function `vmm_virt_to_phys`. -/
def vmm_virt_to_phys (s : VMM) (virt_addr : Nat) : Nat :=
  let pml4_idx := pml4_index virt_addr
  let pdpt_idx := pdpt_index virt_addr
  let pd_idx := pd_index virt_addr
  let pt_idx := pt_index virt_addr
  let offset := virt_addr &&& 0xFFF
  let pml4_table := PML4_VIRT_ADDR INT_SHIFT_OOB
  if rd s pml4_table pml4_idx &&& PT_PRESENT = 0 then 0 else
  let pdpt_table := PDPT_VIRT_ADDR INT_SHIFT_OOB pml4_idx
  if rd s pdpt_table pdpt_idx &&& PT_PRESENT = 0 then 0 else
  let pd_table := PD_VIRT_ADDR INT_SHIFT_OOB pml4_idx pdpt_idx
  if rd s pd_table pd_idx &&& PT_PRESENT = 0 then 0 else
  let pt_table := PT_VIRT_ADDR INT_SHIFT_OOB pml4_idx pdpt_idx pd_idx
  if rd s pt_table pt_idx &&& PT_PRESENT = 0 then 0 else
  let phys_page := rd s pt_table pt_idx &&& ADDR_MASK
  (phys_page + offset) % U64

/-- One "access/create entry" block of `vmm_map_page`: when `table[idx]` is not
present a frame is allocated, the entry is written with
`PT_PRESENT | PT_WRITE | PT_USER` and the 512 words at `child` are zeroed.
The flag is `false` when the block leaves the function (`return; // OOM`). -/
def ensure_entry (s : VMM) (table idx child : Nat) : VMM × Bool :=
  if rd s table idx &&& PT_PRESENT = 0 then
    let r := pmm_alloc_page s.pmm
    let s1 : VMM := { s with pmm := r.1 }
    if r.2 = 0 then (s1, false)
    else
      (zero_table (wr s1 table idx (r.2 ||| PT_PRESENT ||| PT_WRITE ||| PT_USER)) child,
        true)
  else (s, true)

/-- The function `vmm_map_page`.  The flag tells whether the function reached
its final page-table write (`true`) or left through an out-of-memory
`return` (`false`). -/
def vmm_map_page (s : VMM) (virt_addr phys_addr flags : Nat) : VMM × Bool :=
  let pml4_idx := pml4_index virt_addr
  let pdpt_idx := pdpt_index virt_addr
  let pd_idx := pd_index virt_addr
  let pt_idx := pt_index virt_addr
  let pml4_table := PML4_VIRT_ADDR INT_SHIFT_OOB
  let pdpt_table := PDPT_VIRT_ADDR INT_SHIFT_OOB pml4_idx
  let pd_table := PD_VIRT_ADDR INT_SHIFT_OOB pml4_idx pdpt_idx
  let pt_table := PT_VIRT_ADDR INT_SHIFT_OOB pml4_idx pdpt_idx pd_idx
  let r1 := ensure_entry s pml4_table pml4_idx pdpt_table
  if r1.2 = false then (r1.1, false) else
  let r2 := ensure_entry r1.1 pdpt_table pdpt_idx pd_table
  if r2.2 = false then (r2.1, false) else
  let r3 := ensure_entry r2.1 pd_table pd_idx pt_table
  if r3.2 = false then (r3.1, false) else
  (wr r3.1 pt_table pt_idx ((phys_addr &&& ADDR_MASK) ||| flags), true)

/-- A VMM state after `vmm_init`: the recursive slot `PML4[511]` holds
`0x1000 | PT_PRESENT | PT_WRITE`, every other word is 0, and of the eight
managed frames the frames 1..7 are free. -/
def sample_vmm : VMM :=
  { pmm := pmm_mark_region_free_naive eight_frame_state 0x1000 0x7000
    mem := fun a => if a = 0xFFFFFFFFFFFFFFF8 then 0x1003 else 0 }

/-- The counting invariant of the PMM: `used_pages` is the number of 1-bits
among the frame indices below `total_pages`, and `total_pages` fits 64 bits. -/
def counting_invariant (s : PMM) : Prop :=
  count_used s = s.used_pages ∧ s.total_pages < U64

/-- The four table indices of two addresses coincide (the addresses name the
same page, up to the bits 63..48 that the index computation drops). -/
def same_indices (v w : Nat) : Prop :=
  pml4_index v = pml4_index w ∧ pdpt_index v = pdpt_index w ∧
  pd_index v = pd_index w ∧ pt_index v = pt_index w

/-! ## Virtual memory manager with faulting accesses

The definitions of this section follow the same source text as the ones above,
with two differences.  The value of the undefined `int` shift
`RECURSIVE_INDEX << 39` is a parameter `ub` of every function, so that nothing
depends on what one compiler makes of it.  And an access to an address that is
not canonical raises a general-protection fault, which ends the run: the
result is `none`.  The words are still indexed by the virtual address of the
access; the translation of canonical addresses by the MMU is not modelled.
The statements proved for every state over these definitions use two facts
only: an access to a non-canonical address faults, and a load returns what the
last store to the same address wrote.  The evaluations on `sample_vmm` use the
whole model. -/

namespace Faulting

/-- The address of `table[idx]` for a `uint64_t *table`, as 64-bit pointer
arithmetic gives it. -/
def entry_addr (table idx : Nat) : Nat := (table + 8 * idx) % U64

/-- The read `table[idx]`; `none` is the general-protection fault at a
non-canonical address. -/
def rd (s : VMM) (table idx : Nat) : Option Nat :=
  if canonical (entry_addr table idx) then some (s.mem (entry_addr table idx)) else none

/-- The write `table[idx] = v`; `none` is the general-protection fault at a
non-canonical address. -/
def wr (s : VMM) (table idx v : Nat) : Option VMM :=
  if canonical (entry_addr table idx) then
    some { s with mem := fun a => if a = entry_addr table idx then v else s.mem a }
  else none

/-- The loop `for (int i = 0; i < 512; i++) table[i] = 0`; a fault in one
iteration ends the run. -/
def zero_table (s : VMM) (table : Nat) : Option VMM :=
  for_loop 0 512
    (fun (t : Option VMM) i =>
      match t with
      | none => none
      | some t1 => wr t1 table i 0)
    (some s)

/-- The function `vmm_virt_to_phys`; `none` is a fault.  The page-table entry
is read twice, as in the source. -/
def vmm_virt_to_phys (ub : Nat) (s : VMM) (virt_addr : Nat) : Option Nat :=
  let pml4_idx := pml4_index virt_addr
  let pdpt_idx := pdpt_index virt_addr
  let pd_idx := pd_index virt_addr
  let pt_idx := pt_index virt_addr
  let offset := virt_addr &&& 0xFFF
  let pml4_table := PML4_VIRT_ADDR ub
  match rd s pml4_table pml4_idx with
  | none => none
  | some e4 =>
    if e4 &&& PT_PRESENT = 0 then some 0 else
    let pdpt_table := PDPT_VIRT_ADDR ub pml4_idx
    match rd s pdpt_table pdpt_idx with
    | none => none
    | some e3 =>
      if e3 &&& PT_PRESENT = 0 then some 0 else
      let pd_table := PD_VIRT_ADDR ub pml4_idx pdpt_idx
      match rd s pd_table pd_idx with
      | none => none
      | some e2 =>
        if e2 &&& PT_PRESENT = 0 then some 0 else
        let pt_table := PT_VIRT_ADDR ub pml4_idx pdpt_idx pd_idx
        match rd s pt_table pt_idx with
        | none => none
        | some e1 =>
          if e1 &&& PT_PRESENT = 0 then some 0 else
          match rd s pt_table pt_idx with
          | none => none
          | some e0 =>
            let phys_page := e0 &&& ADDR_MASK
            some ((phys_page + offset) % U64)

/-- One "access/create entry" block of `vmm_map_page`.  `none` is a fault; the
flag is `false` when the block leaves the function (`return; // OOM`). -/
def ensure_entry (s : VMM) (table idx child : Nat) : Option (VMM × Bool) :=
  match rd s table idx with
  | none => none
  | some e =>
    if e &&& PT_PRESENT = 0 then
      let r := pmm_alloc_page s.pmm
      let s1 : VMM := { s with pmm := r.1 }
      if r.2 = 0 then some (s1, false)
      else
        match wr s1 table idx (r.2 ||| PT_PRESENT ||| PT_WRITE ||| PT_USER) with
        | none => none
        | some s2 =>
          match zero_table s2 child with
          | none => none
          | some s3 => some (s3, true)
    else some (s, true)

/-- The function `vmm_map_page`.  `none` is a fault; the flag tells whether
the function completed its final page-table write (`true`) or left through an
out-of-memory `return` (`false`).  The `invlpg` that follows the write has no
effect on the words of memory and is not modelled. -/
def vmm_map_page (ub : Nat) (s : VMM) (virt_addr phys_addr flags : Nat) : Option (VMM × Bool) :=
  let pml4_idx := pml4_index virt_addr
  let pdpt_idx := pdpt_index virt_addr
  let pd_idx := pd_index virt_addr
  let pt_idx := pt_index virt_addr
  let pml4_table := PML4_VIRT_ADDR ub
  let pdpt_table := PDPT_VIRT_ADDR ub pml4_idx
  let pd_table := PD_VIRT_ADDR ub pml4_idx pdpt_idx
  let pt_table := PT_VIRT_ADDR ub pml4_idx pdpt_idx pd_idx
  match ensure_entry s pml4_table pml4_idx pdpt_table with
  | none => none
  | some (s1, false) => some (s1, false)
  | some (s1, true) =>
    match ensure_entry s1 pdpt_table pdpt_idx pd_table with
    | none => none
    | some (s2, false) => some (s2, false)
    | some (s2, true) =>
      match ensure_entry s2 pd_table pd_idx pt_table with
      | none => none
      | some (s3, false) => some (s3, false)
      | some (s3, true) =>
        match wr s3 pt_table pt_idx ((phys_addr &&& ADDR_MASK) ||| flags) with
        | none => none
        | some s4 => some (s4, true)

end Faulting

/-! ## Kernel heap -/

/-- The globals of the bump allocator. -/
structure Heap where
  heap_start : Nat
  heap_current : Nat
  heap_end : Nat

/-- The function `heap_init`: the heap starts at the page after the bitmap and
is 16 MiB long. -/
def heap_init (pmm : PMM) : Heap :=
  let bitmap_end := (pmm.pmm_bitmap_addr + pmm.bitmap_size) % U64
  let heap_start := PAGE_ALIGN bitmap_end
  { heap_start := heap_start
    heap_current := heap_start
    heap_end := (heap_start + 16 * 1024 * 1024) % U64 }

/-- The function `kmalloc`; the second component is the returned pointer
(0 for null).  `size = (size + 15) & ~15UL` and `heap_current += size` are
64-bit operations. -/
def kmalloc (h : Heap) (size : Nat) : Heap × Nat :=
  if size = 0 then (h, 0)
  else
    let size1 := ((size + 15) % U64) &&& 0xFFFFFFFFFFFFFFF0
    let addr := h.heap_current
    let h1 : Heap := { h with heap_current := (h.heap_current + size1) % U64 }
    if h1.heap_current ≥ h1.heap_end then (h1, 0) else (h1, addr)

/-- The heap right after `heap_init` for the PMM built from `sample_mmap`:
the window is `[0x10A000, 0x110A000)`. -/
def sample_heap : Heap := heap_init sample_pmm

/-! ## Interrupt descriptor table -/

/-- The macro `TIMER_VECTOR`. -/
def TIMER_VECTOR : Nat := 32

/-- The gate descriptor `struct idt_entry`. -/
structure idt_entry where
  offset_low : Nat
  selector : Nat
  ist : Nat
  type_attr : Nat
  offset_mid : Nat
  offset_high : Nat
  zero : Nat

/-- The table `idt[256]` and the fields of `idtr`. -/
structure IDT where
  idt : Nat → idt_entry
  idtr_limit : Nat
  idtr_base : Nat

/-- The seven field assignments of `idt_set_gate`; `selector` is `uint16_t`,
`flags` is `uint8_t`. -/
def make_gate (handler selector flags : Nat) : idt_entry :=
  { offset_low := handler &&& 0xFFFF
    offset_mid := (handler >>> 16) &&& 0xFFFF
    offset_high := (handler >>> 32) &&& 0xFFFFFFFF
    selector := selector % 65536
    ist := 0
    type_attr := flags % 256
    zero := 0 }

/-- The function `idt_set_gate`, which writes every field of `idt[num]`; `num`
is `uint8_t`. -/
def idt_set_gate (s : IDT) (num handler selector flags : Nat) : IDT :=
  { s with idt := fun v => if v = num % 256 then make_gate handler selector flags else s.idt v }

/-- The function `idt_init`.  The handler addresses `pure_iretq_handler`,
`exception_stubs[i]` and `timer_irq_stub` and the address `&idt` are link-time
constants; `sizeof(idt)` is `256 * 16`. -/
def idt_init (s : IDT) (pure_iretq_handler : Nat) (exception_stubs : Nat → Nat)
    (timer_irq_stub idt_addr : Nat) : IDT :=
  let s1 := for_loop 0 256 (fun t i => idt_set_gate t i pure_iretq_handler 0x08 0x8E) s
  let s2 := for_loop 0 32 (fun t i => idt_set_gate t i (exception_stubs i) 0x08 0x8E) s1
  let s3 := idt_set_gate s2 TIMER_VECTOR timer_irq_stub 0x08 0x8E
  { s3 with idtr_limit := (256 * 16 - 1) % 65536, idtr_base := idt_addr }

/-- The handler address reassembled from a gate:
`offset_high << 32 | offset_mid << 16 | offset_low`. -/
def gate_handler (e : idt_entry) : Nat :=
  (e.offset_high <<< 32) ||| (e.offset_mid <<< 16) ||| e.offset_low

/-! ## ACPI tables -/

/-- The macro `ACPI_SEARCH_START`. -/
def ACPI_SEARCH_START : Nat := 0x000E0000

/-- The macro `ACPI_SEARCH_END`. -/
def ACPI_SEARCH_END : Nat := 0x000FFFFF

/-- The macro `MAX_CPUS`. -/
def MAX_CPUS : Nat := 16

/-- A read of one byte (`uint8_t`) of memory. -/
def rd8 (mem : Nat → Nat) (a : Nat) : Nat := mem a % 256

/-- A little-endian read of a `uint32_t`. -/
def rd32 (mem : Nat → Nat) (a : Nat) : Nat :=
  rd8 mem a + 256 * rd8 mem (a + 1) + 65536 * rd8 mem (a + 2) + 16777216 * rd8 mem (a + 3)

/-- A little-endian read of a `uint64_t`. -/
def rd64 (mem : Nat → Nat) (a : Nat) : Nat :=
  rd32 mem a + 4294967296 * rd32 mem (a + 4)

/-- Number of iterations of `for (int i = 0; i < n; i++)` when `n` is the
`int` whose 32-bit pattern is `x`: none when `n` is negative. -/
def int_loop_count (x : Nat) : Nat := if x < 2 ^ 31 then x else 0

/-- The function `acpi_checksum(ptr, length)`, `length` being the number of
loop iterations: the bytes are summed in a `uint8_t`. -/
def acpi_checksum (mem : Nat → Nat) (ptr length : Nat) : Bool :=
  for_loop 0 length (fun sum i => (sum + rd8 mem (ptr + i)) % 256) 0 == 0

/-- The eight signature comparisons of `acpi_find_rsdp`: `"RSD PTR "`. -/
def is_rsd_ptr (mem : Nat → Nat) (ptr : Nat) : Bool :=
  rd8 mem ptr == 0x52 && rd8 mem (ptr + 1) == 0x53 && rd8 mem (ptr + 2) == 0x44 &&
  rd8 mem (ptr + 3) == 0x20 && rd8 mem (ptr + 4) == 0x50 && rd8 mem (ptr + 5) == 0x54 &&
  rd8 mem (ptr + 6) == 0x52 && rd8 mem (ptr + 7) == 0x20

/-- The loop of `acpi_find_rsdp`, with `n` iterations of fuel; `none` means the
fuel ran out before the loop ended. -/
def find_rsdp_loop (mem : Nat → Nat) : Nat → Nat → Option Nat
  | 0, _ => none
  | n + 1, ptr =>
    if ptr < ACPI_SEARCH_END then
      if is_rsd_ptr mem ptr && acpi_checksum mem ptr 20 then some ptr
      else find_rsdp_loop mem n (ptr + 16)
    else some 0

/-- The function `acpi_find_rsdp` (the same text in `minimal_step9.c` and
`acpi.c`); the result is the returned pointer, 0 for null. -/
def acpi_find_rsdp (mem : Nat → Nat) (fuel : Nat) : Option Nat :=
  find_rsdp_loop mem fuel ACPI_SEARCH_START

/-- The four signature comparisons of `acpi_find_madt`: `"APIC"`. -/
def is_apic (mem : Nat → Nat) (header : Nat) : Bool :=
  rd8 mem header == 0x41 && rd8 mem (header + 1) == 0x50 &&
  rd8 mem (header + 2) == 0x49 && rd8 mem (header + 3) == 0x43

/-- The entry loop of `acpi_find_madt`, with `n` iterations left, at index
`i`: `entry_ptr` is a `uint32_t *`. -/
def find_madt_loop (mem : Nat → Nat) (entry_ptr : Nat) : Nat → Nat → Nat
  | 0, _ => 0
  | n + 1, i =>
    let header := rd32 mem (entry_ptr + 4 * i)
    if is_apic mem header then header else find_madt_loop mem entry_ptr n (i + 1)

/-- The root table that `acpi_find_madt` selects: the XSDT when
`revision ≥ 2` and `xsdt_address` is not 0, else the RSDT.  The fields sit at
the offsets of the packed `struct acpi_rsdp`. -/
def acpi_root (mem : Nat → Nat) (rsdp : Nat) : Nat :=
  if rd8 mem (rsdp + 15) ≥ 2 ∧ rd64 mem (rsdp + 24) ≠ 0 then rd64 mem (rsdp + 24)
  else rd32 mem (rsdp + 16)

/-- The value of `int entries = (rsdt->length - sizeof(struct acpi_sdt_header)) / 4`
as a loop count: the subtraction and division are 64-bit unsigned, the result
is truncated to `int`. -/
def root_entries (length : Nat) : Nat :=
  int_loop_count ((sub64 length 36 / 4) % 2 ^ 32)

/-- The function `acpi_find_madt` (the same code in `minimal_step9.c` and
`acpi.c`); the result is the returned pointer, 0 for null. -/
def acpi_find_madt (mem : Nat → Nat) (rsdp : Nat) : Nat :=
  let rsdt := acpi_root mem rsdp
  let length := rd32 mem (rsdt + 4)
  if !acpi_checksum mem rsdt (int_loop_count length) then 0
  else find_madt_loop mem (rsdt + 36) (root_entries length) 0

/-- The entry loop that claim C16 describes, written from the specification:
the body of an XSDT is walked as 64-bit entries. -/
def find_madt_loop64 (mem : Nat → Nat) (entry_ptr : Nat) : Nat → Nat → Nat
  | 0, _ => 0
  | n + 1, i =>
    let header := rd64 mem (entry_ptr + 8 * i)
    if is_apic mem header then header else find_madt_loop64 mem entry_ptr n (i + 1)

/-- The table walk that claim C16 describes, written from the specification:
with `revision ≥ 2` and a non-zero `xsdt_address` the XSDT body is
`(length - 36) / 8` entries of 64 bits; otherwise the RSDT body is
`(length - 36) / 4` entries of 32 bits. -/
def acpi_find_madt_ref (mem : Nat → Nat) (rsdp : Nat) : Nat :=
  let rsdt := acpi_root mem rsdp
  let length := rd32 mem (rsdt + 4)
  if !acpi_checksum mem rsdt (int_loop_count length) then 0
  else if rd8 mem (rsdp + 15) ≥ 2 ∧ rd64 mem (rsdp + 24) ≠ 0 then
    find_madt_loop64 mem (rsdt + 36) ((length - 36) / 8) 0
  else find_madt_loop mem (rsdt + 36) ((length - 36) / 4) 0

/-- Memory holding the byte lists `segs` at their start addresses (the first
matching segment wins), 0 elsewhere. -/
def mem_of (segs : List (Nat × List Nat)) (a : Nat) : Nat :=
  match segs.find? (fun p => decide (p.1 ≤ a ∧ a < p.1 + p.2.length)) with
  | some p => p.2.getD (a - p.1) 0
  | none => 0

/-- Loop state of `acpi_parse_madt`: the cursor `ptr`, the counter and the
array `cpu_apic_ids`. -/
structure MadtScan where
  ptr : Nat
  count : Nat
  cpu_apic_ids : Nat → Nat

/-- One iteration of the entry loop of `acpi_parse_madt` in
`minimal_step9.c`. -/
def madt_body (mem : Nat → Nat) (s : MadtScan) : MadtScan :=
  let type := rd8 mem s.ptr
  let length := rd8 mem (s.ptr + 1)
  let s1 : MadtScan :=
    if type = 0 then
      if rd32 mem (s.ptr + 4) &&& 0x1 ≠ 0 then
        { s with
          cpu_apic_ids :=
            if s.count < MAX_CPUS then
              fun i => if i = s.count then rd8 mem (s.ptr + 3) else s.cpu_apic_ids i
            else s.cpu_apic_ids
          count := s.count + 1 }
      else s
    else s
  { s1 with ptr := s1.ptr + length }

/-- The loop `while (ptr < end)` of `acpi_parse_madt`, with `n` iterations of
fuel; `none` means the fuel ran out before the loop ended. -/
def madt_loop (mem : Nat → Nat) (end_ptr : Nat) : Nat → MadtScan → Option MadtScan
  | 0, _ => none
  | n + 1, s => if s.ptr < end_ptr then madt_loop mem end_ptr n (madt_body mem s) else some s

/-- The function `acpi_parse_madt` of `minimal_step9.c`: the returned value is
the field `count` of the final state.  `sizeof(struct acpi_madt_header)` is 44
and `header.length` sits at offset 4. -/
def acpi_parse_madt (mem : Nat → Nat) (madt_header : Nat) (cpu_apic_ids : Nat → Nat)
    (fuel : Nat) : Option MadtScan :=
  madt_loop mem (madt_header + rd32 mem (madt_header + 4)) fuel
    { ptr := madt_header + 44, count := 0, cpu_apic_ids := cpu_apic_ids }

namespace AcpiC

/-- One iteration of the entry loop of `acpi_parse_madt` in `acpi.c`:
`cpu_apic_ids[cpu_count++] = lapic->apic_id`. -/
def madt_body (mem : Nat → Nat) (s : MadtScan) : MadtScan :=
  let type := rd8 mem s.ptr
  let length := rd8 mem (s.ptr + 1)
  let s1 : MadtScan :=
    if type = 0 then
      if rd32 mem (s.ptr + 4) &&& 0x1 ≠ 0 then
        { s with
          cpu_apic_ids := fun i => if i = s.count then rd8 mem (s.ptr + 3) else s.cpu_apic_ids i
          count := s.count + 1 }
      else s
    else s
  { s1 with ptr := s1.ptr + length }

/-- The loop `while (ptr < end && cpu_count < 16)` of `acpi.c`. -/
def madt_loop (mem : Nat → Nat) (end_ptr : Nat) : Nat → MadtScan → Option MadtScan
  | 0, _ => none
  | n + 1, s =>
    if s.ptr < end_ptr ∧ s.count < 16 then madt_loop mem end_ptr n (madt_body mem s)
    else some s

/-- The function `acpi_parse_madt` of `acpi.c`; the field `count` is the
global `cpu_count`, which the function first sets to 0. -/
def acpi_parse_madt (mem : Nat → Nat) (madt_header : Nat) (cpu_apic_ids : Nat → Nat)
    (fuel : Nat) : Option MadtScan :=
  madt_loop mem (madt_header + rd32 mem (madt_header + 4)) fuel
    { ptr := madt_header + 36 + 8, count := 0, cpu_apic_ids := cpu_apic_ids }

end AcpiC

/-- A well-formed MADT entry, given by its bytes: at least the two header
bytes, the length byte equal to the number of bytes, and 8 bytes for a Local
APIC entry (type 0). -/
def entry_ok (e : List Nat) : Prop :=
  2 ≤ e.length ∧ e.length < 256 ∧ (∀ i, i < e.length → e.getD i 0 < 256) ∧
  e.getD 1 0 = e.length ∧ (e.getD 0 0 = 0 → e.length = 8)

/-- The entries lie back to back in memory from address `a` on. -/
def laid_out (mem : Nat → Nat) : Nat → List (List Nat) → Prop
  | _, [] => True
  | a, e :: es => (∀ i, i < e.length → mem (a + i) = e.getD i 0) ∧ laid_out mem (a + e.length) es

/-- A Local APIC entry (type 0) whose flags have bit 0 set. -/
def entry_enabled (e : List Nat) : Bool :=
  e.getD 0 0 == 0 && e.getD 4 0 % 2 == 1

/-- The APIC IDs of the enabled Local APIC entries, in table order. -/
def enabled_ids (entries : List (List Nat)) : List Nat :=
  (entries.filter entry_enabled).map (fun e => e.getD 3 0)

/-- The number of bytes the entries occupy. -/
def total_length (entries : List (List Nat)) : Nat :=
  (entries.map List.length).sum

/-- The state the entry loop reaches after the given entries. -/
def scan_spec (s : MadtScan) : List (List Nat) → MadtScan
  | [] => s
  | e :: es =>
    scan_spec
      { ptr := s.ptr + e.length
        count := if entry_enabled e then s.count + 1 else s.count
        cpu_apic_ids :=
          if entry_enabled e ∧ s.count < MAX_CPUS then
            fun i => if i = s.count then e.getD 3 0 else s.cpu_apic_ids i
          else s.cpu_apic_ids } es

/-- A byte address `a` holds a valid revision-0 RSDP: the 8 bytes at `a` are
`"RSD PTR "` and the 20 bytes at `a` sum to 0 modulo 256. -/
def valid_rsdp_at (mem : Nat → Nat) (a : Nat) : Prop :=
  (List.range 8).map (fun i => rd8 mem (a + i)) = [0x52, 0x53, 0x44, 0x20, 0x50, 0x54, 0x52, 0x20] ∧
  ((List.range 20).map (fun i => rd8 mem (a + i))).sum % 256 = 0

/-- An RSDT at `0x1000` with the two entries `0x3000` and `0x2000`. -/
def sample_rsdt : List Nat :=
  [82, 83, 68, 84, 44, 0, 0, 0, 1, 103, 90, 73, 71, 66, 84, 32, 90, 73, 71, 66, 79, 79, 84,
    32, 1, 0, 0, 0, 0, 0, 0, 0, 0, 0, 0, 0, 0, 48, 0, 0, 0, 32, 0, 0]

/-- A revision-0 RSDP whose `rsdt_address` is `0x1000`. -/
def sample_rsdp : List Nat :=
  [82, 83, 68, 32, 80, 84, 82, 32, 49, 90, 73, 71, 66, 84, 32, 0, 0, 16, 0, 0, 36, 0, 0, 0, 0,
    0, 0, 0, 0, 0, 0, 0, 0, 0, 0, 0]

/-- A table with signature `"FACP"`. -/
def sample_facp : List Nat :=
  [70, 65, 67, 80, 44, 0, 0, 0, 1, 218, 90, 73, 71, 66, 84, 32, 90, 73, 71, 66, 79, 79, 84,
    32, 1, 0, 0, 0, 0, 0, 0, 0, 0, 0, 0, 0, 0, 0, 0, 0, 0, 0, 0, 0]

/-- A MADT with three enabled Local APIC entries (IDs 0, 1, 3), one disabled
(ID 2) and one I/O APIC entry; its bytes sum to 1 modulo 256. -/
def sample_madt_bad : List Nat :=
  [65, 80, 73, 67, 88, 0, 0, 0, 1, 211, 90, 73, 71, 66, 84, 32, 90, 73, 71, 66, 79, 79, 84,
    32, 1, 0, 0, 0, 0, 0, 0, 0, 0, 0, 0, 0, 0, 0, 224, 254, 1, 0, 0, 0, 0, 8, 0, 0, 1, 0, 0,
    0, 0, 8, 1, 1, 1, 0, 0, 0, 1, 12, 0, 0, 0, 0, 192, 254, 0, 0, 0, 0, 0, 8, 2, 2, 0, 0, 0,
    0, 0, 8, 3, 3, 1, 0, 0, 0]

/-- The same MADT with a correct checksum byte. -/
def sample_madt : List Nat :=
  [65, 80, 73, 67, 88, 0, 0, 0, 1, 210, 90, 73, 71, 66, 84, 32, 90, 73, 71, 66, 79, 79, 84,
    32, 1, 0, 0, 0, 0, 0, 0, 0, 0, 0, 0, 0, 0, 0, 224, 254, 1, 0, 0, 0, 0, 8, 0, 0, 1, 0, 0,
    0, 0, 8, 1, 1, 1, 0, 0, 0, 1, 12, 0, 0, 0, 0, 192, 254, 0, 0, 0, 0, 0, 8, 2, 2, 0, 0, 0,
    0, 0, 8, 3, 3, 1, 0, 0, 0]

/-- A revision-2 RSDP whose `xsdt_address` is `0x1000`. -/
def sample_rsdp2 : List Nat :=
  [82, 83, 68, 32, 80, 84, 82, 32, 63, 90, 73, 71, 66, 84, 32, 2, 0, 0, 0, 0, 36, 0, 0, 0, 0,
    16, 0, 0, 0, 0, 0, 0, 0, 0, 0, 0]

/-- An XSDT with the single 64-bit entry `0x100002000`. -/
def sample_xsdt : List Nat :=
  [88, 83, 68, 84, 44, 0, 0, 0, 1, 144, 90, 73, 71, 66, 84, 32, 90, 73, 71, 66, 79, 79, 84,
    32, 1, 0, 0, 0, 0, 0, 0, 0, 0, 0, 0, 0, 0, 32, 0, 0, 1, 0, 0, 0]

/-- A MADT with 17 enabled Local APIC entries, IDs 0..16. -/
def sample_madt17 : List Nat :=
  [65, 80, 73, 67, 180, 0, 0, 0, 1, 199, 90, 73, 71, 66, 84, 32, 90, 73, 71, 66, 79, 79, 84,
    32, 1, 0, 0, 0, 0, 0, 0, 0, 0, 0, 0, 0, 0, 0, 224, 254, 1, 0, 0, 0, 0, 8, 0, 0, 1, 0, 0,
    0, 0, 8, 1, 1, 1, 0, 0, 0, 0, 8, 2, 2, 1, 0, 0, 0, 0, 8, 3, 3, 1, 0, 0, 0, 0, 8, 4, 4, 1,
    0, 0, 0, 0, 8, 5, 5, 1, 0, 0, 0, 0, 8, 6, 6, 1, 0, 0, 0, 0, 8, 7, 7, 1, 0, 0, 0, 0, 8, 8,
    8, 1, 0, 0, 0, 0, 8, 9, 9, 1, 0, 0, 0, 0, 8, 10, 10, 1, 0, 0, 0, 0, 8, 11, 11, 1, 0, 0, 0,
    0, 8, 12, 12, 1, 0, 0, 0, 0, 8, 13, 13, 1, 0, 0, 0, 0, 8, 14, 14, 1, 0, 0, 0, 0, 8, 15,
    15, 1, 0, 0, 0, 0, 8, 16, 16, 1, 0, 0, 0]

/-- Memory with the RSDP in the BIOS area, the RSDT, a FACP table and the MADT
with the wrong checksum. -/
def acpi_mem_rsdt : Nat → Nat :=
  mem_of [(0xE0040, sample_rsdp), (0x1000, sample_rsdt), (0x3000, sample_facp),
    (0x2000, sample_madt_bad)]

/-- Memory with a revision-2 RSDP, the XSDT and a MADT above 4 GiB. -/
def acpi_mem_xsdt : Nat → Nat :=
  mem_of [(0xE0040, sample_rsdp2), (0x1000, sample_xsdt), (0x100002000, sample_madt)]

/-- Memory with the 17-CPU MADT at `0x2000`. -/
def acpi_mem17 : Nat → Nat := mem_of [(0x2000, sample_madt17)]


/-- The entries of `sample_madt`, one byte list per entry: Local APIC 0 and 1
enabled, an I/O APIC entry, Local APIC 2 disabled, Local APIC 3 enabled. -/
def sample_madt_entries : List (List Nat) :=
  [[0, 8, 0, 0, 1, 0, 0, 0], [0, 8, 1, 1, 1, 0, 0, 0], [1, 12, 0, 0, 0, 0, 192, 254, 0, 0, 0, 0],
    [0, 8, 2, 2, 0, 0, 0, 0], [0, 8, 3, 3, 1, 0, 0, 0]]

/-! ## SMP bring-up: trampoline patching and the INIT-SIPI-SIPI sequence -/

def AP_STACK_SIZE : Nat := 8192
def APIC_ICR_LOW : Nat := 0x300
def APIC_ICR_HIGH : Nat := 0x310
def X2APIC_MSR_BASE : Nat := 0x800
def X2APIC_ICR : Nat := 0x830
def APIC_DM_INIT : Nat := 0x00000500
def APIC_DM_STARTUP : Nat := 0x00000600
def APIC_INT_LEVELTRIG : Nat := 0x00008000
def APIC_INT_ASSERT : Nat := 0x00004000

/-- The copy loop `while (n--) *d++ = *s++` of `memcpy`: byte `i` is read from
the memory as it is after the first `i` stores. -/
def memcpy (mem : Nat → Nat) (dest src n : Nat) : Nat → Nat :=
  for_loop 0 n (fun m i => fun a => if a = dest + i then rd8 m (src + i) else m a) mem

/-- A little-endian store of a `uint64_t` at address `a`. -/
def store64 (mem : Nat → Nat) (a v : Nat) : Nat → Nat :=
  fun x => if a ≤ x ∧ x < a + 8 then (v >>> (8 * (x - a))) % 256 else mem x

/-- Memory effect of `setup_trampoline`: the blob of `trampoline_size` bytes
at `trampoline_start` is copied to 0x8000 and the three slots at the end of
the copy are patched.  `cr3` is the value read from the register and
`ap_entry` the address of the function.  The console output of the function
goes to the serial port and touches no memory outside its own stack frame. -/
def setup_trampoline (mem : Nat → Nat) (trampoline_start trampoline_size cr3 ap_entry : Nat) :
    Nat → Nat :=
  let m1 := memcpy mem 0x8000 trampoline_start trampoline_size
  let cr3_ptr := sub64 ((0x8000 + trampoline_size) % U64) 24
  let stack_ptr := sub64 ((0x8000 + trampoline_size) % U64) 16
  let entry_ptr := sub64 ((0x8000 + trampoline_size) % U64) 8
  let m2 := store64 m1 cr3_ptr cr3
  let m3 := store64 m2 stack_ptr 0
  store64 m3 entry_ptr ap_entry

/-- An access that is visible outside the executing core: port I/O, MSR
access, a load or store of the xAPIC register `apic_base[index]`, a 64-bit
store to memory, and the instructions `wbinvd` and `pause`. -/
inductive Event where
  | outb (port val : Nat)
  | inb (port : Nat)
  | wrmsr (msr value : Nat)
  | rdmsr (msr : Nat)
  | mmio_write (index value : Nat)
  | mmio_read (index : Nat)
  | store64 (addr value : Nat)
  | wbinvd
  | pause
  deriving DecidableEq

/-- The events that write: port output, MSR write, xAPIC register store and
memory store. -/
def Event.is_write : Event → Bool
  | .outb _ _ => true
  | .wrmsr _ _ => true
  | .mmio_write _ _ => true
  | .store64 _ _ => true
  | _ => false

/-- Machine state seen by the bring-up code: memory, the accesses performed so
far in program order, the number of hardware reads performed so far, and the
global `use_x2apic`. -/
structure Machine where
  mem : Nat → Nat
  trace : List Event
  reads : Nat
  use_x2apic : Bool

/-- Append one access to the trace. -/
def emit (m : Machine) (e : Event) : Machine :=
  { m with trace := m.trace ++ [e] }

/-- The write accesses of the trace, in program order. -/
def writes_of (m : Machine) : List Event := m.trace.filter Event.is_write

/-- The instruction wrapper `rdmsr`; `hw k` is the value the hardware returns
to the `k`-th read. -/
def rdmsr (hw : Nat → Nat) (msr : Nat) (m : Machine) : Nat × Machine :=
  (hw m.reads % U64, { emit m (.rdmsr msr) with reads := m.reads + 1 })

/-- The instruction wrapper `wrmsr`. -/
def wrmsr (msr value : Nat) (m : Machine) : Machine :=
  emit m (.wrmsr msr (value % U64))

def apic_read (hw : Nat → Nat) (reg : Nat) (m : Machine) : Nat × Machine :=
  if m.use_x2apic then
    let msr := (X2APIC_MSR_BASE + (reg >>> 4)) % 2 ^ 32
    let r := rdmsr hw msr m
    (r.1 % 2 ^ 32, r.2)
  else
    (hw m.reads % 2 ^ 32, { emit m (.mmio_read (reg >>> 2)) with reads := m.reads + 1 })

def apic_write (reg value : Nat) (m : Machine) : Machine :=
  if m.use_x2apic then
    let msr := (X2APIC_MSR_BASE + (reg >>> 4)) % 2 ^ 32
    wrmsr msr value m
  else
    emit m (.mmio_write (reg >>> 2) value)

/-- The loop `while ((apic_read(APIC_ICR_LOW) & (1 << 12)) && timeout--)
pause;` of `apic_wait_icr`, by recursion on `timeout`. -/
def wait_loop (hw : Nat → Nat) : Nat → Machine → Machine
  | 0, m => (apic_read hw APIC_ICR_LOW m).2
  | t + 1, m =>
    let r := apic_read hw APIC_ICR_LOW m
    if r.1 &&& (1 <<< 12) ≠ 0 then wait_loop hw t (emit r.2 .pause) else r.2

def apic_wait_icr (hw : Nat → Nat) (m : Machine) : Machine :=
  if m.use_x2apic then m else wait_loop hw 1000000 m

/-- The function `send_ipi`; both parameters are `uint32_t`. -/
def send_ipi (hw : Nat → Nat) (apic_id flags : Nat) (m : Machine) : Machine :=
  let apic_id := apic_id % 2 ^ 32
  let flags := flags % 2 ^ 32
  if m.use_x2apic then
    let icr := ((apic_id <<< 32) % U64) ||| flags
    wrmsr X2APIC_ICR icr m
  else
    let m := apic_wait_icr hw m
    let m := apic_write APIC_ICR_HIGH ((apic_id <<< 24) % 2 ^ 32) m
    let m := apic_write APIC_ICR_LOW flags m
    apic_wait_icr hw m

/-- The busy loop of `udelay`: `usec * 10` executions of `pause`. -/
def udelay (usec : Nat) (m : Machine) : Machine :=
  for_loop 0 ((usec * 10) % U64) (fun m _ => emit m .pause) m

def mdelay (msec : Nat) (m : Machine) : Machine :=
  for_loop 0 msec (fun m _ => udelay 1000 m) m

/-- The function `boot_ap`.  The globals `cpu_count` and `cpu_apic_ids`, the
address of `ap_stacks` and `trampoline_end - trampoline_start` are parameters;
`cpu_apic_ids` has element type `uint8_t`. -/
def boot_ap (hw : Nat → Nat) (cpu_count : Nat) (cpu_apic_ids : Nat → Nat)
    (ap_stacks trampoline_size : Nat) (cpu_idx : Nat) (m : Machine) : Machine :=
  if cpu_idx = 0 then m
  else if cpu_idx ≥ cpu_count then m
  else
    let apic_id := cpu_apic_ids cpu_idx % 256
    let start_eip := 0x8000
    let stack_ptr := sub64 ((0x8000 + trampoline_size) % U64) 16
    let stack_top := (ap_stacks + cpu_idx * AP_STACK_SIZE + AP_STACK_SIZE) % U64
    let m := emit { m with mem := store64 m.mem stack_ptr stack_top } (.store64 stack_ptr stack_top)
    let m := emit m .wbinvd
    let m := send_ipi hw apic_id (APIC_INT_LEVELTRIG ||| APIC_INT_ASSERT ||| APIC_DM_INIT) m
    let m := apic_wait_icr hw m
    let m := mdelay 10 m
    let m := send_ipi hw apic_id (APIC_INT_LEVELTRIG ||| APIC_DM_INIT) m
    let m := apic_wait_icr hw m
    let m := send_ipi hw apic_id (APIC_DM_STARTUP ||| (start_eip >>> 12)) m
    let m := apic_wait_icr hw m
    let m := udelay 200 m
    let m := send_ipi hw apic_id (APIC_DM_STARTUP ||| (start_eip >>> 12)) m
    let m := apic_wait_icr hw m
    udelay 200 m

/-- The write accesses of one IPI to `apic_id` with ICR flag word `flags`: in
x2APIC mode one write of the 64-bit ICR MSR with the destination in bits
32..63; in xAPIC mode the destination in bits 24..31 of ICR high, then the
flag word to ICR low. -/
def ipi_writes (x2apic : Bool) (apic_id flags : Nat) : List Event :=
  if x2apic then [.wrmsr 0x830 ((apic_id <<< 32) ||| flags)]
  else [.mmio_write (0x310 / 4) (apic_id <<< 24), .mmio_write (0x300 / 4) flags]

/-- The step from `m` to `n` leaves memory and the APIC mode alone and adds
exactly the write accesses `w`. -/
def adds_writes (m n : Machine) (w : List Event) : Prop :=
  n.mem = m.mem ∧ n.use_x2apic = m.use_x2apic ∧ writes_of n = writes_of m ++ w

/-- A machine in xAPIC mode with empty trace and zeroed memory. -/
def sample_machine : Machine :=
  { mem := fun _ => 0, trace := [], reads := 0, use_x2apic := false }
/-! ## APIC register constants -/

def APIC_ID_REG : Nat := 0x20
def APIC_EOI_REG : Nat := 0xB0
def APIC_SVR_REG : Nat := 0xF0
def APIC_TIMER_LVT : Nat := 0x320
def APIC_TIMER_ICR : Nat := 0x380
def APIC_TIMER_CCR : Nat := 0x390
def APIC_TIMER_DCR : Nat := 0x3E0
def X2APIC_APICID : Nat := 0x802
def X2APIC_EOI : Nat := 0x80B
def X2APIC_SVR : Nat := 0x80F
def X2APIC_LVT_TIMER : Nat := 0x832
def X2APIC_TIMER_ICR : Nat := 0x838
def X2APIC_TIMER_CCR : Nat := 0x839
def X2APIC_TIMER_DCR : Nat := 0x83E

/-- A machine in x2APIC mode with empty trace and zeroed memory. -/
def sample_machine_x2 : Machine :=
  { mem := fun _ => 0, trace := [], reads := 0, use_x2apic := true }

/-- A memory map in which the first frame is available, as low memory is on a
PC. -/
def low_mmap : List MmapEntry :=
  [⟨0x0, 0x4000, 1⟩, ⟨0x100000, 0x10000, 1⟩]

/-- The PMM built by `kernel_main` from `low_mmap`, with the kernel image at
`[0x100000, 0x104000)` and the boot information at `0x108000`. -/
def low_pmm : PMM :=
  pmm_construct (parse_multiboot_mmap low_mmap) 0x108000 0x100 0x100000 0x104000
    (fun _ => 0) low_mmap

/-- A MADT of 52 bytes with a correct checksum whose only entry, at offset 44,
has type 1 and a length field of 0. -/
def sample_madt_zero : List Nat :=
  [65, 80, 73, 67, 52, 0, 0, 0, 1, 239, 90, 73, 71, 66, 84, 32, 90, 73, 71, 66, 79, 79, 84, 32,
    1, 0, 0, 0, 0, 0, 0, 0, 0, 0, 0, 0, 0, 0, 224, 254, 1, 0, 0, 0, 1, 0, 0, 0, 0, 0, 0, 0]

/-- A memory with `sample_madt_zero` at 0x2000. -/
def acpi_mem_zero : Nat → Nat := mem_of [(0x2000, sample_madt_zero)]

/-- Every entry header that the walk from `p` meets before `end_ptr`, within
`k` entries, has a length field of at least 1. -/
def lengths_nonzero (mem : Nat → Nat) (end_ptr : Nat) : Nat → Nat → Bool
  | 0, _ => true
  | k + 1, p =>
    if p < end_ptr then
      decide (1 ≤ rd8 mem (p + 1)) && lengths_nonzero mem end_ptr k (p + rd8 mem (p + 1))
    else true

/-! ## Bring-up of all application processors -/

/-- The function `boot_all_aps`: the store `cpus_online = 1`, one `boot_ap`
per index `1 .. cpu_count - 1`, and the final loop of 1000000 `pause`
instructions.  The result is the value of `cpus_online` and the machine. -/
def boot_all_aps (hw : Nat → Nat) (cpu_count : Nat) (cpu_apic_ids : Nat → Nat)
    (ap_stacks trampoline_size : Nat) (m : Machine) : Nat × Machine :=
  let cpus_online := 1
  let m := for_loop 1 cpu_count
    (fun m i => boot_ap hw cpu_count cpu_apic_ids ap_stacks trampoline_size i m) m
  let m := for_loop 0 1000000 (fun m _ => emit m .pause) m
  (cpus_online, m)

/-- A port access: an `in` or `out` instruction. -/
def Event.is_port : Event → Bool
  | .outb _ _ => true
  | .inb _ => true
  | _ => false

/-- An access to one of the COM1 UART ports 0x3F8..0x3FF. -/
def Event.is_com1 : Event → Bool
  | .outb port _ => decide (0x3F8 ≤ port ∧ port ≤ 0x3FF)
  | .inb port => decide (0x3F8 ≤ port ∧ port ≤ 0x3FF)
  | _ => false

/-- The trace of `n` is the trace of `m` followed by accesses none of which
is a port access. -/
def adds_no_port (m n : Machine) : Prop :=
  ∃ evs, n.trace = m.trace ++ evs ∧ ∀ e, e ∈ evs → e.is_port = false

/-- The counter `cpus_online` together with the index `my_id` that each
application processor has obtained so far (`none` before its fetch-and-add). -/
structure Online where
  cpus_online : Nat
  my_id : Nat → Option Nat

/-- The store `cpus_online = 1` of `boot_all_aps`. -/
def bsp_set_online (s : Online) : Online :=
  { s with cpus_online := 1 }

/-- The atomic step `my_id = __atomic_fetch_add(&cpus_online, 1, ...)` of
`ap_entry`, executed by the application processor `ap`; `cpus_online` is a
`uint32_t`. -/
def ap_fetch_add (s : Online) (ap : Nat) : Online :=
  { cpus_online := (s.cpus_online + 1) % 2 ^ 32
    my_id := fun a => if a = ap then some s.cpus_online else s.my_id a }

/-- An interleaving: the application processors execute their atomic step in
the order of the list. -/
def run_aps (s : Online) (order : List Nat) : Online :=
  order.foldl ap_fetch_add s

/-! ## Exception handler -/

/-- One console call of `exception_handler`: `puts` of a string literal,
`puts(exception_names[index])`, `print_hex` and `print_hex_64`. -/
inductive ConsoleCall where
  | puts (s : String)
  | puts_exception_name (index : Nat)
  | print_hex (num : Nat)
  | print_hex_64 (num : Nat)
  deriving DecidableEq

/-- The global `exception_count` and the console calls made so far. -/
structure ExcState where
  exception_count : Nat
  console : List ConsoleCall

/-- How a call ends: it returns to its caller, or it enters the loop
`while (1) hlt` and never returns. -/
inductive Outcome where
  | returned (s : ExcState)
  | halted (s : ExcState)

/-- The state at the return or at the entry of the halt loop. -/
def Outcome.state : Outcome → ExcState
  | .returned s => s
  | .halted s => s

/-- Whether the call returns to its caller. -/
def Outcome.returns : Outcome → Bool
  | .returned _ => true
  | .halted _ => false

/-- The function `exception_handler`; the three parameters are `uint64_t`,
`exception_count` is a `uint32_t` and `print_hex` takes a `uint32_t`. -/
def exception_handler (s : ExcState) (vector error_code rip : Nat) : Outcome :=
  let s : ExcState := { s with exception_count := (s.exception_count + 1) % 2 ^ 32 }
  let say (s : ExcState) (c : ConsoleCall) : ExcState := { s with console := s.console ++ [c] }
  let s := say s (.puts "\n[EXCEPTION] ")
  let s :=
    if vector < 32 then say s (.puts_exception_name vector)
    else if vector = 255 then say s (.puts "Spurious/Unhandled Interrupt")
    else say s (.puts "Unknown Exception")
  let s := say s (.puts " (Vector ")
  let s := say s (.print_hex (vector % 2 ^ 32))
  let s := say s (.puts ")\n")
  let s := say s (.puts "  Error Code: ")
  let s := say s (.print_hex_64 error_code)
  let s := say s (.puts "\n")
  let s := say s (.puts "  RIP: ")
  let s := say s (.print_hex_64 rip)
  let s := say s (.puts "\n")
  if vector = 3 ∨ vector = 255 then
    .returned (say s (.puts "[INFO] Continuing execution...\n"))
  else
    .halted (say s (.puts "[HALT] System halted due to exception\n"))

/-! ## Distributed sum -/

/-- The macro `SUM_TARGET`. -/
def SUM_TARGET : Nat := 10000000

/-- The globals `partial_sums` and `total_sum`. -/
structure SumState where
  partial_sums : Nat → Nat
  total_sum : Nat

/-- The local `start` of `test_distributed_sum`:
`cpu_id * per_cpu_work + 1` with `per_cpu_work = SUM_TARGET / cpu_count`. -/
def sum_start (cpu_count cpu_id : Nat) : Nat :=
  (cpu_id * (SUM_TARGET / cpu_count) + 1) % U64

/-- The local `end` of `test_distributed_sum`: `(cpu_id + 1) * per_cpu_work`,
replaced by `SUM_TARGET` when `cpu_id == cpu_count - 1`. -/
def sum_end (cpu_count cpu_id : Nat) : Nat :=
  if cpu_id + 1 = cpu_count then SUM_TARGET
  else ((cpu_id + 1) * (SUM_TARGET / cpu_count)) % U64

/-- The loop `for (i = start; i <= end; i++) local_sum += i` on `uint64_t`. -/
def local_sum_loop (start last : Nat) : Nat :=
  for_loop start (last + 1) (fun local_sum i => (local_sum + i) % U64) 0

/-- The function `test_distributed_sum`; the final atomic addition makes the
call one step on the shared `total_sum`. -/
def test_distributed_sum (cpu_count : Nat) (s : SumState) (cpu_id : Nat) : SumState :=
  let local_sum := local_sum_loop (sum_start cpu_count cpu_id) (sum_end cpu_count cpu_id)
  { partial_sums := fun k => if k = cpu_id then local_sum else s.partial_sums k
    total_sum := (s.total_sum + local_sum) % U64 }

/-- The number `x` lies in the inclusive range of CPU `cpu_id`. -/
def in_sum_range (cpu_count cpu_id x : Nat) : Prop :=
  sum_start cpu_count cpu_id ≤ x ∧ x ≤ sum_end cpu_count cpu_id

/-- The exact sum of the integers `start .. last`, as a natural number. -/
def exact_sum (start last : Nat) : Nat :=
  (List.range' start (last + 1 - start)).sum

/-! ## Decimal printing -/

/-- The loop `while (num > 0 && i >= 0) { buf[i--] = '0' + (num % 10);
num /= 10; }` on a buffer of `size` bytes, with `n` iterations of fuel; the
result is the buffer and the final `i`.  `none` means that an index outside
`0 .. size - 1` was used or that the fuel ran out. -/
def dec_loop (size : Nat) : Nat → (Nat → Nat) → Int → Nat → Option ((Nat → Nat) × Int)
  | 0, _, _, _ => none
  | n + 1, buf, i, num =>
    if num > 0 ∧ i ≥ 0 then
      if i.toNat < size then
        dec_loop size n (fun k => if k = i.toNat then (48 + num % 10) % 256 else buf k)
          (i - 1) (num / 10)
      else none
    else some (buf, i)

/-- The call `puts(&buf[p])`: the characters handed to `putc` up to the
terminating 0, a carriage return before each line feed.  `none` means that an
index outside `0 .. size - 1` was read or that the fuel ran out. -/
def puts_buf (size : Nat) : Nat → (Nat → Nat) → Int → Option (List Nat)
  | 0, _, _ => none
  | n + 1, buf, p =>
    if 0 ≤ p ∧ p.toNat < size then
      if buf p.toNat = 0 then some []
      else
        match puts_buf size n buf (p + 1) with
        | none => none
        | some rest => some ((if buf p.toNat = 10 then [13, 10] else [buf p.toNat]) ++ rest)
    else none

/-- The common body of `print_dec` and `print_dec_64`, which differ in the
buffer size only: `char buf[size]; int i = size - 1; buf[i--] = 0;`, the
special case for 0, the digit loop and the final `puts(&buf[i + 1])`.
`garbage` is the content of the uninitialised buffer; the result is the list
of characters handed to `putc`. -/
def print_dec_body (size : Nat) (garbage : Nat → Nat) (fuel : Nat) (num : Nat) :
    Option (List Nat) :=
  let i : Int := (size : Int) - 1
  if 0 ≤ i ∧ i.toNat < size then
    let buf : Nat → Nat := fun k => if k = i.toNat then 0 else garbage k
    let i := i - 1
    if num = 0 then some [48]
    else
      match dec_loop size fuel buf i num with
      | none => none
      | some r => puts_buf size fuel r.1 (r.2 + 1)
  else none

/-- The function `print_dec`: a `uint32_t` argument and `char buf[12]`. -/
def print_dec (garbage : Nat → Nat) (fuel : Nat) (num : Nat) : Option (List Nat) :=
  print_dec_body 12 garbage fuel (num % 2 ^ 32)

/-- The function `print_dec_64`: a `uint64_t` argument and `char buf[24]`. -/
def print_dec_64 (garbage : Nat → Nat) (fuel : Nat) (num : Nat) : Option (List Nat) :=
  print_dec_body 24 garbage fuel (num % 2 ^ 64)

/-- Reading a list of characters as a base-10 number, most significant digit
first. -/
def parse_dec (out : List Nat) : Nat :=
  out.foldl (fun acc c => acc * 10 + (c - 48)) 0

/-- The list of characters is a canonical decimal numeral of at most `width`
digits: not empty, digits `0` .. `9` only, and no leading `0` unless it is the
single character `0`. -/
def canonical_decimal (width : Nat) (out : List Nat) : Prop :=
  1 ≤ out.length ∧ out.length ≤ width ∧ (∀ c, c ∈ out → 48 ≤ c ∧ c ≤ 57) ∧
  (out.head? = some 48 → out = [48])

/-! ## Sense-reversing barrier -/

/-- Where a caller of `barrier_wait` stands: before the read of
`barrier_sense`, before the atomic increment of `barrier_count`, before the
reset `barrier_count = 0`, before the store of the flipped sense, in the
polling loop, or returned. -/
inductive BarrierPc where
  | read_sense
  | add_count
  | reset_count
  | store_sense
  | poll
  | done
  deriving DecidableEq

/-- The locals `my_sense` and `arrived` of one caller. -/
structure BarrierCaller where
  pc : BarrierPc
  my_sense : Nat
  arrived : Nat

/-- The globals `barrier_count` and `barrier_sense`, the callers, and the
history of the stores to `barrier_sense` (the callers that executed one, in
order). -/
structure BarrierState where
  barrier_count : Nat
  barrier_sense : Nat
  callers : Nat → BarrierCaller
  flips : List Nat

/-- Replace the locals of caller `t`. -/
def set_caller (s : BarrierState) (t : Nat) (c : BarrierCaller) : BarrierState :=
  { s with callers := fun u => if u = t then c else s.callers u }

/-- One atomic action of caller `t` in `barrier_wait`: the read of
`barrier_sense`; the atomic `add_fetch` on the `uint32_t` `barrier_count`
together with the test `arrived == (uint32_t)cpu_count` on the returned value;
the reset of `barrier_count`; the store of `!my_sense`; one load of the
polling loop. -/
def barrier_step (cpu_count : Nat) (s : BarrierState) (t : Nat) : BarrierState :=
  match (s.callers t).pc with
  | .read_sense =>
    set_caller s t { s.callers t with pc := .add_count, my_sense := s.barrier_sense }
  | .add_count =>
    set_caller { s with barrier_count := (s.barrier_count + 1) % 2 ^ 32 } t
      { s.callers t with
        arrived := (s.barrier_count + 1) % 2 ^ 32
        pc := if (s.barrier_count + 1) % 2 ^ 32 = cpu_count % 2 ^ 32 then .reset_count
              else .poll }
  | .reset_count =>
    set_caller { s with barrier_count := 0 } t { s.callers t with pc := .store_sense }
  | .store_sense =>
    set_caller
      { s with
        barrier_sense := if (s.callers t).my_sense = 0 then 1 else 0
        flips := s.flips ++ [t] } t
      { s.callers t with pc := .done }
  | .poll =>
    if s.barrier_sense = (s.callers t).my_sense then s
    else set_caller s t { s.callers t with pc := .done }
  | .done => s

/-- The start of an episode: `barrier_count = 0`, `barrier_sense = sense`, no
caller has started. -/
def barrier_init (sense : Nat) : BarrierState :=
  { barrier_count := 0, barrier_sense := sense,
    callers := fun _ => { pc := .read_sense, my_sense := 0, arrived := 0 }, flips := [] }

/-- The state after the atomic actions of the callers named in `sched`, in
that order. -/
def barrier_run (cpu_count : Nat) (s : BarrierState) (sched : List Nat) : BarrierState :=
  sched.foldl (barrier_step cpu_count) s

/-- The caller has performed its increment of `barrier_count`. -/
def incremented (c : BarrierCaller) : Bool :=
  match c.pc with
  | .read_sense => false
  | .add_count => false
  | _ => true

/-- How many of the callers `0 .. m-1` have performed their increment. -/
def arrivals (m : Nat) (s : BarrierState) : Nat :=
  (List.range m).countP (fun t => incremented (s.callers t))

/-- The invariant of an episode with `m ≤ n` callers and `cpu_count = n`.
Either nobody has seen its increment return `n`: then `barrier_count` is the
number of increments, `barrier_sense` has its initial value `s0` and nobody has
returned.  Or one caller `l` has: then all `m = n` callers have incremented,
and `l` is about to reset the count, about to store the sense, or has stored
it and returned; only in the last case may other callers have returned. -/
def barrier_inv (n m s0 : Nat) (s : BarrierState) : Prop :=
  (s.barrier_count = arrivals m s ∧ arrivals m s < n ∧ s.barrier_sense = s0 ∧ s.flips = [] ∧
    ∀ t, t < m → (s.callers t).pc = .read_sense ∨
      (((s.callers t).pc = .add_count ∨ (s.callers t).pc = .poll) ∧
        (s.callers t).my_sense = s0)) ∨
  (∃ l, l < m ∧ m = n ∧ (s.callers l).arrived = n ∧ (s.callers l).my_sense = s0 ∧
    (∀ t, t < m → t ≠ l → (s.callers t).my_sense = s0 ∧
      ((s.callers t).pc = .poll ∨ ((s.callers t).pc = .done ∧ s.flips = [l]))) ∧
    (((s.callers l).pc = .reset_count ∧ s.barrier_count = n ∧ s.barrier_sense = s0 ∧
        s.flips = []) ∨
      ((s.callers l).pc = .store_sense ∧ s.barrier_count = 0 ∧ s.barrier_sense = s0 ∧
        s.flips = []) ∨
      ((s.callers l).pc = .done ∧ s.barrier_count = 0 ∧
        s.barrier_sense = (if s0 = 0 then 1 else 0) ∧ s.flips = [l])))

/-! ## Bit-level facts -/

theorem and_one_shl_ne_zero (x j : Nat) : ((x &&& (1 <<< j)) != 0) = x.testBit j := by
  rw [Nat.one_shiftLeft]
  cases h : x.testBit j
  · have : x &&& 2 ^ j = 0 := by
      apply Nat.eq_of_testBit_eq
      intro i
      simp only [Nat.testBit_and, Nat.testBit_two_pow, Nat.zero_testBit]
      by_cases hij : j = i
      · subst hij; simp [h]
      · simp [hij]
    simp [this]
  · have : (x &&& 2 ^ j).testBit j = true := by
      simp [Nat.testBit_and, Nat.testBit_two_pow, h]
    have hne : x &&& 2 ^ j ≠ 0 := by
      intro h0
      rw [h0] at this
      simp at this
    simpa using hne

theorem testBit_set (b i j : Nat) (hj : j < 8) :
    ((b ||| (1 <<< i)) % 256).testBit j = (decide (j = i) || b.testBit j) := by
  have : (256 : Nat) = 2 ^ 8 := by norm_num
  rw [this, Nat.testBit_mod_two_pow, Nat.testBit_or, Nat.one_shiftLeft, Nat.testBit_two_pow]
  simp [hj, eq_comm, Bool.or_comm]

theorem testBit_clear (b i j : Nat) (hj : j < 8) :
    ((b &&& (0xFFFFFFFF ^^^ (1 <<< i))) % 256).testBit j
      = (!decide (j = i) && b.testBit j) := by
  have h256 : (256 : Nat) = 2 ^ 8 := by norm_num
  have h32 : (0xFFFFFFFF : Nat) = 2 ^ 32 - 1 := by norm_num
  rw [h256, Nat.testBit_mod_two_pow, Nat.testBit_and, Nat.testBit_xor, h32,
    Nat.testBit_two_pow_sub_one, Nat.one_shiftLeft, Nat.testBit_two_pow]
  have h32j : j < 32 := by omega
  by_cases hij : j = i
  · subst hij; simp [hj, h32j]
  · have : ¬ i = j := fun h => hij h.symm
    simp [hj, hij, h32j, this]

theorem is_used_testBit (s : PMM) (p : Nat) :
    pmm_is_page_used s p = (s.pmm_bitmap (p / 8)).testBit (p % 8) := by
  unfold pmm_is_page_used
  exact and_one_shl_ne_zero _ _

theorem is_used_mark (s : PMM) (p q : Nat) :
    pmm_is_page_used (pmm_mark_page s p) q = (decide (q = p) || pmm_is_page_used s q) := by
  simp only [is_used_testBit, pmm_mark_page, set_byte]
  by_cases hb : q / 8 = p / 8
  · rw [if_pos hb, testBit_set _ _ _ (Nat.mod_lt _ (by norm_num)), hb]
    by_cases hq : q = p
    · subst hq; simp
    · have : q % 8 ≠ p % 8 := by omega
      simp [hq, this]
  · rw [if_neg hb]
    have : q ≠ p := by rintro rfl; exact hb rfl
    simp [this]

theorem is_used_clear (s : PMM) (p q : Nat) :
    pmm_is_page_used (pmm_clear_page s p) q = (!decide (q = p) && pmm_is_page_used s q) := by
  simp only [is_used_testBit, pmm_clear_page, set_byte]
  by_cases hb : q / 8 = p / 8
  · rw [if_pos hb, testBit_clear _ _ _ (Nat.mod_lt _ (by norm_num)), hb]
    by_cases hq : q = p
    · subst hq; simp
    · have : q % 8 ≠ p % 8 := by omega
      simp [hq, this]
  · rw [if_neg hb]
    have : q ≠ p := by rintro rfl; exact hb rfl
    simp [this]

theorem is_used_inc (s : PMM) (q : Nat) :
    pmm_is_page_used (inc_used s) q = pmm_is_page_used s q := rfl

theorem is_used_dec (s : PMM) (q : Nat) :
    pmm_is_page_used (dec_used s) q = pmm_is_page_used s q := by
  simp only [pmm_is_page_used, dec_used]

/-! ## Frame conditions of the PMM operations -/

theorem same_layout_refl (s : PMM) : same_layout s s := ⟨rfl, rfl, rfl, rfl⟩

theorem same_layout_trans {s t u : PMM} (h1 : same_layout s t) (h2 : same_layout t u) :
    same_layout s u :=
  ⟨h2.1.trans h1.1, h2.2.1.trans h1.2.1, h2.2.2.1.trans h1.2.2.1, h2.2.2.2.trans h1.2.2.2⟩

theorem foldl_same_layout {α : Type} (f : PMM → α → PMM)
    (hf : ∀ s a, same_layout s (f s a)) (l : List α) (s : PMM) :
    same_layout s (l.foldl f s) := by
  induction l generalizing s with
  | nil => exact same_layout_refl s
  | cons a l ih => exact same_layout_trans (hf s a) (ih (f s a))

theorem free_bit_body_layout (s : PMM) (p : Nat) : same_layout s (free_bit_body s p) := by
  unfold free_bit_body
  split
  · exact ⟨rfl, rfl, rfl, rfl⟩
  · exact same_layout_refl s

theorem used_bit_body_layout (s : PMM) (p : Nat) : same_layout s (used_bit_body s p) := by
  unfold used_bit_body
  split
  · exact ⟨rfl, rfl, rfl, rfl⟩
  · exact same_layout_refl s

theorem for_loop_layout (f : PMM → Nat → PMM) (hf : ∀ s a, same_layout s (f s a))
    (lo hi : Nat) (s : PMM) : same_layout s (for_loop lo hi f s) :=
  foldl_same_layout f hf _ s

theorem set_byte_layout (s : PMM) (b v : Nat) : same_layout s (set_byte s b v) :=
  ⟨rfl, rfl, rfl, rfl⟩

theorem free_byte_body_layout (s : PMM) (b : Nat) : same_layout s (free_byte_body s b) := by
  unfold free_byte_body
  refine same_layout_trans (set_byte_layout s b 0) (for_loop_layout _ ?_ _ _ _)
  intro t i
  split
  · exact ⟨rfl, rfl, rfl, rfl⟩
  · exact same_layout_refl t

theorem pmm_mark_region_free_layout (s : PMM) (base length : Nat) :
    same_layout s (pmm_mark_region_free s base length) := by
  unfold pmm_mark_region_free
  simp only
  have h1 : same_layout s
      (if (base / PAGE_SIZE % 8 != 0) = true then
        for_loop (base / PAGE_SIZE)
          (min ((base / PAGE_SIZE / 8 + 1) * 8) ((base + length) % U64 / PAGE_SIZE))
          free_bit_body s
      else s) := by
    split
    · exact for_loop_layout _ free_bit_body_layout _ _ _
    · exact same_layout_refl s
  split
  · exact same_layout_trans h1 (same_layout_trans
      (for_loop_layout _ free_byte_body_layout _ _ _)
      (for_loop_layout _ free_bit_body_layout _ _ _))
  · exact same_layout_trans h1 (for_loop_layout _ free_byte_body_layout _ _ _)

theorem free_region_body_layout (s : PMM) (e : MmapEntry) :
    same_layout s (free_region_body s e) := by
  unfold free_region_body
  split
  · simp only
    split
    · exact same_layout_refl s
    · exact pmm_mark_region_free_layout _ _ _
  · exact same_layout_refl s

/-! ## The marking loop of `pmm_mark_region_used` -/

theorem used_bit_body_spec (s : PMM) (p q : Nat) :
    pmm_is_page_used (used_bit_body s p) q
      = ((decide (q = p) && decide (p < s.total_pages)) || pmm_is_page_used s q) := by
  unfold used_bit_body
  by_cases hp : p < s.total_pages
  · cases hu : pmm_is_page_used s p
    · simp [hp, hu, is_used_inc, is_used_mark]
    · by_cases hq : q = p
      · subst hq; simp [hp, hu]
      · simp [hp, hu, hq]
  · simp [hp]

theorem used_loop_spec (l : List Nat) (s : PMM) (q : Nat) :
    pmm_is_page_used (l.foldl used_bit_body s) q
      = ((decide (q ∈ l) && decide (q < s.total_pages)) || pmm_is_page_used s q) := by
  induction l generalizing s with
  | nil => simp
  | cons a l ih =>
    rw [List.foldl_cons, ih, used_bit_body_spec, (used_bit_body_layout s a).1]
    by_cases hq : q = a
    · subst hq
      by_cases hl : q ∈ l <;> by_cases ht : q < s.total_pages <;> simp [hl, ht]
    · by_cases hl : q ∈ l <;> simp [hl, hq]

/-! ## The scan of `pmm_alloc_page` -/

theorem alloc_scan_found (s : PMM) :
    ∀ (k n i : Nat), k < n →
      (∀ j, i ≤ j → j < i + k → pmm_is_page_used s j = true) →
      pmm_is_page_used s (i + k) = false →
      pmm_alloc_scan s n i
        = (inc_used (pmm_mark_page s (i + k)), ((i + k) * PAGE_SIZE) % U64) := by
  intro k
  induction k with
  | zero =>
    intro n i hn _ hfree
    obtain ⟨m, rfl⟩ : ∃ m, n = m + 1 := ⟨n - 1, by omega⟩
    simp only [Nat.add_zero] at hfree ⊢
    simp [pmm_alloc_scan, hfree]
  | succ k ih =>
    intro n i hn hused hfree
    obtain ⟨m, rfl⟩ : ∃ m, n = m + 1 := ⟨n - 1, by omega⟩
    have hi : pmm_is_page_used s i = true := hused i (Nat.le_refl _) (by omega)
    have := ih m (i + 1) (by omega) (fun j h1 h2 => hused j (by omega) (by omega))
      (by rw [show i + 1 + k = i + (k + 1) by omega]; exact hfree)
    rw [show i + 1 + k = i + (k + 1) by omega] at this
    simp [pmm_alloc_scan, hi, this]

theorem alloc_scan_none (s : PMM) :
    ∀ (n i : Nat), (∀ j, i ≤ j → j < i + n → pmm_is_page_used s j = true) →
      pmm_alloc_scan s n i = (s, 0) := by
  intro n
  induction n with
  | zero => intro i _; rfl
  | succ n ih =>
    intro i hused
    have hi : pmm_is_page_used s i = true := hused i (Nat.le_refl _) (by omega)
    have := ih (i + 1) (fun j h1 h2 => hused j (by omega) (by omega))
    simp [pmm_alloc_scan, hi, this]

/-- The end page of the final `pmm_mark_region_used` call, without wrap-around. -/
theorem end_page_arith (ks be : Nat) (hks : ks < 18446744073709551616)
    (hbe : be + 4095 < 18446744073709551616) :
    (ks + sub64 (be % 18446744073709551616) ks + 4096 - 1) % 18446744073709551616
      = be + 4095 := by
  rw [Nat.mod_eq_of_lt (by omega : be < 18446744073709551616)]
  unfold sub64
  simp only [U64]
  by_cases h : ks ≤ be
  · rw [if_pos h, Nat.mod_eq_of_lt (by omega)]
    omega
  · rw [if_neg h, show ks + (18446744073709551616 - (ks - be)) + 4096 - 1
        = (be + 4095) + 18446744073709551616 by omega,
      Nat.add_mod_right, Nat.mod_eq_of_lt hbe]

/-! ## Address arithmetic of the recursive window -/

theorem or_eq_add_of_low_zero (a b k : Nat) (ha : a % 2 ^ k = 0) (hb : b < 2 ^ k) :
    a ||| b = a + b := by
  have h : a = 2 ^ k * (a / 2 ^ k) := (Nat.mul_div_cancel' (Nat.dvd_of_mod_eq_zero ha)).symm
  rw [h]
  exact (Nat.mul_add_lt_is_or hb _).symm

theorem shl_u64_small (i n : Nat) (h : i * 2 ^ n < 18446744073709551616) :
    shl_u64 i n = i * 2 ^ n := by
  unfold shl_u64 U64
  rw [Nat.shiftLeft_eq]
  exact Nat.mod_eq_of_lt h

theorem index_eq (v k : Nat) : (v >>> k) &&& 0x1FF = v / 2 ^ k % 512 := by
  have h : (0x1FF : Nat) = 2 ^ 9 - 1 := by norm_num
  rw [h, Nat.and_pow_two_sub_one_eq_mod, Nat.shiftRight_eq_div_pow]

theorem pml4_index_lt (v : Nat) : pml4_index v < 512 := by
  unfold pml4_index; rw [index_eq]; exact Nat.mod_lt _ (by norm_num)

theorem pdpt_index_lt (v : Nat) : pdpt_index v < 512 := by
  unfold pdpt_index; rw [index_eq]; exact Nat.mod_lt _ (by norm_num)

theorem pd_index_lt (v : Nat) : pd_index v < 512 := by
  unfold pd_index; rw [index_eq]; exact Nat.mod_lt _ (by norm_num)

theorem pt_index_lt (v : Nat) : pt_index v < 512 := by
  unfold pt_index; rw [index_eq]; exact Nat.mod_lt _ (by norm_num)

theorem pml4_addr_eq : PML4_VIRT_ADDR INT_SHIFT_OOB = 18446744073709547520 := by decide

theorem pdpt_addr_eq (i : Nat) (hi : i < 512) :
    PDPT_VIRT_ADDR INT_SHIFT_OOB i = 18446744073707454464 + 4096 * i := by
  have hc : RECURSIVE_BASE ||| int_to_u64 (shl_int INT_SHIFT_OOB RECURSIVE_INDEX 39)
      ||| int_to_u64 (shl_int INT_SHIFT_OOB RECURSIVE_INDEX 30)
      ||| int_to_u64 (shl_int INT_SHIFT_OOB RECURSIVE_INDEX 21) = 18446744073707454464 := by
    decide
  unfold PDPT_VIRT_ADDR
  rw [hc, shl_u64_small i 12 (by omega),
    or_eq_add_of_low_zero 18446744073707454464 (i * 2 ^ 12) 21 (by norm_num) (by omega)]
  omega

theorem pd_addr_eq (i j : Nat) (hi : i < 512) (hj : j < 512) :
    PD_VIRT_ADDR INT_SHIFT_OOB i j = 18446744072635809792 + 2097152 * i + 4096 * j := by
  have hc : RECURSIVE_BASE ||| int_to_u64 (shl_int INT_SHIFT_OOB RECURSIVE_INDEX 39)
      ||| int_to_u64 (shl_int INT_SHIFT_OOB RECURSIVE_INDEX 30) = 18446744072635809792 := by
    decide
  unfold PD_VIRT_ADDR
  rw [hc, shl_u64_small i 21 (by omega), shl_u64_small j 12 (by omega),
    or_eq_add_of_low_zero 18446744072635809792 (i * 2 ^ 21) 30 (by norm_num) (by omega),
    or_eq_add_of_low_zero (18446744072635809792 + i * 2 ^ 21) (j * 2 ^ 12) 21
      (by omega) (by omega)]
  omega

/-! ## Table indices and the recursive aliases as GCC evaluates them -/

theorem canonical_of_high (a : Nat) (h47 : a / 2 ^ 47 % 2 = 1) (h48 : a / 2 ^ 48 = 0xFFFF) :
    canonical a = true := by
  unfold canonical
  rw [Nat.testBit_to_div_mod, Nat.shiftRight_eq_div_pow, h48]
  simp only [h47, decide_True, if_true]
  rfl

/-- With the out-of-range shift folded to 0, the three macros other than
`PT_VIRT_ADDR` do form the recursive aliases: canonical, page aligned, with
table indices `(511,511,511,511)`, `(511,511,511,i)` and `(511,511,i,j)`. -/
theorem recursive_macros_gcc (i j : Nat) (hi : i < 512) (hj : j < 512) :
    (canonical (PML4_VIRT_ADDR INT_SHIFT_OOB) = true ∧
      PML4_VIRT_ADDR INT_SHIFT_OOB % 4096 = 0 ∧
      pml4_index (PML4_VIRT_ADDR INT_SHIFT_OOB) = 511 ∧
      pdpt_index (PML4_VIRT_ADDR INT_SHIFT_OOB) = 511 ∧
      pd_index (PML4_VIRT_ADDR INT_SHIFT_OOB) = 511 ∧
      pt_index (PML4_VIRT_ADDR INT_SHIFT_OOB) = 511) ∧
    (canonical (PDPT_VIRT_ADDR INT_SHIFT_OOB i) = true ∧
      PDPT_VIRT_ADDR INT_SHIFT_OOB i % 4096 = 0 ∧
      pml4_index (PDPT_VIRT_ADDR INT_SHIFT_OOB i) = 511 ∧
      pdpt_index (PDPT_VIRT_ADDR INT_SHIFT_OOB i) = 511 ∧
      pd_index (PDPT_VIRT_ADDR INT_SHIFT_OOB i) = 511 ∧
      pt_index (PDPT_VIRT_ADDR INT_SHIFT_OOB i) = i) ∧
    (canonical (PD_VIRT_ADDR INT_SHIFT_OOB i j) = true ∧
      PD_VIRT_ADDR INT_SHIFT_OOB i j % 4096 = 0 ∧
      pml4_index (PD_VIRT_ADDR INT_SHIFT_OOB i j) = 511 ∧
      pdpt_index (PD_VIRT_ADDR INT_SHIFT_OOB i j) = 511 ∧
      pd_index (PD_VIRT_ADDR INT_SHIFT_OOB i j) = i ∧
      pt_index (PD_VIRT_ADDR INT_SHIFT_OOB i j) = j) := by
  refine ⟨by decide, ?_, ?_⟩
  · rw [pdpt_addr_eq i hi]
    unfold pml4_index pdpt_index pd_index pt_index
    simp only [index_eq]
    refine ⟨canonical_of_high _ ?_ ?_, ?_, ?_, ?_, ?_, ?_⟩ <;> norm_num <;> omega
  · rw [pd_addr_eq i j hi hj]
    unfold pml4_index pdpt_index pd_index pt_index
    simp only [index_eq]
    refine ⟨canonical_of_high _ ?_ ?_, ?_, ?_, ?_, ?_, ?_⟩ <;> norm_num <;> omega

/-! ## The counting invariant under the bit-by-bit operations -/

theorem countP_range_congr (p q : Nat → Bool) (n : Nat) (h : ∀ k, k < n → p k = q k) :
    (List.range n).countP p = (List.range n).countP q := by
  apply List.countP_congr
  intro k hk
  rw [List.mem_range] at hk
  rw [h k hk]

theorem countP_range_set (p q : Nat → Bool) (i : Nat) (hp : p i = false) (hq : q i = true)
    (hrest : ∀ k, k ≠ i → q k = p k) :
    ∀ n, i < n → (List.range n).countP q = (List.range n).countP p + 1 := by
  intro n
  induction n with
  | zero => intro h; omega
  | succ n ih =>
    intro h
    rw [List.range_succ, List.countP_append, List.countP_append]
    by_cases hin : i = n
    · subst hin
      rw [countP_range_congr q p i (fun k hk => hrest k (by omega))]
      simp [hp, hq]
    · rw [ih (by omega)]
      simp only [List.countP_cons, List.countP_nil, hrest n (fun h => hin h.symm)]
      omega

theorem count_used_mark (s : PMM) (i : Nat) (hi : i < s.total_pages)
    (hfree : pmm_is_page_used s i = false) :
    count_used (inc_used (pmm_mark_page s i)) = count_used s + 1 := by
  unfold count_used
  have ht : (inc_used (pmm_mark_page s i)).total_pages = s.total_pages := rfl
  rw [ht]
  apply countP_range_set _ _ i hfree _ _ _ hi
  · rw [is_used_inc, is_used_mark]; simp
  · intro k hk
    rw [is_used_inc, is_used_mark]; simp [hk]

theorem count_used_clear (s : PMM) (i : Nat) (hi : i < s.total_pages)
    (hused : pmm_is_page_used s i = true) :
    count_used (dec_used (pmm_clear_page s i)) + 1 = count_used s := by
  unfold count_used
  have ht : (dec_used (pmm_clear_page s i)).total_pages = s.total_pages := rfl
  rw [ht]
  symm
  apply countP_range_set _ _ i _ hused _ _ hi
  · rw [is_used_dec, is_used_clear]; simp
  · intro k hk
    rw [is_used_dec, is_used_clear]; simp [hk]

theorem count_used_le (s : PMM) : count_used s ≤ s.total_pages := by
  unfold count_used
  have := List.countP_le_length (pmm_is_page_used s) (l := List.range s.total_pages)
  simpa using this

theorem invariant_mark (s : PMM) (i : Nat) (h : counting_invariant s)
    (hi : i < s.total_pages) (hfree : pmm_is_page_used s i = false) :
    counting_invariant (inc_used (pmm_mark_page s i)) := by
  obtain ⟨hc, ht⟩ := h
  have h1 := count_used_mark s i hi hfree
  have h2 := count_used_le (inc_used (pmm_mark_page s i))
  have ht2 : (inc_used (pmm_mark_page s i)).total_pages = s.total_pages := rfl
  refine ⟨?_, by rw [ht2]; exact ht⟩
  rw [h1]
  simp only [inc_used, pmm_mark_page, set_byte]
  rw [ht2, h1] at h2
  simp only [U64] at ht ⊢
  omega

theorem invariant_clear (s : PMM) (i : Nat) (h : counting_invariant s)
    (hi : i < s.total_pages) (hused : pmm_is_page_used s i = true) :
    counting_invariant (dec_used (pmm_clear_page s i)) := by
  obtain ⟨hc, ht⟩ := h
  have h1 := count_used_clear s i hi hused
  have ht2 : (dec_used (pmm_clear_page s i)).total_pages = s.total_pages := rfl
  refine ⟨?_, by rw [ht2]; exact ht⟩
  have hup : (dec_used (pmm_clear_page s i)).used_pages = sub64 s.used_pages 1 := rfl
  have hpos : 1 ≤ s.used_pages := by omega
  rw [hup, sub64, if_pos hpos]
  omega

theorem alloc_scan_cases (s : PMM) :
    ∀ (n i : Nat), (pmm_alloc_scan s n i).1 = s ∨
      ∃ j, j < i + n ∧ pmm_is_page_used s j = false ∧
        (pmm_alloc_scan s n i).1 = inc_used (pmm_mark_page s j) := by
  intro n
  induction n with
  | zero => intro i; exact Or.inl rfl
  | succ n ih =>
    intro i
    cases hu : pmm_is_page_used s i
    · right
      exact ⟨i, by omega, hu, by simp [pmm_alloc_scan, hu]⟩
    · have hstep : pmm_alloc_scan s (n + 1) i = pmm_alloc_scan s n (i + 1) := by
        simp [pmm_alloc_scan, hu]
      rw [hstep]
      rcases ih (i + 1) with h | ⟨j, hj, hf, he⟩
      · exact Or.inl h
      · exact Or.inr ⟨j, by omega, hf, he⟩

theorem invariant_used_loop (l : List Nat) :
    ∀ s : PMM, counting_invariant s → counting_invariant (l.foldl used_bit_body s) := by
  induction l with
  | nil => intro s h; exact h
  | cons a l ih =>
    intro s h
    rw [List.foldl_cons]
    apply ih
    unfold used_bit_body
    by_cases ha : a < s.total_pages
    · cases hu : pmm_is_page_used s a
      · simp only [ha, hu, decide_True, Bool.not_false, Bool.and_self, if_true]
        exact invariant_mark s a h ha hu
      · simp only [hu, Bool.not_true, Bool.and_false]
        exact h
    · simp only [ha, decide_False, Bool.false_and]
      exact h

/-- The three bit-by-bit operations keep the counting invariant, for every
argument: `pmm_alloc_page`, `pmm_free_page` and `pmm_mark_region_used`. -/
theorem counting_invariant_bitwise_ops (s : PMM) (h : counting_invariant s)
    (phys_addr base length : Nat) :
    counting_invariant (pmm_alloc_page s).1 ∧
    counting_invariant (pmm_free_page s phys_addr) ∧
    counting_invariant (pmm_mark_region_used s base length) := by
  refine ⟨?_, ?_, ?_⟩
  · unfold pmm_alloc_page
    rcases alloc_scan_cases s s.total_pages 0 with he | ⟨j, hj, hf, he⟩
    · rw [he]; exact h
    · rw [he]; exact invariant_mark s j h (by omega) hf
  · unfold pmm_free_page
    simp only
    by_cases ha : phys_addr / PAGE_SIZE < s.total_pages
    · cases hu : pmm_is_page_used s (phys_addr / PAGE_SIZE)
      · simp only [hu, Bool.and_false]
        exact h
      · simp only [ha, hu, decide_True, Bool.and_self, if_true]
        exact invariant_clear s _ h ha hu
    · simp only [ha, decide_False, Bool.false_and]
      exact h
  · exact invariant_used_loop _ s h

/-! ## Properties of the physical memory manager -/

/-- Claim C1, at the state `pmm_init` produces for two managed frames: the
count of 1-bits below `total_pages` equals `used_pages` before the call, and
after `pmm_mark_region_free(0, 32768)` the count is 0 while `used_pages` has
wrapped around to `2 ^ 64 - 6`, because the whole-byte path subtracts the six
padding bits of the last bitmap byte as well. -/
theorem mark_region_free_breaks_count :
    count_used two_frame_state = two_frame_state.used_pages ∧
    count_used (pmm_mark_region_free two_frame_state 0 32768) = 0 ∧
    (pmm_mark_region_free two_frame_state 0 32768).used_pages = 2 ^ 64 - 6 := by
  decide

/-- Claim C2: `pmm_alloc_page` is a first-fit scan.  When frame `i` is the
lowest frame below `total_pages` whose bit is 0, the call returns `4096 * i`,
the bit of frame `i` becomes 1, every other bit keeps its value and
`used_pages` grows by one; when every frame below `total_pages` has bit 1 the
call returns 0 and the state is unchanged. -/
theorem pmm_alloc_page_first_fit (s : PMM) (htp : s.total_pages ≤ 2 ^ 52)
    (hu : s.used_pages + 1 < 2 ^ 64) :
    (∀ i, i < s.total_pages → pmm_is_page_used s i = false →
        (∀ j, j < i → pmm_is_page_used s j = true) →
        (pmm_alloc_page s).2 = 4096 * i ∧
        (∀ q, pmm_is_page_used (pmm_alloc_page s).1 q
                = (decide (q = i) || pmm_is_page_used s q)) ∧
        (pmm_alloc_page s).1.used_pages = s.used_pages + 1 ∧
        same_layout s (pmm_alloc_page s).1) ∧
    ((∀ i, i < s.total_pages → pmm_is_page_used s i = true) →
        (pmm_alloc_page s).2 = 0 ∧ (pmm_alloc_page s).1 = s) := by
  constructor
  · intro i hi hfree hleast
    have h := alloc_scan_found s i s.total_pages 0 hi
      (fun j _ h2 => hleast j (by omega)) (by simpa using hfree)
    simp only [Nat.zero_add] at h
    unfold pmm_alloc_page
    rw [h]
    refine ⟨?_, ?_, ?_, ⟨rfl, rfl, rfl, rfl⟩⟩
    · simp only [PAGE_SIZE, U64]
      have : i < 2 ^ 52 := by omega
      norm_num at this
      omega
    · intro q
      rw [is_used_inc, is_used_mark]
    · simp only [inc_used, pmm_mark_page, set_byte, U64]
      norm_num at hu
      omega
  · intro hall
    have h := alloc_scan_none s s.total_pages 0 (fun j _ h2 => hall j (by omega))
    unfold pmm_alloc_page
    rw [h]
    exact ⟨rfl, rfl⟩

/-- Witness for `pmm_alloc_page_first_fit`: with frame 0 used and frame 1
free, the call returns the address of frame 1. -/
theorem pmm_alloc_page_first_fit_witness :
    (pmm_alloc_page (pmm_free_page two_frame_state 4096)).2 = 4096 * 1 :=
  ((pmm_alloc_page_first_fit (pmm_free_page two_frame_state 4096)
      (by decide) (by decide)).1 1 (by decide) (by decide) (by decide)).1

/-- Claim C3, at the state with two managed frames that are both used:
`pmm_alloc_page` returns the out-of-memory value 0, and `pmm_free_page(0)`
then clears the bit of frame 0 and decrements `used_pages` from 2 to 1, so the
pair of calls does not restore the state. -/
theorem alloc_free_law_fails_when_full :
    (∀ i, i < two_frame_state.total_pages → pmm_is_page_used two_frame_state i = true) ∧
    (pmm_alloc_page two_frame_state).2 = 0 ∧
    pmm_is_page_used two_frame_state 0 = true ∧
    two_frame_state.used_pages = 2 ∧
    pmm_is_page_used
      (pmm_free_page (pmm_alloc_page two_frame_state).1 (pmm_alloc_page two_frame_state).2) 0
      = false ∧
    (pmm_free_page (pmm_alloc_page two_frame_state).1
      (pmm_alloc_page two_frame_state).2).used_pages = 1 := by
  refine ⟨?_, by decide, by decide, by decide, by decide, by decide⟩
  intro i hi
  have : i = 0 ∨ i = 1 := by
    have : two_frame_state.total_pages = 2 := by decide
    omega
  rcases this with rfl | rfl <;> decide

/-- When a free frame exists the alloc/free law does hold: with frame `i` the
lowest free frame, `pmm_free_page(pmm_alloc_page())` restores every bit and
`used_pages`. -/
theorem alloc_free_restores (s : PMM) (htp : s.total_pages ≤ 2 ^ 52)
    (hu : s.used_pages + 1 < 2 ^ 64) (i : Nat) (hi : i < s.total_pages)
    (hfree : pmm_is_page_used s i = false)
    (hleast : ∀ j, j < i → pmm_is_page_used s j = true) :
    (∀ q, pmm_is_page_used (pmm_free_page (pmm_alloc_page s).1 (pmm_alloc_page s).2) q
        = pmm_is_page_used s q) ∧
    (pmm_free_page (pmm_alloc_page s).1 (pmm_alloc_page s).2).used_pages = s.used_pages := by
  have h := alloc_scan_found s i s.total_pages 0 hi
    (fun j _ h2 => hleast j (by omega)) (by simpa using hfree)
  simp only [Nat.zero_add] at h
  have hi52 : i < 4503599627370496 := by
    have : i < 2 ^ 52 := by omega
    norm_num at this
    exact this
  have haddr : i * PAGE_SIZE % U64 / PAGE_SIZE = i := by
    simp only [PAGE_SIZE, U64]
    omega
  have hused : pmm_is_page_used (inc_used (pmm_mark_page s i)) i = true := by
    rw [is_used_inc, is_used_mark]; simp
  have htot : (inc_used (pmm_mark_page s i)).total_pages = s.total_pages := rfl
  unfold pmm_alloc_page
  rw [h]
  unfold pmm_free_page
  simp only [haddr, htot, hi, hused, decide_True, Bool.and_self, if_true]
  constructor
  · intro q
    rw [is_used_dec, is_used_clear, is_used_inc, is_used_mark]
    by_cases hq : q = i
    · subst hq; simp [hfree]
    · simp [hq]
  · simp only [dec_used, pmm_clear_page, set_byte, inc_used, pmm_mark_page, sub64, U64]
    norm_num at hu
    rw [Nat.mod_eq_of_lt (by omega)]
    simp

/-- Claim C4, at the state with eight managed frames, all used:
`pmm_mark_region_free(0x1000, 0x2000)` covers the frames 1 and 2 only, and the
bit-by-bit reference leaves frame 0 used with `used_pages = 6`, but the code
also clears the bit of frame 0 and ends with `used_pages = 5`: the ending
partial-byte loop starts at the first frame of the byte. -/
theorem mark_region_free_differs_from_naive :
    0x1000 + 0x2000 < 2 ^ 64 ∧
    pmm_is_page_used (pmm_mark_region_free_naive eight_frame_state 0x1000 0x2000) 0 = true ∧
    (pmm_mark_region_free_naive eight_frame_state 0x1000 0x2000).used_pages = 6 ∧
    pmm_is_page_used (pmm_mark_region_free eight_frame_state 0x1000 0x2000) 0 = false ∧
    (pmm_mark_region_free eight_frame_state 0x1000 0x2000).used_pages = 5 := by
  decide

/-- Claim C5, for the memory map `sample_mmap`, whose frame 0 is Reserved:
after `pmm_init` and `pmm_mark_free_regions` the bit of frame 0 is 0 although
no byte of frame 0 lies in an Available record. -/
theorem free_frame_not_available :
    0 < sample_pmm.total_pages ∧
    pmm_is_page_used sample_pmm 0 = false ∧
    ¬ frame_available sample_mmap 0 := by
  refine ⟨by decide, by decide, ?_⟩
  intro h
  obtain ⟨e, he, ht, ha, hb⟩ := h 0 (by decide) (by decide)
  simp only [sample_mmap, List.mem_cons, List.mem_singleton, List.not_mem_nil, or_false] at he
  rcases he with rfl | rfl | rfl
  · simp [MULTIBOOT_MEMORY_AVAILABLE] at ht
  · simp at ha
  · simp at ha

/-- Claim C6: after `pmm_init` followed by `pmm_mark_free_regions`, every
frame below `total_pages` whose byte range meets
`[kernel_start, pmm_bitmap + bitmap_size)` has its bit set, whatever the
memory map contains. -/
theorem kernel_and_bitmap_reserved
    (total_memory multiboot_info_addr mb_size kernel_start kernel_end : Nat)
    (mem : Nat → Nat) (entries : List MmapEntry) (i : Nat)
    (hmb : multiboot_info_addr + mb_size < 2 ^ 52) (hke : kernel_end < 2 ^ 52)
    (hi : i < (pmm_construct total_memory multiboot_info_addr mb_size kernel_start
      kernel_end mem entries).total_pages)
    (hlo : kernel_start < PAGE_SIZE * (i + 1))
    (hhi : PAGE_SIZE * i <
      (pmm_construct total_memory multiboot_info_addr mb_size kernel_start
        kernel_end mem entries).pmm_bitmap_addr +
      (pmm_construct total_memory multiboot_info_addr mb_size kernel_start
        kernel_end mem entries).bitmap_size) :
    pmm_is_page_used (pmm_construct total_memory multiboot_info_addr mb_size kernel_start
      kernel_end mem entries) i = true := by
  set s0 := pmm_init total_memory multiboot_info_addr mb_size kernel_end mem with hs0
  set s1 := entries.foldl free_region_body s0 with hs1
  have hl1 : same_layout s0 s1 := foldl_same_layout _ free_region_body_layout _ _
  have hc : pmm_construct total_memory multiboot_info_addr mb_size kernel_start
      kernel_end mem entries
      = pmm_mark_region_used s1 kernel_start
          (sub64 ((s1.pmm_bitmap_addr + s1.bitmap_size) % U64) kernel_start) := rfl
  rw [hc] at hi hhi ⊢
  have hl2 : same_layout s1 (pmm_mark_region_used s1 kernel_start
      (sub64 ((s1.pmm_bitmap_addr + s1.bitmap_size) % U64) kernel_start)) :=
    foldl_same_layout _ used_bit_body_layout _ _
  rw [hl2.1] at hi
  rw [hl2.2.2.1, hl2.2.1] at hhi
  -- sizes established by `pmm_init`
  have htp : s0.total_pages ≤ 16384 := by
    simp only [hs0, pmm_init, PAGE_SIZE]
    split <;> omega
  have hbs : s0.bitmap_size = (s0.total_pages + 7) / 8 := rfl
  have hba : s0.pmm_bitmap_addr < 2 ^ 52 + 4096 := by
    simp only [hs0, pmm_init, PAGE_ALIGN]
    refine Nat.lt_of_le_of_lt Nat.and_le_left ?_
    simp only [PAGE_SIZE, U64]
    norm_num at hmb hke ⊢
    split <;> omega
  rw [hl1.2.2.1, hl1.2.1] at hhi ⊢
  rw [hl1.1] at hi
  unfold pmm_mark_region_used for_loop
  rw [used_loop_spec, hl1.1, Bool.or_eq_true]
  left
  rw [Bool.and_eq_true]
  refine ⟨decide_eq_true ?_, decide_eq_true hi⟩
  rw [List.mem_range'_1]
  simp only [PAGE_SIZE, U64] at hlo hhi ⊢
  norm_num at hba
  rw [end_page_arith kernel_start (s0.pmm_bitmap_addr + s0.bitmap_size) (by omega) (by omega)]
  omega

/-- Witness for `kernel_and_bitmap_reserved`: in the PMM built from
`sample_mmap` the first frame of the kernel image, frame 256, is used. -/
theorem kernel_and_bitmap_reserved_witness : pmm_is_page_used sample_pmm 256 = true :=
  kernel_and_bitmap_reserved (parse_multiboot_mmap sample_mmap) 0x108000 0x100 0x100000
    0x104000 (fun _ => 0) sample_mmap 256 (by decide) (by decide) (by decide) (by decide)
    (by decide)

/-! ## Page-table accesses that fault -/

namespace Faulting

theorem wr_eq_none (s : VMM) (table idx x : Nat)
    (h : canonical (entry_addr table idx) = false) : wr s table idx x = none := by
  unfold wr
  rw [h]
  rfl

theorem rd_eq_none (s : VMM) (table idx : Nat)
    (h : canonical (entry_addr table idx) = false) : rd s table idx = none := by
  unfold rd
  rw [h]
  rfl

theorem rd_wr_same (s t : VMM) (table idx x table2 idx2 : Nat)
    (h : wr s table idx x = some t) (ha : entry_addr table2 idx2 = entry_addr table idx) :
    rd t table2 idx2 = some x := by
  unfold wr at h
  unfold rd
  rw [ha]
  by_cases hc : canonical (entry_addr table idx) = true
  · rw [if_pos hc] at h ⊢
    injection h with h
    subst h
    simp
  · rw [if_neg hc] at h
    cases h

theorem shl_int_oob (ub : Nat) : shl_int ub RECURSIVE_INDEX 39 = ub % 2 ^ 32 := by
  simp [shl_int]

theorem or_high_of_negative (ub : Nat) (h : 2 ^ 31 ≤ ub % 2 ^ 32) :
    RECURSIVE_BASE ||| int_to_u64 (shl_int ub RECURSIVE_INDEX 39)
      = RECURSIVE_BASE ||| int_to_u64 (shl_int ub RECURSIVE_INDEX 39)
          ||| 0xFFFFFFFF80000000 := by
  have hx : ub % 2 ^ 32 < 2 ^ 32 := Nat.mod_lt _ (by norm_num)
  rw [shl_int_oob]
  unfold int_to_u64
  rw [if_neg (by omega)]
  generalize ub % 2 ^ 32 = u at h hx
  have hur : u = 2 ^ 31 * 1 + (u - 2 ^ 31) := by omega
  have hu : u ||| 2 ^ 31 = u := by
    have h1 := Nat.mul_add_lt_is_or (show u - 2 ^ 31 < 2 ^ 31 by omega) 1
    rw [← hur] at h1
    rw [h1, Nat.mul_one, Nat.or_comm (2 ^ 31) (u - 2 ^ 31), Nat.or_assoc, Nat.or_self]
  have hH : (0xFFFFFFFF80000000 : Nat) = 0xFFFFFFFF00000000 ||| 2 ^ 31 := by decide
  apply Nat.eq_of_testBit_eq
  intro i
  have hu2 := congrArg (fun n => Nat.testBit n i) hu
  simp only [Nat.testBit_or] at hu2
  rw [hH]
  simp only [Nat.testBit_or]
  generalize Nat.testBit RECURSIVE_BASE i = a
  generalize Nat.testBit u i = b at hu2
  generalize Nat.testBit 0xFFFFFFFF00000000 i = c
  generalize Nat.testBit (2 ^ 31) i = d at hu2
  revert hu2
  cases a <;> cases b <;> cases c <;> cases d <;> decide

theorem pt_alias_of_negative (ub : Nat) (h : 2 ^ 31 ≤ ub % 2 ^ 32) :
    PT_VIRT_ADDR ub 0 0 2 = PT_VIRT_ADDR ub 2 0 2 := by
  unfold PT_VIRT_ADDR
  have c1 : shl_u64 0 30 = 0 := by decide
  have c2 : shl_u64 2 30 = 0x80000000 := by decide
  have e : (0xFFFFFFFF80000000 ||| 0x80000000 : Nat) = 0xFFFFFFFF80000000 ||| 0 := by decide
  rw [c1, c2, or_high_of_negative ub h, Nat.or_assoc _ 0xFFFFFFFF80000000 0x80000000, e,
    ← Nat.or_assoc _ 0xFFFFFFFF80000000 0]

theorem leaf_not_canonical (ub v : Nat) (h : ub % 2 ^ 32 < 2 ^ 31) :
    canonical (entry_addr (PT_VIRT_ADDR ub (pml4_index v) (pdpt_index v) (pd_index v))
      (pt_index v)) = false := by
  have h4 := pml4_index_lt v
  have h3 := pdpt_index_lt v
  have h2 := pd_index_lt v
  have h1 := pt_index_lt v
  generalize pml4_index v = i at h4
  generalize pdpt_index v = j at h3
  generalize pd_index v = k at h2
  generalize pt_index v = l at h1
  have hy : int_to_u64 (shl_int ub RECURSIVE_INDEX 39) ||| shl_u64 i 30 ||| shl_u64 j 21
      ||| shl_u64 k 12 < 2 ^ 39 := by
    rw [shl_int_oob]
    unfold int_to_u64
    rw [if_pos h, shl_u64_small i 30 (by omega), shl_u64_small j 21 (by omega),
      shl_u64_small k 12 (by omega)]
    refine Nat.or_lt_two_pow (Nat.or_lt_two_pow (Nat.or_lt_two_pow ?_ ?_) ?_) ?_ <;> omega
  have hpt : PT_VIRT_ADDR ub i j k = 0xFFFF000000000000 +
      (int_to_u64 (shl_int ub RECURSIVE_INDEX 39) ||| shl_u64 i 30 ||| shl_u64 j 21
        ||| shl_u64 k 12) := by
    unfold PT_VIRT_ADDR RECURSIVE_BASE
    rw [Nat.or_assoc, Nat.or_assoc, Nat.or_assoc, ← Nat.or_assoc (int_to_u64 _),
      ← Nat.or_assoc (int_to_u64 _ ||| _)]
    exact or_eq_add_of_low_zero _ _ 48 (by norm_num) (by omega)
  rw [hpt]
  generalize int_to_u64 (shl_int ub RECURSIVE_INDEX 39) ||| shl_u64 i 30 ||| shl_u64 j 21
      ||| shl_u64 k 12 = y at hy
  unfold entry_addr canonical U64
  rw [Nat.testBit_to_div_mod, Nat.shiftRight_eq_div_pow]
  have e1 : (0xFFFF000000000000 + y + 8 * l) % 18446744073709551616
      = 0xFFFF000000000000 + y + 8 * l := Nat.mod_eq_of_lt (by omega)
  rw [e1]
  have e2 : (0xFFFF000000000000 + y + 8 * l) / 2 ^ 47 % 2 = 0 := by omega
  have e3 : (0xFFFF000000000000 + y + 8 * l) / 2 ^ 48 = 0xFFFF := by omega
  rw [e2, e3]
  decide

theorem map_faults_of_nonneg (ub : Nat) (s : VMM) (v p F : Nat) (t : VMM)
    (h : ub % 2 ^ 32 < 2 ^ 31) : vmm_map_page ub s v p F ≠ some (t, true) := by
  unfold vmm_map_page
  simp only [wr_eq_none _ _ _ _ (leaf_not_canonical ub v h)]
  intro hc
  split at hc
  · cases hc
  · simp at hc
  · split at hc
    · cases hc
    · simp at hc
    · split at hc
      · cases hc
      · simp at hc
      · cases hc

theorem translate_of_nonneg (ub : Nat) (s : VMM) (v : Nat) (h : ub % 2 ^ 32 < 2 ^ 31) :
    vmm_virt_to_phys ub s v = none ∨ vmm_virt_to_phys ub s v = some 0 := by
  unfold vmm_virt_to_phys
  simp only [rd_eq_none _ _ _ (leaf_not_canonical ub v h)]
  split
  · exact Or.inl rfl
  · split
    · exact Or.inr rfl
    · split
      · exact Or.inl rfl
      · split
        · exact Or.inr rfl
        · split
          · exact Or.inl rfl
          · split
            · exact Or.inr rfl
            · exact Or.inl rfl

theorem map_completed_leaf (ub : Nat) (s : VMM) (v p F : Nat) (t : VMM)
    (h : vmm_map_page ub s v p F = some (t, true)) :
    rd t (PT_VIRT_ADDR ub (pml4_index v) (pdpt_index v) (pd_index v)) (pt_index v)
      = some ((p &&& ADDR_MASK) ||| F) := by
  unfold vmm_map_page at h
  simp only at h
  split at h
  · cases h
  · simp at h
  · split at h
    · cases h
    · simp at h
    · split at h
      · cases h
      · simp at h
      · split at h
        · cases h
        · rename_i s4 hw
          simp only [Option.some.injEq, Prod.mk.injEq, and_true] at h
          subst h
          exact rd_wr_same _ _ _ _ _ _ _ hw rfl

theorem translate_of_leaf (ub : Nat) (s : VMM) (w e : Nat)
    (h : rd s (PT_VIRT_ADDR ub (pml4_index w) (pdpt_index w) (pd_index w)) (pt_index w)
      = some e) :
    vmm_virt_to_phys ub s w = none ∨ vmm_virt_to_phys ub s w = some 0 ∨
    vmm_virt_to_phys ub s w = some (((e &&& ADDR_MASK) + (w &&& 0xFFF)) % U64) := by
  unfold vmm_virt_to_phys
  simp only [h]
  split
  · exact Or.inl rfl
  · split
    · exact Or.inr (Or.inl rfl)
    · split
      · exact Or.inl rfl
      · split
        · exact Or.inr (Or.inl rfl)
        · split
          · exact Or.inl rfl
          · split
            · exact Or.inr (Or.inl rfl)
            · split
              · exact Or.inr (Or.inl rfl)
              · exact Or.inr (Or.inr rfl)

end Faulting

/-! ## Properties of the virtual memory manager -/

set_option maxRecDepth 1000000 in
/-- Claim C7 does not hold for the code, whatever 32-bit value `ub` the
undefined shift `RECURSIVE_INDEX << 39` takes.  When `ub` is a non-negative
`int` (bit 31 clear, as with the 0 that GCC produces), the page-table word
that `vmm_map_page` writes last lies at a non-canonical address: no call
completes, for any state and any arguments, and `vmm_virt_to_phys` faults or
returns 0; in `sample_vmm`, `vmm_map_page(0x400000, 0x5000, 3)` faults.  For
every `ub`, after a completed `vmm_map_page(0x10000400000, 0x9000, 3)` the
address `0x400000`, which lies in another page, does not translate to
`0x5000`, whatever was mapped there before: when bit 31 of `ub` is set the
two pages share their page-table word.  With `ub = 0x80000000`, in
`sample_vmm` and with no fault other than the one of non-canonical addresses,
both calls complete, and `0x400000` translates to `0x5000` after the first
call and to `0x9000` after the second. -/
theorem map_translate_law_broken :
    (∀ (ub : Nat) (s : VMM) (v p F : Nat) (t : VMM), ub % 2 ^ 32 < 2 ^ 31 →
      Faulting.vmm_map_page ub s v p F ≠ some (t, true)) ∧
    (∀ (ub : Nat) (s : VMM) (v : Nat), ub % 2 ^ 32 < 2 ^ 31 →
      Faulting.vmm_virt_to_phys ub s v = none ∨ Faulting.vmm_virt_to_phys ub s v = some 0) ∧
    Faulting.vmm_map_page 0 sample_vmm 0x400000 0x5000 3 = none ∧
    (∀ (ub : Nat) (s t : VMM),
      Faulting.vmm_map_page ub s 0x10000400000 0x9000 3 = some (t, true) →
      Faulting.vmm_virt_to_phys ub t 0x400000 ≠ some (0x5000 + 0x400000 % 4096)) ∧
    0x10000400000 / 4096 ≠ 0x400000 / 4096 ∧
    (Faulting.vmm_map_page 0x80000000 sample_vmm 0x400000 0x5000 3).map Prod.snd
      = some true ∧
    (Faulting.vmm_map_page 0x80000000 sample_vmm 0x400000 0x5000 3).bind
      (fun r => Faulting.vmm_virt_to_phys 0x80000000 r.1 0x400000) = some 0x5000 ∧
    (Faulting.vmm_map_page 0x80000000 sample_vmm 0x400000 0x5000 3).bind
      (fun r => (Faulting.vmm_map_page 0x80000000 r.1 0x10000400000 0x9000 3).map Prod.snd)
      = some true ∧
    (Faulting.vmm_map_page 0x80000000 sample_vmm 0x400000 0x5000 3).bind
      (fun r => (Faulting.vmm_map_page 0x80000000 r.1 0x10000400000 0x9000 3).bind
        (fun q => Faulting.vmm_virt_to_phys 0x80000000 q.1 0x400000)) = some 0x9000 := by
  refine ⟨fun ub s v p F t h => Faulting.map_faults_of_nonneg ub s v p F t h,
    fun ub s v h => Faulting.translate_of_nonneg ub s v h,
    Option.isNone_iff_eq_none.mp (by decide), ?_, by decide, by decide, by decide, by decide,
    by decide⟩
  intro ub s t hm
  by_cases hneg : ub % 2 ^ 32 < 2 ^ 31
  · exact absurd hm (Faulting.map_faults_of_nonneg ub s _ _ _ t hneg)
  · have hleaf := Faulting.map_completed_leaf ub s _ _ _ t hm
    have i4 : pml4_index 0x10000400000 = 2 := by decide
    have i3 : pdpt_index 0x10000400000 = 0 := by decide
    have i2 : pd_index 0x10000400000 = 2 := by decide
    have i1 : pt_index 0x10000400000 = 0 := by decide
    rw [i4, i3, i2, i1, ← Faulting.pt_alias_of_negative ub (by omega)] at hleaf
    have j4 : pml4_index 0x400000 = 0 := by decide
    have j3 : pdpt_index 0x400000 = 0 := by decide
    have j2 : pd_index 0x400000 = 2 := by decide
    have j1 : pt_index 0x400000 = 0 := by decide
    have ht := Faulting.translate_of_leaf ub t 0x400000 _ (by rw [j4, j3, j2, j1]; exact hleaf)
    have hv : (((0x9000 &&& ADDR_MASK ||| 3) &&& ADDR_MASK) + (0x400000 &&& 0xFFF)) % U64
        = 0x9000 := by decide
    rw [hv] at ht
    rcases ht with ht | ht | ht <;> rw [ht] <;> simp

/-- Claim C9: for every 32-bit value `ub` that the out-of-range `int` shift
`RECURSIVE_INDEX << 39` may produce, `PT_VIRT_ADDR(0, 0, 0)` does not have the
table indices `(511, 0, 0, 0)`; with the value 0 that GCC folds the shift to,
it is `0xFFFF000000000000`, which has PML4 index 0 and is not canonical. -/
theorem pt_virt_addr_not_recursive :
    (∀ ub, ¬ (pml4_index (PT_VIRT_ADDR ub 0 0 0) = 511 ∧
              pdpt_index (PT_VIRT_ADDR ub 0 0 0) = 0)) ∧
    PT_VIRT_ADDR INT_SHIFT_OOB 0 0 0 = 0xFFFF000000000000 ∧
    pml4_index (PT_VIRT_ADDR INT_SHIFT_OOB 0 0 0) = 0 ∧
    canonical (PT_VIRT_ADDR INT_SHIFT_OOB 0 0 0) = false := by
  refine ⟨?_, by decide, by decide, by decide⟩
  intro ub ⟨h4, h3⟩
  have hz : ∀ n, shl_u64 0 n = 0 := by
    intro n; simp [shl_u64]
  have hs : shl_int ub RECURSIVE_INDEX 39 = ub % 2 ^ 32 := by
    simp [shl_int]
  have hx : ub % 2 ^ 32 < 2 ^ 32 := Nat.mod_lt _ (by norm_num)
  unfold PT_VIRT_ADDR at h4 h3
  rw [hz, hz, hz, hs] at h4 h3
  simp only [Nat.or_zero] at h4 h3
  unfold int_to_u64 at h4 h3
  by_cases hneg : ub % 2 ^ 32 < 2 ^ 31
  · rw [if_pos hneg] at h4
    have hb : (pml4_index (RECURSIVE_BASE ||| ub % 2 ^ 32)).testBit 0 = false := by
      unfold pml4_index
      rw [Nat.testBit_and, Nat.testBit_shiftRight, Nat.testBit_or,
        Nat.testBit_eq_false_of_lt (Nat.lt_of_lt_of_le hneg (by norm_num))]
      decide
    rw [h4] at hb
    exact absurd hb (by decide)
  · rw [if_neg hneg] at h3
    have hb : (pdpt_index (RECURSIVE_BASE ||| (ub % 2 ^ 32 ||| 0xFFFFFFFF00000000))).testBit 2
        = true := by
      unfold pdpt_index
      rw [Nat.testBit_and, Nat.testBit_shiftRight, Nat.testBit_or, Nat.testBit_or]
      have : Nat.testBit 0xFFFFFFFF00000000 (30 + 2) = true := by decide
      rw [this]
      simp only [Bool.or_true, Bool.true_and]
      decide
    rw [h3] at hb
    exact absurd hb (by decide)

theorem and_not15 (x : Nat) (hx : x < 2 ^ 64) : x &&& 0xFFFFFFFFFFFFFFF0 = 16 * (x / 16) := by
  apply Nat.eq_of_testBit_eq
  intro i
  have hm : (0xFFFFFFFFFFFFFFF0 : Nat) = (2 ^ 60 - 1) <<< 4 := by decide
  have h16 : 16 * (x / 16) = (x >>> 4) <<< 4 := by
    rw [Nat.shiftLeft_eq, Nat.shiftRight_eq_div_pow]
    norm_num
    exact Nat.mul_comm _ _
  rw [Nat.testBit_and, hm, h16, Nat.testBit_shiftLeft, Nat.testBit_shiftLeft,
    Nat.testBit_two_pow_sub_one, Nat.testBit_shiftRight]
  by_cases h4 : 4 ≤ i
  · have e : 4 + (i - 4) = i := by omega
    rw [e]
    by_cases h64 : i < 64
    · have : i - 4 < 60 := by omega
      simp [h4, this]
    · have hf : x.testBit i = false :=
        Nat.testBit_eq_false_of_lt
          (Nat.lt_of_lt_of_le hx (Nat.pow_le_pow_right (by norm_num) (by omega)))
      simp [hf]
  · simp [h4]

/-- A successful `kmalloc` whose arithmetic does not wrap returns the old
`heap_current`, inside the window, and moves `heap_current` past the block. -/
theorem kmalloc_success_in_window (h : Heap) (size : Nat) (hs : 0 < size)
    (hcur : h.heap_current + size + 15 < 2 ^ 64) (hst : h.heap_start ≤ h.heap_current)
    (hok : (kmalloc h size).2 ≠ 0) :
    (kmalloc h size).2 = h.heap_current ∧
    h.heap_start ≤ (kmalloc h size).2 ∧
    (kmalloc h size).2 + size ≤ h.heap_end ∧
    (kmalloc h size).2 + size ≤ (kmalloc h size).1.heap_current ∧
    (kmalloc h size).1.heap_start = h.heap_start ∧
    (kmalloc h size).1.heap_end = h.heap_end := by
  have hne : size ≠ 0 := by omega
  have hx : size + 15 < 2 ^ 64 := by omega
  have hmod : (size + 15) % U64 = size + 15 := by
    apply Nat.mod_eq_of_lt
    simp only [U64]
    norm_num at hx
    exact hx
  unfold kmalloc at hok ⊢
  rw [if_neg hne] at hok ⊢
  simp only [hmod, and_not15 _ hx] at hok ⊢
  have hmod2 : (h.heap_current + 16 * ((size + 15) / 16)) % U64
      = h.heap_current + 16 * ((size + 15) / 16) := by
    apply Nat.mod_eq_of_lt
    simp only [U64]
    norm_num at hcur
    omega
  rw [hmod2] at hok ⊢
  by_cases hge : h.heap_current + 16 * ((size + 15) / 16) ≥ h.heap_end
  · rw [if_pos hge] at hok
    exact absurd rfl hok
  · rw [if_neg hge]
    refine ⟨?_, ?_, ?_, ?_, ?_, ?_⟩ <;> (try simp only) <;> omega

/-- Claim C18, at the heap `[0x10A000, 0x110A000)` right after `heap_init`.
The request `kmalloc(2^64 - 1)` rounds to size 0 and returns the non-null
address `0x10A000`, whose block does not end inside the window, and a second
such call returns the same address again.  Two calls `kmalloc(2^63)` wrap
`heap_current` around: the first fails, the second succeeds and returns
`0x800000000010A000`, an address beyond `heap_end`. -/
theorem kmalloc_escapes_window :
    sample_heap.heap_start = 0x10A000 ∧ sample_heap.heap_end = 0x110A000 ∧
    (kmalloc sample_heap 0xFFFFFFFFFFFFFFFF).2 = 0x10A000 ∧
    ¬ ((kmalloc sample_heap 0xFFFFFFFFFFFFFFFF).2 + 0xFFFFFFFFFFFFFFFF
        ≤ sample_heap.heap_end) ∧
    (kmalloc (kmalloc sample_heap 0xFFFFFFFFFFFFFFFF).1 0xFFFFFFFFFFFFFFFF).2 = 0x10A000 ∧
    (kmalloc sample_heap 0x8000000000000000).2 = 0 ∧
    (kmalloc (kmalloc sample_heap 0x8000000000000000).1 0x8000000000000000).2
      = 0x800000000010A000 ∧
    sample_heap.heap_end ≤
      (kmalloc (kmalloc sample_heap 0x8000000000000000).1 0x8000000000000000).2 := by
  decide

/-- Claim C19, at the heap `[0x10A000, 0x110A000)` right after `heap_init`:
`kmalloc(32 MiB)` returns null but leaves `heap_current` at `0x210A000`, past
`heap_end`; `kmalloc(16)` then returns null as well, although 16 bytes fit in
the space that was free before the failed call (the same call succeeds on the
untouched heap). -/
theorem kmalloc_failure_consumes_heap :
    (kmalloc sample_heap 0x2000000).2 = 0 ∧
    sample_heap.heap_current = 0x10A000 ∧
    (kmalloc sample_heap 0x2000000).1.heap_current = 0x210A000 ∧
    sample_heap.heap_current + 16 < sample_heap.heap_end ∧
    (kmalloc sample_heap 16).2 = 0x10A000 ∧
    (kmalloc (kmalloc sample_heap 0x2000000).1 16).2 = 0 := by
  decide

/-! ## Properties of the interrupt descriptor table -/

theorem gate_handler_split (h : Nat) (hh : h < 2 ^ 64) :
    (((h >>> 32) &&& 0xFFFFFFFF) <<< 32) ||| (((h >>> 16) &&& 0xFFFF) <<< 16)
      ||| (h &&& 0xFFFF) = h := by
  have e16 : (0xFFFF : Nat) = 2 ^ 16 - 1 := by norm_num
  have e32 : (0xFFFFFFFF : Nat) = 2 ^ 32 - 1 := by norm_num
  rw [e16, e32, Nat.and_pow_two_sub_one_eq_mod, Nat.and_pow_two_sub_one_eq_mod,
    Nat.and_pow_two_sub_one_eq_mod, Nat.shiftRight_eq_div_pow, Nat.shiftRight_eq_div_pow,
    Nat.shiftLeft_eq, Nat.shiftLeft_eq]
  have h1 : h / 2 ^ 16 % 2 ^ 16 * 2 ^ 16 < 2 ^ 32 := by
    have := Nat.mod_lt (h / 2 ^ 16) (show 0 < 2 ^ 16 by norm_num)
    norm_num at this ⊢
    omega
  have h2 : h % 2 ^ 16 < 2 ^ 16 := Nat.mod_lt _ (by norm_num)
  rw [or_eq_add_of_low_zero _ _ 32 (Nat.mul_mod_left _ _) h1,
    or_eq_add_of_low_zero _ _ 16 (by norm_num; omega) h2]
  norm_num at hh ⊢
  omega

theorem idt_gate_loop (h : Nat → Nat) (l : List Nat) (hl : ∀ i, i ∈ l → i < 256) :
    ∀ (s : IDT) (v : Nat),
      ((l.foldl (fun t i => idt_set_gate t i (h i) 0x08 0x8E) s).idt v
        = if v ∈ l then make_gate (h v) 0x08 0x8E else s.idt v) ∧
      (l.foldl (fun t i => idt_set_gate t i (h i) 0x08 0x8E) s).idtr_limit = s.idtr_limit ∧
      (l.foldl (fun t i => idt_set_gate t i (h i) 0x08 0x8E) s).idtr_base = s.idtr_base := by
  induction l with
  | nil => intro s v; simp
  | cons a l ih =>
    intro s v
    have ha : a < 256 := hl a (List.mem_cons_self _ _)
    have ih2 := ih (fun i hi => hl i (List.mem_cons_of_mem _ hi))
      (idt_set_gate s a (h a) 0x08 0x8E) v
    rw [List.foldl_cons]
    refine ⟨?_, ih2.2.1, ih2.2.2⟩
    rw [ih2.1]
    by_cases hv : v ∈ l
    · simp [hv]
    · by_cases hva : v = a
      · subst hva
        simp [hv, idt_set_gate, Nat.mod_eq_of_lt ha]
      · simp [hv, hva, idt_set_gate, Nat.mod_eq_of_lt ha]

theorem make_gate_fields (h : Nat) (hh : h < 2 ^ 64) :
    gate_handler (make_gate h 0x08 0x8E) = h ∧ (make_gate h 0x08 0x8E).type_attr = 0x8E ∧
    (make_gate h 0x08 0x8E).selector = 0x08 ∧ (make_gate h 0x08 0x8E).ist = 0 ∧
    (make_gate h 0x08 0x8E).zero = 0 :=
  ⟨gate_handler_split h hh, rfl, rfl, rfl, rfl⟩

theorem idt_init_entry (s : IDT) (pure_iretq_handler : Nat) (exception_stubs : Nat → Nat)
    (timer_irq_stub idt_addr v : Nat) (hv : v < 256) :
    (idt_init s pure_iretq_handler exception_stubs timer_irq_stub idt_addr).idt v
      = make_gate (if v ≤ 31 then exception_stubs v
          else if v = 32 then timer_irq_stub else pure_iretq_handler) 0x08 0x8E := by
  have L1 := (idt_gate_loop (fun _ => pure_iretq_handler) (List.range' 0 (256 - 0))
    (by intro i hi; rw [List.mem_range'_1] at hi; omega) s v).1
  have L2 := (idt_gate_loop exception_stubs (List.range' 0 (32 - 0))
    (by intro i hi; rw [List.mem_range'_1] at hi; omega)
    (for_loop 0 256 (fun t i => idt_set_gate t i pure_iretq_handler 0x08 0x8E) s) v).1
  have m1 : v ∈ List.range' 0 (256 - 0) := by rw [List.mem_range'_1]; omega
  have m2 : v ∈ List.range' 0 (32 - 0) ↔ v ≤ 31 := by rw [List.mem_range'_1]; omega
  rw [if_pos m1] at L1
  have e : (idt_init s pure_iretq_handler exception_stubs timer_irq_stub idt_addr).idt v
      = if v = TIMER_VECTOR % 256 then make_gate timer_irq_stub 0x08 0x8E
        else (for_loop 0 32 (fun t i => idt_set_gate t i (exception_stubs i) 0x08 0x8E)
          (for_loop 0 256 (fun t i => idt_set_gate t i pure_iretq_handler 0x08 0x8E) s)).idt
            v := rfl
  rw [e]
  have ht : TIMER_VECTOR % 256 = 32 := by decide
  rw [ht]
  by_cases h32 : v = 32
  · subst h32
    rw [if_pos rfl, if_neg (by omega), if_pos rfl]
  · rw [if_neg h32]
    unfold for_loop at L2 ⊢
    rw [L2]
    by_cases hlow : v ≤ 31
    · rw [if_pos (m2.2 hlow), if_pos hlow]
    · rw [if_neg (fun hm => hlow (m2.1 hm)), if_neg hlow, if_neg h32]
      exact L1

/-- Claim C20: after `idt_init`, for every vector `v < 256` the handler
reassembled from `idt[v]` is `exception_stubs[v]` for `v ≤ 31`,
`timer_irq_stub` for `v = 32` and `pure_iretq_handler` otherwise; every gate
has `type_attr = 0x8E`, `selector = 0x08`, `ist = 0` and `zero = 0`; and
`idtr` holds `base = &idt` and `limit = 4095`. -/
theorem idt_init_layout (s : IDT) (pure_iretq_handler : Nat) (exception_stubs : Nat → Nat)
    (timer_irq_stub idt_addr : Nat)
    (hd : pure_iretq_handler < 2 ^ 64) (he : ∀ i, i < 32 → exception_stubs i < 2 ^ 64)
    (ht : timer_irq_stub < 2 ^ 64) :
    (∀ v, v < 256 →
      gate_handler ((idt_init s pure_iretq_handler exception_stubs timer_irq_stub
          idt_addr).idt v)
        = (if v ≤ 31 then exception_stubs v
           else if v = 32 then timer_irq_stub else pure_iretq_handler) ∧
      ((idt_init s pure_iretq_handler exception_stubs timer_irq_stub idt_addr).idt v).type_attr
        = 0x8E ∧
      ((idt_init s pure_iretq_handler exception_stubs timer_irq_stub idt_addr).idt v).selector
        = 0x08 ∧
      ((idt_init s pure_iretq_handler exception_stubs timer_irq_stub idt_addr).idt v).ist = 0 ∧
      ((idt_init s pure_iretq_handler exception_stubs timer_irq_stub idt_addr).idt v).zero = 0) ∧
    (idt_init s pure_iretq_handler exception_stubs timer_irq_stub idt_addr).idtr_base
      = idt_addr ∧
    (idt_init s pure_iretq_handler exception_stubs timer_irq_stub idt_addr).idtr_limit
      = 4095 := by
  refine ⟨?_, rfl, rfl⟩
  intro v hv
  rw [idt_init_entry s _ _ _ _ v hv]
  apply make_gate_fields
  by_cases hlow : v ≤ 31
  · rw [if_pos hlow]; exact he v (by omega)
  · rw [if_neg hlow]
    by_cases h32 : v = 32
    · rw [if_pos h32]; exact ht
    · rw [if_neg h32]; exact hd

/-- Witness for `idt_init_layout`: with the stubs at `0x101000 + 16 * i`, the
timer stub at `0x102000` and the default handler at `0xFFFFFFFF80103000`,
vector 14 points at `0x1010E0`. -/
theorem idt_init_layout_witness :
    gate_handler ((idt_init ⟨fun _ => ⟨0, 0, 0, 0, 0, 0, 0⟩, 0, 0⟩ 0xFFFFFFFF80103000
      (fun i => 0x101000 + 16 * i) 0x102000 0x200000).idt 14) = 0x101000 + 16 * 14 :=
  ((idt_init_layout ⟨fun _ => ⟨0, 0, 0, 0, 0, 0, 0⟩, 0, 0⟩ 0xFFFFFFFF80103000
    (fun i => 0x101000 + 16 * i) 0x102000 0x200000 (by decide)
    (by intro i hi; show 1052672 + 16 * i < 18446744073709551616; omega)
    (by decide)).1 14 (by decide)).1

/-! ## ACPI: checksum, RSDP search and root-table walk -/

theorem checksum_fold (g : Nat → Nat) (l : List Nat) :
    ∀ acc, l.foldl (fun sum i => (sum + g i) % 256) acc = (acc + (l.map g).sum) % 256 ∨
      (l = [] ∧ l.foldl (fun sum i => (sum + g i) % 256) acc = acc) := by
  induction l with
  | nil => intro acc; exact Or.inr ⟨rfl, rfl⟩
  | cons a l ih =>
    intro acc
    left
    rw [List.foldl_cons, List.map_cons, List.sum_cons]
    rcases ih ((acc + g a) % 256) with h | ⟨hl, h⟩
    · rw [h]; omega
    · rw [h, hl]; simp

theorem acpi_checksum_eq (mem : Nat → Nat) (ptr n : Nat) :
    acpi_checksum mem ptr n
      = decide (((List.range n).map (fun i => rd8 mem (ptr + i))).sum % 256 = 0) := by
  unfold acpi_checksum for_loop
  rw [Nat.sub_zero, ← List.range_eq_range']
  rcases checksum_fold (fun i => rd8 mem (ptr + i)) (List.range n) 0 with h | ⟨hl, h⟩
  · rw [h, Nat.zero_add]
    by_cases hz : ((List.range n).map (fun i => rd8 mem (ptr + i))).sum % 256 = 0
    · simp [hz]
    · simp [hz]
  · rw [h, hl]; simp

theorem is_rsd_ptr_eq (mem : Nat → Nat) (a : Nat) :
    is_rsd_ptr mem a = true ↔
      (List.range 8).map (fun i => rd8 mem (a + i))
        = [0x52, 0x53, 0x44, 0x20, 0x50, 0x54, 0x52, 0x20] := by
  unfold is_rsd_ptr
  simp [List.range, List.range.loop, and_assoc]

theorem rsdp_test_eq (mem : Nat → Nat) (a : Nat) :
    (is_rsd_ptr mem a && acpi_checksum mem a 20) = true ↔ valid_rsdp_at mem a := by
  unfold valid_rsdp_at
  rw [Bool.and_eq_true, is_rsd_ptr_eq, acpi_checksum_eq, decide_eq_true_iff]

theorem find_rsdp_found (mem : Nat → Nat) :
    ∀ (d n j : Nat), d < n →
      (∀ i, i < d → ¬ valid_rsdp_at mem (ACPI_SEARCH_START + 16 * (j + i))) →
      valid_rsdp_at mem (ACPI_SEARCH_START + 16 * (j + d)) →
      ACPI_SEARCH_START + 16 * (j + d) < ACPI_SEARCH_END →
      find_rsdp_loop mem n (ACPI_SEARCH_START + 16 * j)
        = some (ACPI_SEARCH_START + 16 * (j + d)) := by
  intro d
  induction d with
  | zero =>
    intro n j hn _ hv hlt
    obtain ⟨m, rfl⟩ : ∃ m, n = m + 1 := ⟨n - 1, by omega⟩
    simp only [Nat.add_zero] at hv hlt ⊢
    unfold find_rsdp_loop
    rw [if_pos hlt, if_pos ((rsdp_test_eq mem _).2 hv)]
  | succ d ih =>
    intro n j hn hno hv hlt
    obtain ⟨m, rfl⟩ : ∃ m, n = m + 1 := ⟨n - 1, by omega⟩
    have h0 : ¬ valid_rsdp_at mem (ACPI_SEARCH_START + 16 * j) := by
      have := hno 0 (by omega)
      simpa using this
    have hlt0 : ACPI_SEARCH_START + 16 * j < ACPI_SEARCH_END := by omega
    have e : j + 1 + d = j + (d + 1) := by omega
    have := ih m (j + 1) (by omega)
      (fun i hi => by
        have := hno (i + 1) (by omega)
        rw [show j + (i + 1) = j + 1 + i by omega] at this
        exact this)
      (by rw [e]; exact hv) (by rw [e]; exact hlt)
    rw [e] at this
    unfold find_rsdp_loop
    rw [if_pos hlt0, if_neg (fun h => h0 ((rsdp_test_eq mem _).1 h))]
    rw [show ACPI_SEARCH_START + 16 * j + 16 = ACPI_SEARCH_START + 16 * (j + 1) by omega]
    exact this

theorem find_rsdp_none (mem : Nat → Nat) :
    ∀ (n j : Nat), 1 ≤ n → 8193 ≤ n + j →
      (∀ k, j ≤ k → ACPI_SEARCH_START + 16 * k < ACPI_SEARCH_END →
        ¬ valid_rsdp_at mem (ACPI_SEARCH_START + 16 * k)) →
      find_rsdp_loop mem n (ACPI_SEARCH_START + 16 * j) = some 0 := by
  intro n
  induction n with
  | zero => intro j h; omega
  | succ m ih =>
    intro j _ hfuel hno
    unfold find_rsdp_loop
    by_cases hlt : ACPI_SEARCH_START + 16 * j < ACPI_SEARCH_END
    · rw [if_pos hlt, if_neg (fun h => hno j (Nat.le_refl _) hlt ((rsdp_test_eq mem _).1 h))]
      rw [show ACPI_SEARCH_START + 16 * j + 16 = ACPI_SEARCH_START + 16 * (j + 1) by omega]
      have hj : j ≤ 8191 := by
        simp only [ACPI_SEARCH_START, ACPI_SEARCH_END] at hlt
        omega
      exact ih (j + 1) (by omega) (by omega) (fun k hk => hno k (by omega))
    · rw [if_neg hlt]

theorem rd8_laid (mem : Nat → Nat) (a : Nat) (e : List Nat) (hok : entry_ok e)
    (hl : ∀ i, i < e.length → mem (a + i) = e.getD i 0) (i : Nat) (hi : i < e.length) :
    rd8 mem (a + i) = e.getD i 0 := by
  unfold rd8
  rw [hl i hi]
  exact Nat.mod_eq_of_lt (hok.2.2.1 i hi)

theorem madt_body_eq (mem : Nat → Nat) (s : MadtScan) (e : List Nat) (hok : entry_ok e)
    (hl : ∀ i, i < e.length → mem (s.ptr + i) = e.getD i 0) :
    madt_body mem s =
      { ptr := s.ptr + e.length
        count := if entry_enabled e then s.count + 1 else s.count
        cpu_apic_ids :=
          if entry_enabled e ∧ s.count < MAX_CPUS then
            fun i => if i = s.count then e.getD 3 0 else s.cpu_apic_ids i
          else s.cpu_apic_ids } := by
  have r := rd8_laid mem s.ptr e hok hl
  have r0 : rd8 mem s.ptr = e.getD 0 0 := by
    have := r 0 (by have := hok.1; omega)
    simpa using this
  have r1 : rd8 mem (s.ptr + 1) = e.length := by
    rw [r 1 (by have := hok.1; omega)]; exact hok.2.2.2.1
  unfold madt_body
  simp only [r0, r1]
  by_cases h0 : e.getD 0 0 = 0
  · have h8 : e.length = 8 := hok.2.2.2.2 h0
    have hflag : rd32 mem (s.ptr + 4) &&& 1 = e.getD 4 0 % 2 := by
      unfold rd32
      rw [show s.ptr + 4 + 1 = s.ptr + 5 by omega, show s.ptr + 4 + 2 = s.ptr + 6 by omega,
        show s.ptr + 4 + 3 = s.ptr + 7 by omega,
        r 4 (by omega), r 5 (by omega), r 6 (by omega), r 7 (by omega), Nat.and_one_is_mod]
      omega
    have r3 : rd8 mem (s.ptr + 3) = e.getD 3 0 := r 3 (by omega)
    rw [if_pos h0, hflag, r3]
    by_cases h4 : e.getD 4 0 % 2 = 1
    · have hen : entry_enabled e = true := by
        unfold entry_enabled; rw [h0, h4]; rfl
      have hne : e.getD 4 0 % 2 ≠ 0 := by omega
      rw [if_pos hne]
      simp only [hen, if_true, true_and]
    · have hen : entry_enabled e = false := by
        have h40 : e.getD 4 0 % 2 = 0 := by omega
        unfold entry_enabled; rw [h0, h40]; rfl
      have hne : ¬ e.getD 4 0 % 2 ≠ 0 := by omega
      rw [if_neg hne]
      simp [hen]
  · have hen : entry_enabled e = false := by
      unfold entry_enabled
      rw [Bool.and_eq_false_iff]
      exact Or.inl (beq_eq_false_iff_ne.2 h0)
    rw [if_neg h0]
    simp [hen]

theorem madt_loop_eq (mem : Nat → Nat) (end_ptr : Nat) (entries : List (List Nat)) :
    ∀ (s : MadtScan) (fuel : Nat), (∀ e, e ∈ entries → entry_ok e) →
      laid_out mem s.ptr entries → end_ptr = s.ptr + total_length entries →
      entries.length < fuel →
      madt_loop mem end_ptr fuel s = some (scan_spec s entries) := by
  induction entries with
  | nil =>
    intro s fuel _ _ hend hf
    obtain ⟨m, rfl⟩ : ∃ m, fuel = m + 1 := ⟨fuel - 1, by simp at hf; omega⟩
    simp only [total_length, List.map_nil, List.sum_nil, Nat.add_zero] at hend
    unfold madt_loop scan_spec
    rw [if_neg (by omega)]
  | cons e es ih =>
    intro s fuel hok hlay hend hf
    obtain ⟨m, rfl⟩ : ∃ m, fuel = m + 1 := ⟨fuel - 1, by simp at hf; omega⟩
    have hoke := hok e (List.mem_cons_self _ _)
    have hlen : 2 ≤ e.length := hoke.1
    simp only [total_length, List.map_cons, List.sum_cons] at hend
    have hbody := madt_body_eq mem s e hoke hlay.1
    unfold madt_loop scan_spec
    rw [if_pos (by omega), hbody]
    apply ih
    · intro e2 h2; exact hok e2 (List.mem_cons_of_mem _ h2)
    · exact hlay.2
    · simp only [total_length]; omega
    · simp at hf; omega

theorem scan_spec_count (entries : List (List Nat)) :
    ∀ s : MadtScan, (scan_spec s entries).count = s.count + (enabled_ids entries).length := by
  induction entries with
  | nil => intro s; simp [scan_spec, enabled_ids]
  | cons e es ih =>
    intro s
    unfold scan_spec
    rw [ih]
    cases he : entry_enabled e
    · simp [enabled_ids, List.filter_cons, he]
    · simp [enabled_ids, List.filter_cons, he]; omega

theorem scan_spec_ids (entries : List (List Nat)) :
    ∀ (s : MadtScan),
      (∀ i, i < s.count → (scan_spec s entries).cpu_apic_ids i = s.cpu_apic_ids i) ∧
      (∀ j, j < (enabled_ids entries).length → s.count + j < MAX_CPUS →
        (scan_spec s entries).cpu_apic_ids (s.count + j) = (enabled_ids entries).getD j 0) := by
  induction entries with
  | nil =>
    intro s
    exact ⟨fun i _ => rfl, fun j hj => by simp [enabled_ids] at hj⟩
  | cons e es ih =>
    intro s
    unfold scan_spec
    cases he : entry_enabled e
    · have := ih { ptr := s.ptr + e.length, count := s.count, cpu_apic_ids := s.cpu_apic_ids }
      simpa [enabled_ids, List.filter_cons, he] using this
    · have ih2 := ih (MadtScan.mk (s.ptr + e.length) (s.count + 1)
        (if s.count < MAX_CPUS then
          (fun i => if i = s.count then e.getD 3 0 else s.cpu_apic_ids i)
        else s.cpu_apic_ids))
      simp only [eq_self_iff_true, if_true, true_and] at ih2 ⊢
      have hids : enabled_ids (e :: es) = e.getD 3 0 :: enabled_ids es := by
        simp [enabled_ids, List.filter_cons, he]
      rw [hids]
      constructor
      · intro i hi
        rw [ih2.1 i (by omega)]
        by_cases hc : s.count < MAX_CPUS
        · rw [if_pos hc, if_neg (by omega)]
        · rw [if_neg hc]
      · intro j hj hcap
        cases j with
        | zero =>
          have hc : s.count < MAX_CPUS := by omega
          have h1 := ih2.1 s.count (by omega)
          simp only [if_pos hc] at h1 ⊢
          simpa using h1
        | succ j =>
          have := ih2.2 j (by simp at hj; omega) (by omega)
          rw [show s.count + (j + 1) = s.count + 1 + j by omega, this]
          simp

theorem acpic_madt_body_eq (mem : Nat → Nat) (s : MadtScan) (e : List Nat) (hok : entry_ok e)
    (hl : ∀ i, i < e.length → mem (s.ptr + i) = e.getD i 0) :
    AcpiC.madt_body mem s =
      { ptr := s.ptr + e.length
        count := if entry_enabled e then s.count + 1 else s.count
        cpu_apic_ids :=
          if entry_enabled e then
            fun i => if i = s.count then e.getD 3 0 else s.cpu_apic_ids i
          else s.cpu_apic_ids } := by
  have r := rd8_laid mem s.ptr e hok hl
  have r0 : rd8 mem s.ptr = e.getD 0 0 := by
    have := r 0 (by have := hok.1; omega)
    simpa using this
  have r1 : rd8 mem (s.ptr + 1) = e.length := by
    rw [r 1 (by have := hok.1; omega)]; exact hok.2.2.2.1
  unfold AcpiC.madt_body
  simp only [r0, r1]
  by_cases h0 : e.getD 0 0 = 0
  · have h8 : e.length = 8 := hok.2.2.2.2 h0
    have hflag : rd32 mem (s.ptr + 4) &&& 1 = e.getD 4 0 % 2 := by
      unfold rd32
      rw [show s.ptr + 4 + 1 = s.ptr + 5 by omega, show s.ptr + 4 + 2 = s.ptr + 6 by omega,
        show s.ptr + 4 + 3 = s.ptr + 7 by omega,
        r 4 (by omega), r 5 (by omega), r 6 (by omega), r 7 (by omega), Nat.and_one_is_mod]
      omega
    have r3 : rd8 mem (s.ptr + 3) = e.getD 3 0 := r 3 (by omega)
    rw [if_pos h0, hflag, r3]
    by_cases h4 : e.getD 4 0 % 2 = 1
    · have hen : entry_enabled e = true := by
        unfold entry_enabled; rw [h0, h4]; rfl
      have hne : e.getD 4 0 % 2 ≠ 0 := by omega
      rw [if_pos hne]
      simp only [hen, if_true]
    · have hen : entry_enabled e = false := by
        have h40 : e.getD 4 0 % 2 = 0 := by omega
        unfold entry_enabled; rw [h0, h40]; rfl
      have hne : ¬ e.getD 4 0 % 2 ≠ 0 := by omega
      rw [if_neg hne]
      simp [hen]
  · have hen : entry_enabled e = false := by
      unfold entry_enabled
      rw [Bool.and_eq_false_iff]
      exact Or.inl (beq_eq_false_iff_ne.2 h0)
    rw [if_neg h0]
    simp [hen]

theorem acpic_madt_loop_spec (mem : Nat → Nat) (end_ptr : Nat) (entries : List (List Nat)) :
    ∀ (s : MadtScan) (fuel : Nat), (∀ e, e ∈ entries → entry_ok e) →
      laid_out mem s.ptr entries → end_ptr = s.ptr + total_length entries →
      entries.length < fuel → s.count + (enabled_ids entries).length ≤ 16 →
      ∃ r, AcpiC.madt_loop mem end_ptr fuel s = some r ∧
        r.count = s.count + (enabled_ids entries).length ∧
        (∀ i, i < s.count → r.cpu_apic_ids i = s.cpu_apic_ids i) ∧
        (∀ j, j < (enabled_ids entries).length →
          r.cpu_apic_ids (s.count + j) = (enabled_ids entries).getD j 0) := by
  induction entries with
  | nil =>
    intro s fuel _ _ hend hf _
    obtain ⟨m, rfl⟩ : ∃ m, fuel = m + 1 := ⟨fuel - 1, by simp at hf; omega⟩
    simp only [total_length, List.map_nil, List.sum_nil, Nat.add_zero] at hend
    refine ⟨s, ?_, by simp [enabled_ids], fun i _ => rfl, fun j hj => by simp [enabled_ids] at hj⟩
    unfold AcpiC.madt_loop
    rw [if_neg (by omega)]
  | cons e es ih =>
    intro s fuel hok hlay hend hf hcap
    obtain ⟨m, rfl⟩ : ∃ m, fuel = m + 1 := ⟨fuel - 1, by simp at hf; omega⟩
    have hoke := hok e (List.mem_cons_self _ _)
    have hlen : 2 ≤ e.length := hoke.1
    simp only [total_length, List.map_cons, List.sum_cons] at hend
    by_cases hc : s.count < 16
    · have hbody := acpic_madt_body_eq mem s e hoke hlay.1
      unfold AcpiC.madt_loop
      rw [if_pos ⟨by omega, hc⟩, hbody]
      cases he : entry_enabled e
      · have hids : enabled_ids (e :: es) = enabled_ids es := by
          simp [enabled_ids, List.filter_cons, he]
        rw [hids] at hcap ⊢
        have := ih (MadtScan.mk (s.ptr + e.length) s.count s.cpu_apic_ids) m
          (fun e2 h2 => hok e2 (List.mem_cons_of_mem _ h2)) hlay.2
          (by simp only [total_length]; omega) (by simp at hf; omega) hcap
        simpa using this
      · have hids : enabled_ids (e :: es) = e.getD 3 0 :: enabled_ids es := by
          simp [enabled_ids, List.filter_cons, he]
        rw [hids] at hcap ⊢
        simp only [List.length_cons] at hcap ⊢
        obtain ⟨r, hr, hcnt, hlow, hhigh⟩ :=
          ih (MadtScan.mk (s.ptr + e.length) (s.count + 1)
            (fun i => if i = s.count then e.getD 3 0 else s.cpu_apic_ids i)) m
          (fun e2 h2 => hok e2 (List.mem_cons_of_mem _ h2)) hlay.2
          (by simp only [total_length]; omega) (by simp at hf; omega) (by simp only; omega)
        simp only at hcnt hlow hhigh
        refine ⟨r, by simpa using hr, by omega, ?_, ?_⟩
        · intro i hi
          rw [hlow i (by omega), if_neg (by omega)]
        · intro j hj
          cases j with
          | zero =>
            rw [Nat.add_zero, hlow s.count (by omega), if_pos rfl]
            simp
          | succ j =>
            have := hhigh j (by omega)
            rw [show s.count + (j + 1) = s.count + 1 + j by omega, this]
            simp
    · have hz : (enabled_ids (e :: es)).length = 0 := by omega
      refine ⟨s, ?_, by omega, fun i _ => rfl, fun j hj => by omega⟩
      unfold AcpiC.madt_loop
      rw [if_neg (fun h => hc h.2)]

theorem acpic_madt_loop_cap (mem : Nat → Nat) (end_ptr : Nat) :
    ∀ (fuel : Nat) (s r : MadtScan), s.count ≤ 16 →
      AcpiC.madt_loop mem end_ptr fuel s = some r → r.count ≤ 16 := by
  intro fuel
  induction fuel with
  | zero => intro s r _ h; simp [AcpiC.madt_loop] at h
  | succ n ih =>
    intro s r hs h
    unfold AcpiC.madt_loop at h
    by_cases hg : s.ptr < end_ptr ∧ s.count < 16
    · rw [if_pos hg] at h
      refine ih (AcpiC.madt_body mem s) r ?_ h
      unfold AcpiC.madt_body
      simp only
      split
      · split
        · simp only; omega
        · exact hs
      · exact hs
    · rw [if_neg hg] at h
      cases h
      exact hs

/-! ## ACPI claims -/

/-- C13. For a MADT whose entries are well formed (length at least 2, Local
APIC entries 8 bytes, entries exactly filling the table after the 44-byte
header) and that has at most `MAX_CPUS` enabled Local APIC entries,
`acpi_parse_madt` terminates, returns the number `k` of type-0 entries whose
flags bit 0 is set, and `cpu_apic_ids[0..k)` holds the APIC IDs of exactly
those entries in table order.  The variant of `acpi.c` gives the same count
and the same IDs. -/
theorem acpi_parse_madt_enumerates (mem : Nat → Nat) (madt_header : Nat) (ids0 : Nat → Nat)
    (entries : List (List Nat)) (fuel : Nat)
    (hok : ∀ e, e ∈ entries → entry_ok e)
    (hlay : laid_out mem (madt_header + 44) entries)
    (hlen : rd32 mem (madt_header + 4) = 44 + total_length entries)
    (hcap : (enabled_ids entries).length ≤ MAX_CPUS)
    (hfuel : entries.length < fuel) :
    (∃ r, acpi_parse_madt mem madt_header ids0 fuel = some r ∧
      r.count = (enabled_ids entries).length ∧
      ∀ i, i < r.count → r.cpu_apic_ids i = (enabled_ids entries).getD i 0) ∧
    (∃ r, AcpiC.acpi_parse_madt mem madt_header ids0 fuel = some r ∧
      r.count = (enabled_ids entries).length ∧
      ∀ i, i < r.count → r.cpu_apic_ids i = (enabled_ids entries).getD i 0) := by
  constructor
  · refine ⟨scan_spec (MadtScan.mk (madt_header + 44) 0 ids0) entries, ?_, ?_, ?_⟩
    · unfold acpi_parse_madt
      exact madt_loop_eq mem _ entries _ fuel hok hlay (by rw [hlen]; simp only; omega) hfuel
    · rw [scan_spec_count]; simp
    · intro i hi
      rw [scan_spec_count] at hi
      simp only [Nat.zero_add] at hi
      have := (scan_spec_ids entries (MadtScan.mk (madt_header + 44) 0 ids0)).2 i hi
        (by simp only [Nat.zero_add]; omega)
      simpa using this
  · unfold AcpiC.acpi_parse_madt
    obtain ⟨r, hr, hcnt, _, hids⟩ :=
      acpic_madt_loop_spec mem (madt_header + rd32 mem (madt_header + 4)) entries
        (MadtScan.mk (madt_header + 36 + 8) 0 ids0) fuel hok hlay
        (by rw [hlen]; simp only; omega) hfuel
        (by simp only [MAX_CPUS] at hcap; simp only; omega)
    simp only [Nat.zero_add] at hcnt hids
    refine ⟨r, hr, hcnt, ?_⟩
    intro i hi
    exact hids i (by omega)

theorem sample_madt_entries_ok : ∀ e, e ∈ sample_madt_entries → entry_ok e := by
  intro e he
  simp only [sample_madt_entries, List.mem_cons, List.mem_singleton, List.not_mem_nil,
    or_false] at he
  rcases he with rfl | rfl | rfl | rfl | rfl <;> (unfold entry_ok; decide)

theorem sample_madt_laid_out : laid_out acpi_mem_xsdt (0x100002000 + 44) sample_madt_entries := by
  simp only [sample_madt_entries, laid_out, List.length_cons, List.length_nil]
  decide

set_option maxRecDepth 1000000 in
/-- The sample MADT at 0x100002000 satisfies the premises of C13; the parser
returns 3 CPUs with APIC IDs 0, 1 and 3. -/
theorem acpi_parse_madt_enumerates_witness :
    (∃ r, acpi_parse_madt acpi_mem_xsdt 0x100002000 (fun _ => 0) 6 = some r ∧
      r.count = (enabled_ids sample_madt_entries).length ∧
      ∀ i, i < r.count → r.cpu_apic_ids i = (enabled_ids sample_madt_entries).getD i 0) ∧
    (∃ r, AcpiC.acpi_parse_madt acpi_mem_xsdt 0x100002000 (fun _ => 0) 6 = some r ∧
      r.count = (enabled_ids sample_madt_entries).length ∧
      ∀ i, i < r.count → r.cpu_apic_ids i = (enabled_ids sample_madt_entries).getD i 0) ∧
    enabled_ids sample_madt_entries = [0, 1, 3] :=
  ⟨(acpi_parse_madt_enumerates acpi_mem_xsdt 0x100002000 (fun _ => 0) sample_madt_entries 6
      sample_madt_entries_ok sample_madt_laid_out (by decide) (by decide) (by decide)).1,
    (acpi_parse_madt_enumerates acpi_mem_xsdt 0x100002000 (fun _ => 0) sample_madt_entries 6
      sample_madt_entries_ok sample_madt_laid_out (by decide) (by decide) (by decide)).2,
    by decide⟩

set_option maxRecDepth 1000000 in
/-- C14. The count returned by `acpi_parse_madt` of `minimal_step9.c` is not
capped: on a MADT with 17 enabled Local APIC entries it returns 17, which is
more than `MAX_CPUS`, so index 16 is below the returned count and outside the
16-element arrays.  The loop of `acpi.c` stops at 16 on the same table. -/
theorem acpi_parse_madt_count_exceeds_cap :
    rd32 acpi_mem17 (0x2000 + 4) = 44 + 17 * 8 ∧
    (Option.map MadtScan.count (acpi_parse_madt acpi_mem17 0x2000 (fun _ => 0) 18)) = some 17 ∧
    MAX_CPUS < 17 ∧
    (Option.map MadtScan.count (AcpiC.acpi_parse_madt acpi_mem17 0x2000 (fun _ => 0) 18))
      = some 16 := by
  decide

/-- C15. With enough fuel for the 8192 candidate addresses, `acpi_find_rsdp`
returns the lowest address `0xE0000 + 16 * k` below `0xFFFFF` that carries the
signature and a 20-byte sum of 0 modulo 256, and it returns null when there is
no such address; the returned value is never an address that fails the test. -/
theorem acpi_find_rsdp_lowest (mem : Nat → Nat) (fuel : Nat) (hfuel : 8193 ≤ fuel) :
    (∀ k, ACPI_SEARCH_START + 16 * k < ACPI_SEARCH_END →
      valid_rsdp_at mem (ACPI_SEARCH_START + 16 * k) →
      (∀ i, i < k → ¬ valid_rsdp_at mem (ACPI_SEARCH_START + 16 * i)) →
      acpi_find_rsdp mem fuel = some (ACPI_SEARCH_START + 16 * k)) ∧
    ((∀ k, ACPI_SEARCH_START + 16 * k < ACPI_SEARCH_END →
      ¬ valid_rsdp_at mem (ACPI_SEARCH_START + 16 * k)) →
      acpi_find_rsdp mem fuel = some 0) ∧
    (acpi_find_rsdp mem fuel = some 0 →
      ∀ k, ACPI_SEARCH_START + 16 * k < ACPI_SEARCH_END →
        ¬ valid_rsdp_at mem (ACPI_SEARCH_START + 16 * k)) := by
  have found : ∀ k, ACPI_SEARCH_START + 16 * k < ACPI_SEARCH_END →
      valid_rsdp_at mem (ACPI_SEARCH_START + 16 * k) →
      (∀ i, i < k → ¬ valid_rsdp_at mem (ACPI_SEARCH_START + 16 * i)) →
      acpi_find_rsdp mem fuel = some (ACPI_SEARCH_START + 16 * k) := by
    intro k hlt hv hno
    have hk : k ≤ 8191 := by
      simp only [ACPI_SEARCH_START, ACPI_SEARCH_END] at hlt
      omega
    have := find_rsdp_found mem k fuel 0 (by omega)
      (fun i hi => by rw [Nat.zero_add]; exact hno i hi)
      (by rw [Nat.zero_add]; exact hv) (by rw [Nat.zero_add]; exact hlt)
    rw [Nat.zero_add] at this
    unfold acpi_find_rsdp
    exact this
  refine ⟨found, ?_, ?_⟩
  · intro hno
    have := find_rsdp_none mem fuel 0 (by omega) (by omega) (fun k _ => hno k)
    unfold acpi_find_rsdp
    exact this
  · intro h0 k hlt hv
    have hex : ∃ k, ACPI_SEARCH_START + 16 * k < ACPI_SEARCH_END ∧
        valid_rsdp_at mem (ACPI_SEARCH_START + 16 * k) := ⟨k, hlt, hv⟩
    classical
    let k0 := Nat.find hex
    have hk0 := Nat.find_spec hex
    have hmin : ∀ i, i < k0 → ¬ valid_rsdp_at mem (ACPI_SEARCH_START + 16 * i) := by
      intro i hi hvi
      have hlti : ACPI_SEARCH_START + 16 * i < ACPI_SEARCH_END := by
        have := hk0.1
        have hi2 : i < Nat.find hex := hi
        omega
      exact Nat.find_min hex hi ⟨hlti, hvi⟩
    have := found k0 hk0.1 hk0.2 hmin
    rw [h0] at this
    simp only [ACPI_SEARCH_START, Option.some.injEq] at this
    omega

set_option maxRecDepth 1000000 in
/-- The sample BIOS area has its only RSDP at 0xE0040 (k = 4); the search
returns it. -/
theorem acpi_find_rsdp_lowest_witness :
    acpi_find_rsdp acpi_mem_rsdt 8193 = some (ACPI_SEARCH_START + 16 * 4) ∧
    ACPI_SEARCH_START + 16 * 4 = 0xE0040 :=
  ⟨(acpi_find_rsdp_lowest acpi_mem_rsdt 8193 (by decide)).1 4 (by decide)
      (by unfold valid_rsdp_at; decide)
      (by
        intro i hi
        have : i = 0 ∨ i = 1 ∨ i = 2 ∨ i = 3 := by omega
        rcases this with rfl | rfl | rfl | rfl <;> (unfold valid_rsdp_at; decide)),
    by decide⟩

set_option maxRecDepth 1000000 in
/-- C16. A revision-2 RSDP points to an XSDT with a valid checksum and one
64-bit entry, 0x100002000, where a table with signature `APIC` lies.  The walk
that the claim describes returns that table; `acpi_find_madt` steps through the
body as two 32-bit entries (0x00002000 and 0x00000001) and returns null. -/
theorem acpi_find_madt_walks_xsdt_as_32bit :
    rd8 acpi_mem_xsdt (0xE0040 + 15) = 2 ∧
    rd64 acpi_mem_xsdt (0xE0040 + 24) = 0x1000 ∧
    acpi_root acpi_mem_xsdt 0xE0040 = 0x1000 ∧
    rd32 acpi_mem_xsdt (0x1000 + 4) = 36 + 8 ∧
    acpi_checksum acpi_mem_xsdt 0x1000 (36 + 8) = true ∧
    rd64 acpi_mem_xsdt (0x1000 + 36) = 0x100002000 ∧
    is_apic acpi_mem_xsdt 0x100002000 = true ∧
    acpi_find_madt_ref acpi_mem_xsdt 0xE0040 = 0x100002000 ∧
    root_entries (rd32 acpi_mem_xsdt (0x1000 + 4)) = 2 ∧
    rd32 acpi_mem_xsdt (0x1000 + 36) = 0x00002000 ∧
    rd32 acpi_mem_xsdt (0x1000 + 36 + 4) = 0x00000001 ∧
    acpi_find_madt acpi_mem_xsdt 0xE0040 = 0 := by
  decide

theorem rd64_store64_same (m : Nat → Nat) (a v : Nat) (hv : v < 2 ^ 64) :
    rd64 (store64 m a v) a = v := by
  unfold rd64 rd32 rd8 store64
  have e : ∀ k, k < 8 → (a ≤ a + k ∧ a + k < a + 8) := fun k hk => ⟨by omega, by omega⟩
  have h0 := e 0 (by omega)
  rw [Nat.add_zero] at h0
  simp only [Nat.add_assoc, if_pos h0, if_pos (e 1 (by omega)), if_pos (e 2 (by omega)),
    if_pos (e 3 (by omega)), if_pos (e 4 (by omega)), if_pos (e 5 (by omega)),
    if_pos (e 6 (by omega)), if_pos (e 7 (by omega)), Nat.reduceAdd, Nat.add_sub_cancel_left,
    Nat.sub_self, Nat.shiftRight_eq_div_pow, Nat.reduceMul, Nat.reducePow, Nat.mod_mod]
  omega

theorem store64_other (m : Nat → Nat) (a v x : Nat) (h : x < a ∨ a + 8 ≤ x) :
    store64 m a v x = m x := by
  unfold store64
  rw [if_neg (by omega)]

theorem rd64_store64_other (m : Nat → Nat) (a v b : Nat) (h : b + 8 ≤ a ∨ a + 8 ≤ b) :
    rd64 (store64 m a v) b = rd64 m b := by
  unfold rd64 rd32 rd8
  rw [store64_other m a v b (by omega), store64_other m a v (b + 1) (by omega),
    store64_other m a v (b + 2) (by omega), store64_other m a v (b + 3) (by omega),
    store64_other m a v (b + 4) (by omega), store64_other m a v (b + 4 + 1) (by omega),
    store64_other m a v (b + 4 + 2) (by omega), store64_other m a v (b + 4 + 3) (by omega)]

theorem memcpy_inv (mem : Nat → Nat) (dest src : Nat) :
    ∀ n, (dest ≤ src ∨ src + n ≤ dest) →
      (∀ a, a < dest ∨ dest + n ≤ a → memcpy mem dest src n a = mem a) ∧
      (∀ j, j < n → memcpy mem dest src n (dest + j) = rd8 mem (src + j)) := by
  intro n
  induction n with
  | zero =>
    intro _
    exact ⟨fun a _ => rfl, fun j hj => by omega⟩
  | succ n ih =>
    intro h
    obtain ⟨ih1, ih2⟩ := ih (by omega)
    have step : memcpy mem dest src (n + 1)
        = fun a => if a = dest + n then rd8 (memcpy mem dest src n) (src + n)
            else memcpy mem dest src n a := by
      unfold memcpy for_loop
      rw [Nat.sub_zero, Nat.sub_zero, List.range'_1_concat, List.foldl_append]
      simp only [List.foldl_cons, List.foldl_nil, Nat.zero_add]
    have hsrc : rd8 (memcpy mem dest src n) (src + n) = rd8 mem (src + n) := by
      unfold rd8
      rw [ih1 (src + n) (by omega)]
    rw [step, hsrc]
    constructor
    · intro a ha
      simp only
      rw [if_neg (by omega)]
      exact ih1 a (by omega)
    · intro j hj
      simp only
      by_cases hjn : j = n
      · subst hjn
        rw [if_pos rfl]
      · rw [if_neg (by omega)]
        exact ih2 j (by omega)

theorem trampoline_slot (n k : Nat) (hk : k ≤ n) (hend : 0x8000 + n < 2 ^ 64) :
    sub64 ((0x8000 + n) % U64) k = 0x8000 + n - k := by
  have hU : U64 = 2 ^ 64 := by unfold U64; norm_num
  rw [hU, Nat.mod_eq_of_lt hend]
  unfold sub64
  rw [if_pos (by omega)]

/-! ## SMP bring-up: write accesses of the helpers -/

theorem adds_refl (m : Machine) : adds_writes m m [] :=
  ⟨rfl, rfl, (List.append_nil _).symm⟩

theorem adds_trans (m n k : Machine) (w v : List Event) (h1 : adds_writes m n w)
    (h2 : adds_writes n k v) : adds_writes m k (w ++ v) :=
  ⟨h2.1.trans h1.1, h2.2.1.trans h1.2.1, by rw [h2.2.2, h1.2.2, List.append_assoc]⟩

theorem emit_quiet (m : Machine) (e : Event) (he : e.is_write = false) :
    adds_writes m (emit m e) [] := by
  refine ⟨rfl, rfl, ?_⟩
  unfold writes_of emit
  simp [List.filter_append, he]

theorem emit_write (m : Machine) (e : Event) (he : e.is_write = true) :
    adds_writes m (emit m e) [e] := by
  refine ⟨rfl, rfl, ?_⟩
  unfold writes_of emit
  simp [List.filter_append, he]

theorem reads_quiet (m n : Machine) (w : List Event) (k : Nat) (h : adds_writes m n w) :
    adds_writes m { n with reads := k } w := h

theorem apic_read_quiet (hw : Nat → Nat) (reg : Nat) (m : Machine) :
    adds_writes m (apic_read hw reg m).2 [] := by
  unfold apic_read
  cases hx : m.use_x2apic
  · simp only [Bool.false_eq_true, if_false]
    exact reads_quiet m _ [] _ (emit_quiet m _ rfl)
  · simp only [if_true]
    unfold rdmsr
    exact reads_quiet m _ [] _ (emit_quiet m _ rfl)

theorem wait_loop_quiet (hw : Nat → Nat) :
    ∀ (t : Nat) (m : Machine), adds_writes m (wait_loop hw t m) [] := by
  intro t
  induction t with
  | zero => intro m; exact apic_read_quiet hw _ m
  | succ t ih =>
    intro m
    unfold wait_loop
    simp only
    split
    · have h1 := apic_read_quiet hw APIC_ICR_LOW m
      have h2 := emit_quiet (apic_read hw APIC_ICR_LOW m).2 Event.pause rfl
      have h3 := ih (emit (apic_read hw APIC_ICR_LOW m).2 Event.pause)
      exact adds_trans _ _ _ [] [] (adds_trans _ _ _ [] [] h1 h2) h3
    · exact apic_read_quiet hw _ m

theorem apic_wait_icr_quiet (hw : Nat → Nat) (m : Machine) :
    adds_writes m (apic_wait_icr hw m) [] := by
  unfold apic_wait_icr
  split
  · exact adds_refl m
  · exact wait_loop_quiet hw _ m

theorem fold_quiet (f : Machine → Nat → Machine) (hf : ∀ m i, adds_writes m (f m i) [])
    (l : List Nat) : ∀ m, adds_writes m (l.foldl f m) [] := by
  induction l with
  | nil => intro m; exact adds_refl m
  | cons a l ih =>
    intro m
    rw [List.foldl_cons]
    exact adds_trans _ _ _ [] [] (hf m a) (ih (f m a))

theorem udelay_quiet (usec : Nat) (m : Machine) : adds_writes m (udelay usec m) [] := by
  unfold udelay for_loop
  exact fold_quiet _ (fun m _ => emit_quiet m Event.pause rfl) _ m

theorem mdelay_quiet (msec : Nat) (m : Machine) : adds_writes m (mdelay msec m) [] := by
  unfold mdelay for_loop
  exact fold_quiet _ (fun m _ => udelay_quiet 1000 m) _ m

theorem icr_value (apic_id flags : Nat) (hid : apic_id < 256) (hf : flags < 2 ^ 32) :
    ((((apic_id % 2 ^ 32) <<< 32) % U64) ||| flags % 2 ^ 32) % U64
      = (apic_id <<< 32) ||| flags := by
  have hU : U64 = 2 ^ 64 := by unfold U64; norm_num
  have h1 : apic_id % 2 ^ 32 = apic_id := Nat.mod_eq_of_lt (by omega)
  have h2 : apic_id <<< 32 < 2 ^ 64 := by
    rw [Nat.shiftLeft_eq]; omega
  rw [hU, h1, Nat.mod_eq_of_lt h2, Nat.mod_eq_of_lt hf]
  exact Nat.mod_eq_of_lt (Nat.or_lt_two_pow h2 (by omega))

theorem icr_high_value (apic_id : Nat) (hid : apic_id < 256) :
    ((apic_id % 2 ^ 32) <<< 24) % 2 ^ 32 = apic_id <<< 24 := by
  have h1 : apic_id % 2 ^ 32 = apic_id := Nat.mod_eq_of_lt (by omega)
  rw [h1]
  apply Nat.mod_eq_of_lt
  rw [Nat.shiftLeft_eq]; omega

theorem send_ipi_writes (hw : Nat → Nat) (apic_id flags : Nat) (m : Machine)
    (hid : apic_id < 256) (hf : flags < 2 ^ 32) :
    adds_writes m (send_ipi hw apic_id flags m) (ipi_writes m.use_x2apic apic_id flags) := by
  unfold send_ipi ipi_writes
  cases hx : m.use_x2apic
  · simp only [Bool.false_eq_true, if_false]
    have h1 := apic_wait_icr_quiet hw m
    have x1 : (apic_wait_icr hw m).use_x2apic = false := by rw [h1.2.1, hx]
    have h2 : adds_writes (apic_wait_icr hw m)
        (apic_write APIC_ICR_HIGH ((apic_id % 2 ^ 32) <<< 24 % 2 ^ 32) (apic_wait_icr hw m))
        [Event.mmio_write (0x310 / 4) (apic_id <<< 24)] := by
      unfold apic_write
      rw [x1, icr_high_value apic_id hid]
      exact emit_write _ _ rfl
    have x2 := h2.2.1.trans x1
    have h3 : adds_writes
        (apic_write APIC_ICR_HIGH ((apic_id % 2 ^ 32) <<< 24 % 2 ^ 32) (apic_wait_icr hw m))
        (apic_write APIC_ICR_LOW (flags % 2 ^ 32)
          (apic_write APIC_ICR_HIGH ((apic_id % 2 ^ 32) <<< 24 % 2 ^ 32) (apic_wait_icr hw m)))
        [Event.mmio_write (0x300 / 4) flags] := by
      unfold apic_write at x2 ⊢
      rw [x2, Nat.mod_eq_of_lt hf]
      exact emit_write _ _ rfl
    have h4 := apic_wait_icr_quiet hw
      (apic_write APIC_ICR_LOW (flags % 2 ^ 32)
        (apic_write APIC_ICR_HIGH ((apic_id % 2 ^ 32) <<< 24 % 2 ^ 32) (apic_wait_icr hw m)))
    have := adds_trans _ _ _ _ _ (adds_trans _ _ _ _ _ (adds_trans _ _ _ _ _ h1 h2) h3) h4
    simpa using this
  · simp only [if_true]
    unfold wrmsr
    rw [icr_value apic_id flags hid hf]
    exact emit_write _ _ rfl

/-! ## SMP bring-up claims -/

/-- C11. For `1 ≤ cpu_idx < cpu_count`, `boot_ap` stores the address
`ap_stacks + cpu_idx * AP_STACK_SIZE + AP_STACK_SIZE` into the 64-bit slot at
`0x8000 + trampoline_size - 16` and changes no other byte; after that store
its write accesses are exactly those of four IPIs to `cpu_apic_ids[cpu_idx]`
with the flag words 0xC500, 0x8500, 0x608 and 0x608, in that order, in either
APIC mode and whatever the delivery-status reads return.  For `cpu_idx = 0` or
`cpu_idx ≥ cpu_count` the machine state is unchanged. -/
theorem boot_ap_init_sipi_sipi (hw : Nat → Nat) (cpu_count : Nat) (cpu_apic_ids : Nat → Nat)
    (ap_stacks trampoline_size cpu_idx : Nat) (m : Machine)
    (hsz : 16 ≤ trampoline_size) (hend : 0x8000 + trampoline_size < 2 ^ 64)
    (hstk : ap_stacks + cpu_idx * AP_STACK_SIZE + AP_STACK_SIZE < 2 ^ 64) :
    (1 ≤ cpu_idx ∧ cpu_idx < cpu_count →
      (boot_ap hw cpu_count cpu_apic_ids ap_stacks trampoline_size cpu_idx m).mem
        = store64 m.mem (0x8000 + trampoline_size - 16)
            (ap_stacks + cpu_idx * AP_STACK_SIZE + AP_STACK_SIZE) ∧
      rd64 (boot_ap hw cpu_count cpu_apic_ids ap_stacks trampoline_size cpu_idx m).mem
          (0x8000 + trampoline_size - 16)
        = ap_stacks + cpu_idx * AP_STACK_SIZE + AP_STACK_SIZE ∧
      writes_of (boot_ap hw cpu_count cpu_apic_ids ap_stacks trampoline_size cpu_idx m)
        = writes_of m ++
            Event.store64 (0x8000 + trampoline_size - 16)
              (ap_stacks + cpu_idx * AP_STACK_SIZE + AP_STACK_SIZE) ::
            (ipi_writes m.use_x2apic (cpu_apic_ids cpu_idx % 256) 0x0000C500 ++
              ipi_writes m.use_x2apic (cpu_apic_ids cpu_idx % 256) 0x00008500 ++
              ipi_writes m.use_x2apic (cpu_apic_ids cpu_idx % 256) 0x00000608 ++
              ipi_writes m.use_x2apic (cpu_apic_ids cpu_idx % 256) 0x00000608)) ∧
    (cpu_idx = 0 ∨ cpu_count ≤ cpu_idx →
      boot_ap hw cpu_count cpu_apic_ids ap_stacks trampoline_size cpu_idx m = m) := by
  have hU : U64 = 2 ^ 64 := by unfold U64; norm_num
  constructor
  · intro hr
    have hslot := trampoline_slot trampoline_size 16 hsz hend
    have hid : cpu_apic_ids cpu_idx % 256 < 256 := Nat.mod_lt _ (by omega)
    have hf1 : APIC_INT_LEVELTRIG ||| APIC_INT_ASSERT ||| APIC_DM_INIT = 0x0000C500 := by decide
    have hf2 : APIC_INT_LEVELTRIG ||| APIC_DM_INIT = 0x00008500 := by decide
    have hf3 : APIC_DM_STARTUP ||| (0x8000 >>> 12) = 0x00000608 := by decide
    unfold boot_ap
    rw [if_neg (by omega), if_neg (by omega)]
    simp only [hslot]
    simp only [hU, Nat.mod_eq_of_lt hstk, hf1, hf2, hf3]
    generalize hm0 : emit
      (Machine.mk (store64 m.mem (0x8000 + trampoline_size - 16)
          (ap_stacks + cpu_idx * AP_STACK_SIZE + AP_STACK_SIZE)) m.trace m.reads m.use_x2apic)
      (Event.store64 (0x8000 + trampoline_size - 16)
        (ap_stacks + cpu_idx * AP_STACK_SIZE + AP_STACK_SIZE)) = m0
    have e0mem : m0.mem = store64 m.mem (0x8000 + trampoline_size - 16)
        (ap_stacks + cpu_idx * AP_STACK_SIZE + AP_STACK_SIZE) := by
      rw [← hm0]; rfl
    have e0x : m0.use_x2apic = m.use_x2apic := by rw [← hm0]; rfl
    have e0w : writes_of m0 = writes_of m ++
        [Event.store64 (0x8000 + trampoline_size - 16)
          (ap_stacks + cpu_idx * AP_STACK_SIZE + AP_STACK_SIZE)] := by
      rw [← hm0]
      unfold writes_of emit
      simp [List.filter_append, Event.is_write]
    generalize hm1 : emit m0 Event.wbinvd = m1
    have a1 : adds_writes m0 m1 [] := by rw [← hm1]; exact emit_quiet m0 _ rfl
    generalize hm2 : send_ipi hw (cpu_apic_ids cpu_idx % 256) 0x0000C500 m1 = m2
    have a2 : adds_writes m1 m2 (ipi_writes m.use_x2apic (cpu_apic_ids cpu_idx % 256) 0x0000C500) := by
      have := send_ipi_writes hw (cpu_apic_ids cpu_idx % 256) 0x0000C500 m1 hid (by omega)
      rw [hm2, a1.2.1, e0x] at this
      exact this
    generalize hm3 : mdelay 10 (apic_wait_icr hw m2) = m3
    have a3 : adds_writes m2 m3 [] := by
      rw [← hm3]
      exact adds_trans _ _ _ [] [] (apic_wait_icr_quiet hw m2) (mdelay_quiet 10 _)
    generalize hm4 : send_ipi hw (cpu_apic_ids cpu_idx % 256) 0x00008500 m3 = m4
    have x3 : m3.use_x2apic = m.use_x2apic := by rw [a3.2.1, a2.2.1, a1.2.1, e0x]
    have a4 : adds_writes m3 m4 (ipi_writes m.use_x2apic (cpu_apic_ids cpu_idx % 256) 0x00008500) := by
      have := send_ipi_writes hw (cpu_apic_ids cpu_idx % 256) 0x00008500 m3 hid (by omega)
      rw [hm4, x3] at this
      exact this
    generalize hm5 : apic_wait_icr hw m4 = m5
    have a5 : adds_writes m4 m5 [] := by rw [← hm5]; exact apic_wait_icr_quiet hw m4
    generalize hm6 : send_ipi hw (cpu_apic_ids cpu_idx % 256) 0x00000608 m5 = m6
    have x5 : m5.use_x2apic = m.use_x2apic := by rw [a5.2.1, a4.2.1, x3]
    have a6 : adds_writes m5 m6 (ipi_writes m.use_x2apic (cpu_apic_ids cpu_idx % 256) 0x00000608) := by
      have := send_ipi_writes hw (cpu_apic_ids cpu_idx % 256) 0x00000608 m5 hid (by omega)
      rw [hm6, x5] at this
      exact this
    generalize hm7 : udelay 200 (apic_wait_icr hw m6) = m7
    have a7 : adds_writes m6 m7 [] := by
      rw [← hm7]
      exact adds_trans _ _ _ [] [] (apic_wait_icr_quiet hw m6) (udelay_quiet 200 _)
    generalize hm8 : send_ipi hw (cpu_apic_ids cpu_idx % 256) 0x00000608 m7 = m8
    have x7 : m7.use_x2apic = m.use_x2apic := by rw [a7.2.1, a6.2.1, x5]
    have a8 : adds_writes m7 m8 (ipi_writes m.use_x2apic (cpu_apic_ids cpu_idx % 256) 0x00000608) := by
      have := send_ipi_writes hw (cpu_apic_ids cpu_idx % 256) 0x00000608 m7 hid (by omega)
      rw [hm8, x7] at this
      exact this
    have a9 : adds_writes m8 (udelay 200 (apic_wait_icr hw m8)) [] :=
      adds_trans _ _ _ [] [] (apic_wait_icr_quiet hw m8) (udelay_quiet 200 _)
    have all := adds_trans _ _ _ _ _ (adds_trans _ _ _ _ _ (adds_trans _ _ _ _ _
      (adds_trans _ _ _ _ _ (adds_trans _ _ _ _ _ (adds_trans _ _ _ _ _
      (adds_trans _ _ _ _ _ (adds_trans _ _ _ _ _ a1 a2) a3) a4) a5) a6) a7) a8) a9
    have hmem : (udelay 200 (apic_wait_icr hw m8)).mem = store64 m.mem
        (0x8000 + trampoline_size - 16)
        (ap_stacks + cpu_idx * AP_STACK_SIZE + AP_STACK_SIZE) := by
      rw [all.1, e0mem]
    refine ⟨hmem, ?_, ?_⟩
    · rw [hmem]
      exact rd64_store64_same _ _ _ hstk
    · rw [all.2.2, e0w]
      simp only [List.append_nil, List.nil_append, List.append_assoc, List.singleton_append]
  · intro h
    unfold boot_ap
    rcases h with h | h
    · rw [if_pos h]
    · by_cases h0 : cpu_idx = 0
      · rw [if_pos h0]
      · rw [if_neg h0, if_pos h]

/-- Four CPUs, a 128-byte trampoline, stacks at 0x200000, xAPIC mode: booting
CPU 2 (APIC ID 4) patches the slot at 0x8070 with 0x206000 and sends the four
IPIs to APIC ID 4. -/
theorem boot_ap_init_sipi_sipi_witness :
    (boot_ap (fun _ => 0) 4 (fun i => 2 * i) 0x200000 128 2 sample_machine).mem
        = store64 sample_machine.mem (0x8000 + 128 - 16)
            (0x200000 + 2 * AP_STACK_SIZE + AP_STACK_SIZE) ∧
      rd64 (boot_ap (fun _ => 0) 4 (fun i => 2 * i) 0x200000 128 2 sample_machine).mem
          (0x8000 + 128 - 16)
        = 0x200000 + 2 * AP_STACK_SIZE + AP_STACK_SIZE ∧
      writes_of (boot_ap (fun _ => 0) 4 (fun i => 2 * i) 0x200000 128 2 sample_machine)
        = writes_of sample_machine ++
            Event.store64 (0x8000 + 128 - 16) (0x200000 + 2 * AP_STACK_SIZE + AP_STACK_SIZE) ::
            (ipi_writes sample_machine.use_x2apic ((fun i => 2 * i) 2 % 256) 0x0000C500 ++
              ipi_writes sample_machine.use_x2apic ((fun i => 2 * i) 2 % 256) 0x00008500 ++
              ipi_writes sample_machine.use_x2apic ((fun i => 2 * i) 2 % 256) 0x00000608 ++
              ipi_writes sample_machine.use_x2apic ((fun i => 2 * i) 2 % 256) 0x00000608) :=
  (boot_ap_init_sipi_sipi (fun _ => 0) 4 (fun i => 2 * i) 0x200000 128 2 sample_machine
    (by decide) (by decide) (by decide)).1 ⟨by decide, by decide⟩

/-- C12. For a blob of `n ≥ 24` bytes at `trampoline_start` that lies at or
above 0x8000 or ends at or below it, after `setup_trampoline` the bytes
`0 .. n-25` at 0x8000 are those of the blob, the last 24 bytes hold the
little-endian 64-bit values `cr3`, 0 and `ap_entry` in this order, and every
byte outside `[0x8000, 0x8000 + n)` is unchanged. -/
theorem setup_trampoline_contract (mem : Nat → Nat) (trampoline_start n cr3 ap_entry : Nat)
    (hn : 24 ≤ n) (hend : 0x8000 + n < 2 ^ 64)
    (hsrc : 0x8000 ≤ trampoline_start ∨ trampoline_start + n ≤ 0x8000)
    (hcr3 : cr3 < 2 ^ 64) (hentry : ap_entry < 2 ^ 64) :
    (∀ i, i < n - 24 →
      rd8 (setup_trampoline mem trampoline_start n cr3 ap_entry) (0x8000 + i)
        = rd8 mem (trampoline_start + i)) ∧
    rd64 (setup_trampoline mem trampoline_start n cr3 ap_entry) (0x8000 + n - 24) = cr3 ∧
    rd64 (setup_trampoline mem trampoline_start n cr3 ap_entry) (0x8000 + n - 16) = 0 ∧
    rd64 (setup_trampoline mem trampoline_start n cr3 ap_entry) (0x8000 + n - 8) = ap_entry ∧
    (∀ a, a < 0x8000 ∨ 0x8000 + n ≤ a →
      setup_trampoline mem trampoline_start n cr3 ap_entry a = mem a) := by
  obtain ⟨hframe, hcopy⟩ := memcpy_inv mem 0x8000 trampoline_start n hsrc
  have e : setup_trampoline mem trampoline_start n cr3 ap_entry
      = store64 (store64 (store64 (memcpy mem 0x8000 trampoline_start n) (0x8000 + n - 24) cr3)
          (0x8000 + n - 16) 0) (0x8000 + n - 8) ap_entry := by
    unfold setup_trampoline
    simp only [trampoline_slot n 24 hn hend, trampoline_slot n 16 (by omega) hend,
      trampoline_slot n 8 (by omega) hend]
  rw [e]
  refine ⟨?_, ?_, ?_, ?_, ?_⟩
  · intro i hi
    unfold rd8
    rw [store64_other _ _ _ _ (by omega), store64_other _ _ _ _ (by omega),
      store64_other _ _ _ _ (by omega), hcopy i (by omega)]
    unfold rd8
    exact Nat.mod_mod _ _
  · rw [rd64_store64_other _ _ _ _ (by omega), rd64_store64_other _ _ _ _ (by omega)]
    exact rd64_store64_same _ _ _ hcr3
  · rw [rd64_store64_other _ _ _ _ (by omega)]
    exact rd64_store64_same _ _ _ (by omega)
  · exact rd64_store64_same _ _ _ hentry
  · intro a ha
    rw [store64_other _ _ _ _ (by omega), store64_other _ _ _ _ (by omega),
      store64_other _ _ _ _ (by omega)]
    exact hframe a ha

/-- A 32-byte blob at 1 MiB, CR3 = 0x1000 and `ap_entry` at 0x101234. -/
theorem setup_trampoline_contract_witness :
    (∀ i, i < 32 - 24 →
      rd8 (setup_trampoline (fun a => a % 251) 0x100000 32 0x1000 0x101234) (0x8000 + i)
        = rd8 (fun a => a % 251) (0x100000 + i)) ∧
    rd64 (setup_trampoline (fun a => a % 251) 0x100000 32 0x1000 0x101234) (0x8000 + 32 - 24)
      = 0x1000 ∧
    rd64 (setup_trampoline (fun a => a % 251) 0x100000 32 0x1000 0x101234) (0x8000 + 32 - 16)
      = 0 ∧
    rd64 (setup_trampoline (fun a => a % 251) 0x100000 32 0x1000 0x101234) (0x8000 + 32 - 8)
      = 0x101234 ∧
    (∀ a, a < 0x8000 ∨ 0x8000 + 32 ≤ a →
      setup_trampoline (fun a => a % 251) 0x100000 32 0x1000 0x101234 a
        = (fun a => a % 251) a) :=
  setup_trampoline_contract (fun a => a % 251) 0x100000 32 0x1000 0x101234
    (by decide) (by decide) (by decide) (by decide) (by decide)

/-! ## x2APIC register mapping -/

/-- C26. In x2APIC mode `apic_read` and `apic_write` reach, for each of the
xAPIC offsets ID, EOI, SVR, ICR low, LVT timer, timer initial count, timer
current count and timer divide, the MSR that the constants `X2APIC_APICID`,
`X2APIC_EOI`, `X2APIC_SVR`, `X2APIC_ICR`, `X2APIC_LVT_TIMER`,
`X2APIC_TIMER_ICR`, `X2APIC_TIMER_CCR` and `X2APIC_TIMER_DCR` name. -/
theorem x2apic_register_mapping (hw : Nat → Nat) (m : Machine) (v : Nat)
    (hx : m.use_x2apic = true) :
    ((apic_read hw APIC_ID_REG m).2.trace = m.trace ++ [Event.rdmsr X2APIC_APICID] ∧
      (apic_read hw APIC_EOI_REG m).2.trace = m.trace ++ [Event.rdmsr X2APIC_EOI] ∧
      (apic_read hw APIC_SVR_REG m).2.trace = m.trace ++ [Event.rdmsr X2APIC_SVR] ∧
      (apic_read hw APIC_ICR_LOW m).2.trace = m.trace ++ [Event.rdmsr X2APIC_ICR] ∧
      (apic_read hw APIC_TIMER_LVT m).2.trace = m.trace ++ [Event.rdmsr X2APIC_LVT_TIMER] ∧
      (apic_read hw APIC_TIMER_ICR m).2.trace = m.trace ++ [Event.rdmsr X2APIC_TIMER_ICR] ∧
      (apic_read hw APIC_TIMER_CCR m).2.trace = m.trace ++ [Event.rdmsr X2APIC_TIMER_CCR] ∧
      (apic_read hw APIC_TIMER_DCR m).2.trace = m.trace ++ [Event.rdmsr X2APIC_TIMER_DCR]) ∧
    ((apic_write APIC_ID_REG v m).trace = m.trace ++ [Event.wrmsr X2APIC_APICID (v % U64)] ∧
      (apic_write APIC_EOI_REG v m).trace = m.trace ++ [Event.wrmsr X2APIC_EOI (v % U64)] ∧
      (apic_write APIC_SVR_REG v m).trace = m.trace ++ [Event.wrmsr X2APIC_SVR (v % U64)] ∧
      (apic_write APIC_ICR_LOW v m).trace = m.trace ++ [Event.wrmsr X2APIC_ICR (v % U64)] ∧
      (apic_write APIC_TIMER_LVT v m).trace
        = m.trace ++ [Event.wrmsr X2APIC_LVT_TIMER (v % U64)] ∧
      (apic_write APIC_TIMER_ICR v m).trace
        = m.trace ++ [Event.wrmsr X2APIC_TIMER_ICR (v % U64)] ∧
      (apic_write APIC_TIMER_CCR v m).trace
        = m.trace ++ [Event.wrmsr X2APIC_TIMER_CCR (v % U64)] ∧
      (apic_write APIC_TIMER_DCR v m).trace
        = m.trace ++ [Event.wrmsr X2APIC_TIMER_DCR (v % U64)]) ∧
    ((X2APIC_MSR_BASE + (APIC_ID_REG >>> 4)) % 2 ^ 32 = 0x802 ∧
      (X2APIC_MSR_BASE + (APIC_EOI_REG >>> 4)) % 2 ^ 32 = 0x80B ∧
      (X2APIC_MSR_BASE + (APIC_SVR_REG >>> 4)) % 2 ^ 32 = 0x80F ∧
      (X2APIC_MSR_BASE + (APIC_ICR_LOW >>> 4)) % 2 ^ 32 = 0x830 ∧
      (X2APIC_MSR_BASE + (APIC_TIMER_LVT >>> 4)) % 2 ^ 32 = 0x832 ∧
      (X2APIC_MSR_BASE + (APIC_TIMER_ICR >>> 4)) % 2 ^ 32 = 0x838 ∧
      (X2APIC_MSR_BASE + (APIC_TIMER_CCR >>> 4)) % 2 ^ 32 = 0x839 ∧
      (X2APIC_MSR_BASE + (APIC_TIMER_DCR >>> 4)) % 2 ^ 32 = 0x83E) := by
  have r : ∀ reg, (apic_read hw reg m).2.trace
      = m.trace ++ [Event.rdmsr ((X2APIC_MSR_BASE + (reg >>> 4)) % 2 ^ 32)] := by
    intro reg
    unfold apic_read rdmsr emit
    rw [hx]
    rfl
  have w : ∀ reg, (apic_write reg v m).trace
      = m.trace ++ [Event.wrmsr ((X2APIC_MSR_BASE + (reg >>> 4)) % 2 ^ 32) (v % U64)] := by
    intro reg
    unfold apic_write wrmsr emit
    rw [hx]
    rfl
  refine ⟨⟨?_, ?_, ?_, ?_, ?_, ?_, ?_, ?_⟩, ⟨?_, ?_, ?_, ?_, ?_, ?_, ?_, ?_⟩, by decide⟩
  all_goals first | (rw [r]; rfl) | (rw [w]; rfl)

/-- A machine in x2APIC mode: reading the APIC ID register is a `rdmsr` of
MSR 0x802, and writing 0 to the EOI register a `wrmsr` of MSR 0x80B. -/
theorem x2apic_register_mapping_witness :
    (apic_read (fun _ => 0) APIC_ID_REG sample_machine_x2).2.trace
        = sample_machine_x2.trace ++ [Event.rdmsr X2APIC_APICID] ∧
      (apic_write APIC_EOI_REG 0 sample_machine_x2).trace
        = sample_machine_x2.trace ++ [Event.wrmsr X2APIC_EOI (0 % U64)] :=
  ⟨(x2apic_register_mapping (fun _ => 0) sample_machine_x2 0 rfl).1.1,
    (x2apic_register_mapping (fun _ => 0) sample_machine_x2 0 rfl).2.1.2.1⟩

/-! ## Index decomposition -/

theorem index_recombine (v : Nat) :
    v / 2 ^ 39 % 512 * 2 ^ 39 + v / 2 ^ 30 % 512 * 2 ^ 30 + v / 2 ^ 21 % 512 * 2 ^ 21
      + v / 2 ^ 12 % 512 * 2 ^ 12 + v % 4096 = v % 2 ^ 48 := by
  norm_num
  omega

/-- C27. For every address `v` the four table indices are below 512 and the
page offset `v & 0xFFF` is below 4096; shifted back to their positions and
or-ed together they give `v mod 2^48`; and two addresses have the same four
indices exactly when they agree on bits 47..12. -/
theorem index_decomposition_round_trip (v w : Nat) :
    pml4_index v < 512 ∧ pdpt_index v < 512 ∧ pd_index v < 512 ∧ pt_index v < 512 ∧
    v &&& 0xFFF < 4096 ∧
    (pml4_index v <<< 39) ||| (pdpt_index v <<< 30) ||| (pd_index v <<< 21)
      ||| (pt_index v <<< 12) ||| (v &&& 0xFFF) = v % 2 ^ 48 ∧
    (same_indices v w ↔ v / 2 ^ 12 % 2 ^ 36 = w / 2 ^ 12 % 2 ^ 36) := by
  have hoff : v &&& 0xFFF = v % 4096 := by
    have h : (0xFFF : Nat) = 2 ^ 12 - 1 := by norm_num
    rw [h, Nat.and_pow_two_sub_one_eq_mod]
  refine ⟨pml4_index_lt v, pdpt_index_lt v, pd_index_lt v, pt_index_lt v, ?_, ?_, ?_⟩
  · rw [hoff]; exact Nat.mod_lt _ (by norm_num)
  · have h4 := pml4_index_lt v
    have h3 := pdpt_index_lt v
    have h2 := pd_index_lt v
    have h1 := pt_index_lt v
    have e4 : pml4_index v = v / 2 ^ 39 % 512 := by unfold pml4_index; exact index_eq v 39
    have e3 : pdpt_index v = v / 2 ^ 30 % 512 := by unfold pdpt_index; exact index_eq v 30
    have e2 : pd_index v = v / 2 ^ 21 % 512 := by unfold pd_index; exact index_eq v 21
    have e1 : pt_index v = v / 2 ^ 12 % 512 := by unfold pt_index; exact index_eq v 12
    rw [hoff]
    simp only [Nat.shiftLeft_eq]
    have s1 : pml4_index v * 2 ^ 39 ||| pdpt_index v * 2 ^ 30
        = pml4_index v * 2 ^ 39 + pdpt_index v * 2 ^ 30 :=
      or_eq_add_of_low_zero _ _ 39 (by rw [Nat.mul_mod_left]) (by omega)
    have s2 : pml4_index v * 2 ^ 39 + pdpt_index v * 2 ^ 30 ||| pd_index v * 2 ^ 21
        = pml4_index v * 2 ^ 39 + pdpt_index v * 2 ^ 30 + pd_index v * 2 ^ 21 :=
      or_eq_add_of_low_zero _ _ 30 (by omega) (by omega)
    have s3 : pml4_index v * 2 ^ 39 + pdpt_index v * 2 ^ 30 + pd_index v * 2 ^ 21
          ||| pt_index v * 2 ^ 12
        = pml4_index v * 2 ^ 39 + pdpt_index v * 2 ^ 30 + pd_index v * 2 ^ 21
          + pt_index v * 2 ^ 12 :=
      or_eq_add_of_low_zero _ _ 21 (by omega) (by omega)
    have s4 : pml4_index v * 2 ^ 39 + pdpt_index v * 2 ^ 30 + pd_index v * 2 ^ 21
          + pt_index v * 2 ^ 12 ||| v % 4096
        = pml4_index v * 2 ^ 39 + pdpt_index v * 2 ^ 30 + pd_index v * 2 ^ 21
          + pt_index v * 2 ^ 12 + v % 4096 :=
      or_eq_add_of_low_zero _ _ 12 (by omega) (by omega)
    rw [s1, s2, s3, s4, e4, e3, e2, e1]
    exact index_recombine v
  · unfold same_indices pml4_index pdpt_index pd_index pt_index
    simp only [index_eq]
    norm_num
    omega

/-! ## The return value 0 of `pmm_alloc_page` -/

set_option maxRecDepth 1000000 in
/-- C28. In the PMM that `kernel_main` builds from a memory map whose low
memory is available, frame 0 is free; `pmm_alloc_page` marks it used,
increments `used_pages` from 262 to 263 and returns its address, which is 0,
the value that stands for out of memory. -/
theorem alloc_page_zero_is_ambiguous :
    low_pmm.total_pages = 272 ∧
    pmm_is_page_used low_pmm 0 = false ∧
    low_pmm.used_pages = 262 ∧
    (pmm_alloc_page low_pmm).2 = 0 ∧
    pmm_is_page_used (pmm_alloc_page low_pmm).1 0 = true ∧
    (pmm_alloc_page low_pmm).1.used_pages = 263 := by
  decide

/-! ## Termination of the MADT entry loop -/

theorem madt_body_ptr (mem : Nat → Nat) (s : MadtScan) :
    (madt_body mem s).ptr = s.ptr + rd8 mem (s.ptr + 1) := by
  unfold madt_body
  simp only
  split
  · split <;> rfl
  · rfl

theorem acpic_madt_body_ptr (mem : Nat → Nat) (s : MadtScan) :
    (AcpiC.madt_body mem s).ptr = s.ptr + rd8 mem (s.ptr + 1) := by
  unfold AcpiC.madt_body
  simp only
  split
  · split <;> rfl
  · rfl

theorem acpic_madt_body_count (mem : Nat → Nat) (s : MadtScan) (h : rd8 mem s.ptr ≠ 0) :
    (AcpiC.madt_body mem s).count = s.count := by
  unfold AcpiC.madt_body
  simp only
  rw [if_neg h]

theorem madt_loop_stuck (mem : Nat → Nat) (end_ptr p : Nat) (hp : p < end_ptr)
    (hz : rd8 mem (p + 1) = 0) :
    ∀ (fuel : Nat) (s : MadtScan), s.ptr = p → madt_loop mem end_ptr fuel s = none := by
  intro fuel
  induction fuel with
  | zero => intro s _; rfl
  | succ n ih =>
    intro s hs
    unfold madt_loop
    rw [if_pos (by omega)]
    apply ih
    rw [madt_body_ptr, hs, hz, Nat.add_zero]

theorem acpic_madt_loop_stuck (mem : Nat → Nat) (end_ptr p c : Nat) (hp : p < end_ptr)
    (hc : c < 16) (ht : rd8 mem p ≠ 0) (hz : rd8 mem (p + 1) = 0) :
    ∀ (fuel : Nat) (s : MadtScan), s.ptr = p → s.count = c →
      AcpiC.madt_loop mem end_ptr fuel s = none := by
  intro fuel
  induction fuel with
  | zero => intro s _ _; rfl
  | succ n ih =>
    intro s hs hcs
    unfold AcpiC.madt_loop
    rw [if_pos ⟨by omega, by omega⟩]
    apply ih
    · rw [acpic_madt_body_ptr, hs, hz, Nat.add_zero]
    · rw [acpic_madt_body_count mem s (by rw [hs]; exact ht), hcs]

theorem madt_loop_ends (mem : Nat → Nat) (end_ptr : Nat) :
    ∀ (k fuel : Nat) (s : MadtScan), lengths_nonzero mem end_ptr k s.ptr = true →
      end_ptr - s.ptr ≤ k → k < fuel →
      ∃ r, madt_loop mem end_ptr fuel s = some r ∧ end_ptr ≤ r.ptr := by
  intro k
  induction k with
  | zero =>
    intro fuel s _ hk hf
    obtain ⟨g, rfl⟩ : ∃ g, fuel = g + 1 := ⟨fuel - 1, by omega⟩
    unfold madt_loop
    rw [if_neg (by omega)]
    exact ⟨s, rfl, by omega⟩
  | succ k ih =>
    intro fuel s hnz hk hf
    obtain ⟨g, rfl⟩ : ∃ g, fuel = g + 1 := ⟨fuel - 1, by omega⟩
    unfold madt_loop
    by_cases hp : s.ptr < end_ptr
    · rw [if_pos hp]
      unfold lengths_nonzero at hnz
      rw [if_pos hp, Bool.and_eq_true, decide_eq_true_iff] at hnz
      apply ih
      · rw [madt_body_ptr]; exact hnz.2
      · rw [madt_body_ptr]; omega
      · omega
    · rw [if_neg hp]
      exact ⟨s, rfl, by omega⟩

theorem acpic_madt_loop_ends (mem : Nat → Nat) (end_ptr : Nat) :
    ∀ (k fuel : Nat) (s : MadtScan), lengths_nonzero mem end_ptr k s.ptr = true →
      end_ptr - s.ptr ≤ k → k < fuel →
      ∃ r, AcpiC.madt_loop mem end_ptr fuel s = some r ∧ (end_ptr ≤ r.ptr ∨ 16 ≤ r.count) := by
  intro k
  induction k with
  | zero =>
    intro fuel s _ hk hf
    obtain ⟨g, rfl⟩ : ∃ g, fuel = g + 1 := ⟨fuel - 1, by omega⟩
    unfold AcpiC.madt_loop
    rw [if_neg (by omega)]
    exact ⟨s, rfl, Or.inl (by omega)⟩
  | succ k ih =>
    intro fuel s hnz hk hf
    obtain ⟨g, rfl⟩ : ∃ g, fuel = g + 1 := ⟨fuel - 1, by omega⟩
    unfold AcpiC.madt_loop
    by_cases hp : s.ptr < end_ptr ∧ s.count < 16
    · rw [if_pos hp]
      unfold lengths_nonzero at hnz
      rw [if_pos hp.1, Bool.and_eq_true, decide_eq_true_iff] at hnz
      apply ih
      · rw [acpic_madt_body_ptr]; exact hnz.2
      · rw [acpic_madt_body_ptr]; omega
      · omega
    · rw [if_neg hp]
      exact ⟨s, rfl, by omega⟩

set_option maxRecDepth 1000000 in
/-- C29, counterexample. On a MADT of 52 bytes whose entry at offset 44 has a
length field of 0, the cursor of `acpi_parse_madt` stays at offset 44 and the loop never ends:
whatever number of iterations is allowed, the function has not returned.  This
holds for the loop of `minimal_step9.c` and for the loop of `acpi.c`. -/
theorem acpi_parse_madt_zero_length_never_ends :
    rd32 acpi_mem_zero (0x2000 + 4) = 52 ∧
    acpi_checksum acpi_mem_zero 0x2000 52 = true ∧
    rd8 acpi_mem_zero (0x2000 + 44 + 1) = 0 ∧
    (madt_body acpi_mem_zero (MadtScan.mk (0x2000 + 44) 0 (fun _ => 0))).ptr = 0x2000 + 44 ∧
    (∀ fuel, acpi_parse_madt acpi_mem_zero 0x2000 (fun _ => 0) fuel = none) ∧
    (∀ fuel, AcpiC.acpi_parse_madt acpi_mem_zero 0x2000 (fun _ => 0) fuel = none) := by
  refine ⟨by decide, by decide, by decide, by decide, ?_, ?_⟩
  · intro fuel
    unfold acpi_parse_madt
    exact madt_loop_stuck acpi_mem_zero _ (0x2000 + 44) (by decide) (by decide) fuel _ rfl
  · intro fuel
    unfold AcpiC.acpi_parse_madt
    exact acpic_madt_loop_stuck acpi_mem_zero _ (0x2000 + 44) 0 (by decide) (by decide)
      (by decide) (by decide) fuel _ rfl rfl

/-- C29, amended. When every entry header that the walk from offset 44 meets
before the end of the table has a length field of at least 1, the loop of
`acpi_parse_madt` ends after at most `length - 44` iterations with the cursor
at or past the end of the table; the loop of `acpi.c` ends as well. -/
theorem acpi_parse_madt_terminates (mem : Nat → Nat) (madt_header : Nat) (ids : Nat → Nat)
    (fuel : Nat)
    (hnz : lengths_nonzero mem (madt_header + rd32 mem (madt_header + 4))
      (rd32 mem (madt_header + 4) - 44) (madt_header + 44) = true)
    (hfuel : rd32 mem (madt_header + 4) - 44 < fuel) :
    (∃ r, acpi_parse_madt mem madt_header ids fuel = some r ∧
      madt_header + rd32 mem (madt_header + 4) ≤ r.ptr) ∧
    (∃ r, AcpiC.acpi_parse_madt mem madt_header ids fuel = some r) := by
  constructor
  · unfold acpi_parse_madt
    exact madt_loop_ends mem _ (rd32 mem (madt_header + 4) - 44) fuel
      (MadtScan.mk (madt_header + 44) 0 ids) hnz (by simp only; omega) hfuel
  · unfold AcpiC.acpi_parse_madt
    obtain ⟨r, hr, _⟩ := acpic_madt_loop_ends mem (madt_header + rd32 mem (madt_header + 4))
      (rd32 mem (madt_header + 4) - 44) fuel (MadtScan.mk (madt_header + 36 + 8) 0 ids) hnz
      (by simp only; omega) hfuel
    exact ⟨r, hr⟩

set_option maxRecDepth 1000000 in
/-- The sample MADT of 88 bytes with five entries of length 8, 8, 12, 8, 8. -/
theorem acpi_parse_madt_terminates_witness :
    (∃ r, acpi_parse_madt acpi_mem_xsdt 0x100002000 (fun _ => 0) 45 = some r ∧
      0x100002000 + rd32 acpi_mem_xsdt (0x100002000 + 4) ≤ r.ptr) ∧
    (∃ r, AcpiC.acpi_parse_madt acpi_mem_xsdt 0x100002000 (fun _ => 0) 45 = some r) :=
  acpi_parse_madt_terminates acpi_mem_xsdt 0x100002000 (fun _ => 0) 45 (by decide) (by decide)

/-! ## Console silence during bring-up -/

theorem no_port_refl (m : Machine) : adds_no_port m m :=
  ⟨[], (List.append_nil _).symm, fun _ h => by simp at h⟩

theorem no_port_trans (m n k : Machine) (h1 : adds_no_port m n) (h2 : adds_no_port n k) :
    adds_no_port m k := by
  obtain ⟨e1, t1, p1⟩ := h1
  obtain ⟨e2, t2, p2⟩ := h2
  refine ⟨e1 ++ e2, by rw [t2, t1, List.append_assoc], ?_⟩
  intro e he
  rcases List.mem_append.1 he with h | h
  · exact p1 e h
  · exact p2 e h

theorem no_port_emit (m : Machine) (e : Event) (he : e.is_port = false) :
    adds_no_port m (emit m e) :=
  ⟨[e], rfl, fun x hx => by rw [List.mem_singleton.1 hx]; exact he⟩

theorem no_port_reads (m n : Machine) (k : Nat) (h : adds_no_port m n) :
    adds_no_port m { n with reads := k } := h

theorem no_port_mem (m : Machine) (f : Nat → Nat) : adds_no_port m { m with mem := f } :=
  no_port_refl m

theorem no_port_apic_read (hw : Nat → Nat) (reg : Nat) (m : Machine) :
    adds_no_port m (apic_read hw reg m).2 := by
  unfold apic_read
  cases hx : m.use_x2apic
  · simp only [Bool.false_eq_true, if_false]
    exact no_port_reads m _ _ (no_port_emit m _ rfl)
  · simp only [if_true]
    unfold rdmsr
    exact no_port_reads m _ _ (no_port_emit m _ rfl)

theorem no_port_apic_write (reg value : Nat) (m : Machine) :
    adds_no_port m (apic_write reg value m) := by
  unfold apic_write
  split
  · unfold wrmsr
    exact no_port_emit m _ rfl
  · exact no_port_emit m _ rfl

theorem no_port_wait_loop (hw : Nat → Nat) :
    ∀ (t : Nat) (m : Machine), adds_no_port m (wait_loop hw t m) := by
  intro t
  induction t with
  | zero => intro m; exact no_port_apic_read hw _ m
  | succ t ih =>
    intro m
    unfold wait_loop
    simp only
    split
    · exact no_port_trans _ _ _
        (no_port_trans _ _ _ (no_port_apic_read hw APIC_ICR_LOW m)
          (no_port_emit (apic_read hw APIC_ICR_LOW m).2 Event.pause rfl))
        (ih (emit (apic_read hw APIC_ICR_LOW m).2 Event.pause))
    · exact no_port_apic_read hw _ m

theorem no_port_apic_wait_icr (hw : Nat → Nat) (m : Machine) :
    adds_no_port m (apic_wait_icr hw m) := by
  unfold apic_wait_icr
  split
  · exact no_port_refl m
  · exact no_port_wait_loop hw _ m

theorem no_port_fold (f : Machine → Nat → Machine) (hf : ∀ m i, adds_no_port m (f m i))
    (l : List Nat) : ∀ m, adds_no_port m (l.foldl f m) := by
  induction l with
  | nil => intro m; exact no_port_refl m
  | cons a l ih =>
    intro m
    rw [List.foldl_cons]
    exact no_port_trans _ _ _ (hf m a) (ih (f m a))

theorem no_port_udelay (usec : Nat) (m : Machine) : adds_no_port m (udelay usec m) := by
  unfold udelay for_loop
  exact no_port_fold _ (fun m _ => no_port_emit m Event.pause rfl) _ m

theorem no_port_mdelay (msec : Nat) (m : Machine) : adds_no_port m (mdelay msec m) := by
  unfold mdelay for_loop
  exact no_port_fold _ (fun m _ => no_port_udelay 1000 m) _ m

theorem no_port_send_ipi (hw : Nat → Nat) (apic_id flags : Nat) (m : Machine) :
    adds_no_port m (send_ipi hw apic_id flags m) := by
  unfold send_ipi
  simp only
  split
  · unfold wrmsr
    exact no_port_emit m _ rfl
  · exact no_port_trans _ _ _
      (no_port_trans _ _ _
        (no_port_trans _ _ _ (no_port_apic_wait_icr hw m) (no_port_apic_write _ _ _))
        (no_port_apic_write _ _ _))
      (no_port_apic_wait_icr hw _)

theorem no_port_boot_ap (hw : Nat → Nat) (cpu_count : Nat) (cpu_apic_ids : Nat → Nat)
    (ap_stacks trampoline_size cpu_idx : Nat) (m : Machine) :
    adds_no_port m (boot_ap hw cpu_count cpu_apic_ids ap_stacks trampoline_size cpu_idx m) := by
  unfold boot_ap
  split
  · exact no_port_refl m
  · split
    · exact no_port_refl m
    · simp only
      have t := no_port_trans
      refine t _ _ _ (t _ _ _ (t _ _ _ (t _ _ _ (t _ _ _ (t _ _ _ (t _ _ _ (t _ _ _ (t _ _ _
        (t _ _ _ (t _ _ _ (t _ _ _ (t _ _ _ (no_port_mem m _) (no_port_emit _ (Event.store64 _ _) rfl))
        (no_port_emit _ Event.wbinvd rfl)) (no_port_send_ipi hw _ _ _)) (no_port_apic_wait_icr hw _))
        (no_port_mdelay _ _)) (no_port_send_ipi hw _ _ _)) (no_port_apic_wait_icr hw _))
        (no_port_send_ipi hw _ _ _)) (no_port_apic_wait_icr hw _)) (no_port_udelay _ _))
        (no_port_send_ipi hw _ _ _)) (no_port_apic_wait_icr hw _)) (no_port_udelay _ _)

theorem com1_is_port (e : Event) (h : e.is_port = false) : e.is_com1 = false := by
  cases e <;> simp [Event.is_port] at h <;> rfl

/-- C25. For every `cpu_count`, both APIC modes, every table of APIC IDs and
every outcome of the hardware reads, the accesses that `boot_all_aps` adds to
the trace contain no `in` or `out` instruction at all, hence no access to a
COM1 port 0x3F8..0x3FF; the store to `cpus_online` leaves the value 1. -/
theorem boot_all_aps_console_silent (hw : Nat → Nat) (cpu_count : Nat)
    (cpu_apic_ids : Nat → Nat) (ap_stacks trampoline_size : Nat) (m : Machine) :
    ∃ evs,
      (boot_all_aps hw cpu_count cpu_apic_ids ap_stacks trampoline_size m).2.trace
        = m.trace ++ evs ∧
      (∀ e, e ∈ evs → e.is_port = false) ∧
      (∀ e, e ∈ evs → e.is_com1 = false) ∧
      (boot_all_aps hw cpu_count cpu_apic_ids ap_stacks trampoline_size m).1 = 1 := by
  have h : adds_no_port m
      (boot_all_aps hw cpu_count cpu_apic_ids ap_stacks trampoline_size m).2 := by
    unfold boot_all_aps for_loop
    simp only
    exact no_port_trans _ _ _
      (no_port_fold _ (fun m i => no_port_boot_ap hw cpu_count cpu_apic_ids ap_stacks
        trampoline_size i m) _ m)
      (no_port_fold _ (fun m _ => no_port_emit m Event.pause rfl) _ _)
  obtain ⟨evs, ht, hp⟩ := h
  exact ⟨evs, ht, hp, fun e he => com1_is_port e (hp e he), rfl⟩

/-! ## Index assignment of the application processors -/

theorem run_aps_keeps (order : List Nat) :
    ∀ (s : Online) (a : Nat), a ∉ order → (run_aps s order).my_id a = s.my_id a := by
  induction order with
  | nil => intro s a _; rfl
  | cons b l ih =>
    intro s a ha
    have hab : a ≠ b := fun h => ha (by rw [h]; exact List.mem_cons_self _ _)
    have hal : a ∉ l := fun h => ha (List.mem_cons_of_mem _ h)
    unfold run_aps at ih ⊢
    rw [List.foldl_cons, ih _ a hal]
    unfold ap_fetch_add
    simp only
    rw [if_neg hab]

theorem run_aps_spec (order : List Nat) :
    ∀ (s : Online), order.Nodup → s.cpus_online + order.length < 2 ^ 32 →
      (run_aps s order).cpus_online = s.cpus_online + order.length ∧
      ∀ j, j < order.length →
        (run_aps s order).my_id (order.getD j 0) = some (s.cpus_online + j) := by
  induction order with
  | nil =>
    intro s _ _
    exact ⟨rfl, fun j hj => by simp at hj⟩
  | cons b l ih =>
    intro s hnd hlt
    rw [List.nodup_cons] at hnd
    simp only [List.length_cons] at hlt ⊢
    have hstep : (ap_fetch_add s b).cpus_online = s.cpus_online + 1 := by
      unfold ap_fetch_add
      simp only
      exact Nat.mod_eq_of_lt (by omega)
    obtain ⟨h1, h2⟩ := ih (ap_fetch_add s b) hnd.2 (by rw [hstep]; omega)
    have hrun : run_aps s (b :: l) = run_aps (ap_fetch_add s b) l := rfl
    rw [hrun]
    constructor
    · rw [h1, hstep]; omega
    · intro j hj
      cases j with
      | zero =>
        simp only [List.getD_cons_zero, Nat.add_zero]
        rw [run_aps_keeps l _ b hnd.1]
        unfold ap_fetch_add
        simp
      | succ j =>
        simp only [List.getD_cons_succ]
        rw [h2 j (by omega), hstep]
        congr 1
        omega

theorem run_aps_take_count (order : List Nat) (s : Online) (j : Nat) (hnd : order.Nodup)
    (hlt : s.cpus_online + order.length < 2 ^ 32) (hj : j ≤ order.length) :
    (run_aps s (order.take j)).cpus_online = s.cpus_online + j := by
  have hn : (order.take j).Nodup := List.Nodup.sublist (List.take_sublist j order) hnd
  have hl : (order.take j).length = j := by rw [List.length_take]; omega
  have := (run_aps_spec (order.take j) s hn (by rw [hl]; omega)).1
  rw [this, hl]

/-- C24. After `cpus_online = 1`, let the application processors in `order`
(pairwise distinct, `K = order.length ≤ cpu_count - 1`) execute their atomic
fetch-and-add in that order.  After the first `j` steps `cpus_online` is
`1 + j`, so it never decreases; it ends at `1 + K ≤ cpu_count`; the `j`-th
processor of the order obtains the index `j + 1`, so the indices are pairwise
distinct, are exactly `1 .. K`, and none is 0. -/
theorem ap_index_assignment (s0 : Online) (order : List Nat) (cpu_count : Nat)
    (hnd : order.Nodup) (hK : order.length + 1 ≤ cpu_count) (hcc : cpu_count < 2 ^ 31) :
    (∀ j, j ≤ order.length →
      (run_aps (bsp_set_online s0) (order.take j)).cpus_online = 1 + j) ∧
    (run_aps (bsp_set_online s0) order).cpus_online = 1 + order.length ∧
    (run_aps (bsp_set_online s0) order).cpus_online ≤ cpu_count ∧
    (∀ j, j < order.length →
      (run_aps (bsp_set_online s0) order).my_id (order.getD j 0) = some (j + 1)) ∧
    order.map (run_aps (bsp_set_online s0) order).my_id
      = (List.range order.length).map (fun j => some (j + 1)) := by
  have hb : (bsp_set_online s0).cpus_online = 1 := rfl
  have hlt : (bsp_set_online s0).cpus_online + order.length < 2 ^ 32 := by rw [hb]; omega
  obtain ⟨h1, h2⟩ := run_aps_spec order (bsp_set_online s0) hnd hlt
  rw [hb] at h1 h2
  have hids : ∀ j, j < order.length →
      (run_aps (bsp_set_online s0) order).my_id (order.getD j 0) = some (j + 1) := by
    intro j hj
    rw [h2 j hj, Nat.add_comm]
  refine ⟨?_, h1, by rw [h1]; omega, hids, ?_⟩
  · intro j hj
    have := run_aps_take_count order (bsp_set_online s0) j hnd hlt hj
    rw [hb] at this
    exact this
  · apply List.ext_getElem
    · simp
    · intro j hj1 hj2
      simp only [List.length_map] at hj1
      simp only [List.getElem_map, List.getElem_range]
      have := hids j hj1
      rw [List.getD_eq_getElem _ _ hj1] at this
      exact this

/-- Three application processors 7, 5 and 9 of a four-CPU machine, in this
order: CPU 7 gets index 1, CPU 5 index 2, CPU 9 index 3, and `cpus_online`
ends at 4. -/
theorem ap_index_assignment_witness :
    (run_aps (bsp_set_online ⟨0, fun _ => none⟩) [7, 5, 9]).cpus_online = 1 + [7, 5, 9].length ∧
    [7, 5, 9].map (run_aps (bsp_set_online ⟨0, fun _ => none⟩) [7, 5, 9]).my_id
      = (List.range [7, 5, 9].length).map (fun j => some (j + 1)) :=
  ⟨(ap_index_assignment ⟨0, fun _ => none⟩ [7, 5, 9] 4 (by decide) (by decide) (by decide)).2.1,
    (ap_index_assignment ⟨0, fun _ => none⟩ [7, 5, 9] 4 (by decide) (by decide)
      (by decide)).2.2.2.2⟩

/-! ## Exception policy -/

/-- C21. For every vector, error code and RIP, `exception_handler` adds one to
`exception_count` (a `uint32_t`); it returns to its caller exactly when the
vector is 3 or 255 and enters the halt loop for every other vector; and the
only index with which it reads `exception_names` is the vector itself, and
only when the vector is below 32. -/
theorem exception_policy (s : ExcState) (vector error_code rip : Nat) :
    (exception_handler s vector error_code rip).state.exception_count
      = (s.exception_count + 1) % 2 ^ 32 ∧
    ((exception_handler s vector error_code rip).returns = true ↔ vector = 3 ∨ vector = 255) ∧
    (¬ (vector = 3 ∨ vector = 255) →
      ∃ t, exception_handler s vector error_code rip = Outcome.halted t) ∧
    (∃ calls, (exception_handler s vector error_code rip).state.console = s.console ++ calls ∧
      ∀ i, ConsoleCall.puts_exception_name i ∈ calls → i = vector ∧ vector < 32) := by
  unfold exception_handler
  simp only
  by_cases h32 : vector < 32
  · by_cases hr : vector = 3 ∨ vector = 255
    · simp only [if_pos h32, if_pos hr]
      refine ⟨rfl, ⟨fun _ => hr, fun _ => rfl⟩, fun h => absurd hr h, ?_⟩
      refine ⟨?calls_1, ?h1_1, ?h2_1⟩
      case h1_1 =>
        simp only [Outcome.state, List.append_assoc]
        exact rfl
      case h2_1 =>
        intro i hi
        simp at hi
        exact ⟨hi, h32⟩
    · simp only [if_pos h32, if_neg hr]
      refine ⟨rfl, ⟨fun h => by simp [Outcome.returns] at h, fun h => absurd h hr⟩,
        fun _ => ⟨_, rfl⟩, ?_⟩
      refine ⟨?calls_2, ?h1_2, ?h2_2⟩
      case h1_2 =>
        simp only [Outcome.state, List.append_assoc]
        exact rfl
      case h2_2 =>
        intro i hi
        simp at hi
        exact ⟨hi, h32⟩
  · have h3 : vector ≠ 3 := by omega
    by_cases h255 : vector = 255
    · have hr : vector = 3 ∨ vector = 255 := Or.inr h255
      simp only [if_neg h32, if_pos h255, if_pos hr]
      refine ⟨rfl, ⟨fun _ => hr, fun _ => rfl⟩, fun h => absurd hr h, ?_⟩
      refine ⟨?calls_3, ?h1_3, ?h2_3⟩
      case h1_3 =>
        simp only [Outcome.state, List.append_assoc]
        exact rfl
      case h2_3 =>
        intro i hi
        simp at hi
    · have hr : ¬ (vector = 3 ∨ vector = 255) := by omega
      simp only [if_neg h32, if_neg h255, if_neg hr]
      refine ⟨rfl, ⟨fun h => by simp [Outcome.returns] at h, fun h => absurd h hr⟩,
        fun _ => ⟨_, rfl⟩, ?_⟩
      refine ⟨?calls_4, ?h1_4, ?h2_4⟩
      case h1_4 =>
        simp only [Outcome.state, List.append_assoc]
        exact rfl
      case h2_4 =>
        intro i hi
        simp at hi

/-! ## Distributed sum -/

theorem range_sum_closed (n : Nat) : ∀ a, 2 * (List.range' a n).sum + n = n * (2 * a + n) := by
  induction n with
  | zero => intro a; simp
  | succ n ih =>
    intro a
    rw [List.range'_succ, List.sum_cons]
    have := ih (a + 1)
    nlinarith [this]

theorem local_sum_fold (l : List Nat) :
    ∀ acc, l.foldl (fun local_sum i => (local_sum + i) % U64) (acc % U64)
      = (acc + l.sum) % U64 := by
  induction l with
  | nil => intro acc; simp
  | cons a l ih =>
    intro acc
    rw [List.foldl_cons, List.sum_cons, ih]
    have hU : U64 = 2 ^ 64 := by unfold U64; norm_num
    rw [hU]
    omega

theorem local_sum_loop_eq (start last : Nat) :
    local_sum_loop start last = exact_sum start last % U64 := by
  unfold local_sum_loop for_loop exact_sum
  have := local_sum_fold (List.range' start (last + 1 - start)) 0
  rw [Nat.zero_mod, Nat.zero_add] at this
  exact this

theorem sum_target_total : exact_sum 1 SUM_TARGET = 50000005000000 := by
  unfold exact_sum SUM_TARGET
  have := range_sum_closed (10000000 + 1 - 1) 1
  norm_num at this ⊢
  omega

theorem exact_sum_split (a b : Nat) (ha : 1 ≤ a) (hab : a ≤ b + 1) :
    exact_sum 1 (a - 1) + exact_sum a b = exact_sum 1 b := by
  unfold exact_sum
  have h := List.range'_append 1 (a - 1) (b + 1 - a) 1
  rw [show 1 + 1 * (a - 1) = a by omega, show b + 1 - a + (a - 1) = b + 1 - 1 by omega] at h
  rw [show a - 1 + 1 - 1 = a - 1 by omega, ← h, List.sum_append]

theorem sum_bounds (N : Nat) (h1 : 1 ≤ N) (h16 : N ≤ MAX_CPUS) :
    1 ≤ SUM_TARGET / N ∧ N * (SUM_TARGET / N) ≤ SUM_TARGET := by
  refine ⟨?_, Nat.mul_div_le _ _⟩
  rw [Nat.le_div_iff_mul_le (by omega)]
  unfold SUM_TARGET
  unfold MAX_CPUS at h16
  omega

theorem sum_start_eq (N i : Nat) (h1 : 1 ≤ N) (h16 : N ≤ MAX_CPUS) (hi : i < N) :
    sum_start N i = i * (SUM_TARGET / N) + 1 := by
  obtain ⟨_, hb⟩ := sum_bounds N h1 h16
  have : i * (SUM_TARGET / N) ≤ N * (SUM_TARGET / N) := Nat.mul_le_mul_right _ (by omega)
  unfold sum_start
  apply Nat.mod_eq_of_lt
  unfold SUM_TARGET U64 at *
  omega

theorem sum_end_eq (N i : Nat) (h1 : 1 ≤ N) (h16 : N ≤ MAX_CPUS) (hi : i + 1 < N) :
    sum_end N i = (i + 1) * (SUM_TARGET / N) := by
  obtain ⟨_, hb⟩ := sum_bounds N h1 h16
  have : (i + 1) * (SUM_TARGET / N) ≤ N * (SUM_TARGET / N) := Nat.mul_le_mul_right _ (by omega)
  unfold sum_end
  rw [if_neg (by omega)]
  apply Nat.mod_eq_of_lt
  unfold SUM_TARGET U64 at *
  omega

theorem sum_end_last (N : Nat) (h1 : 1 ≤ N) : sum_end N (N - 1) = SUM_TARGET := by
  unfold sum_end
  rw [if_pos (by omega)]

/-- The sum of the exact partial sums of the CPUs `0 .. k-1` is the sum of
`1 .. k * per_cpu_work`, as long as CPU `k - 1` is not the last one. -/
theorem prefix_sums (N : Nat) (h1 : 1 ≤ N) (h16 : N ≤ MAX_CPUS) :
    ∀ k, k < N →
      ((List.range k).map (fun i => exact_sum (sum_start N i) (sum_end N i))).sum
        = exact_sum 1 (k * (SUM_TARGET / N)) := by
  intro k
  induction k with
  | zero => intro _; simp [exact_sum]
  | succ k ih =>
    intro hk
    rw [List.range_succ, List.map_append, List.sum_append, ih (by omega)]
    simp only [List.map_cons, List.map_nil, List.sum_cons, List.sum_nil, Nat.add_zero]
    rw [sum_start_eq N k h1 h16 (by omega), sum_end_eq N k h1 h16 hk]
    have hw := (sum_bounds N h1 h16).1
    have e : (k + 1) * (SUM_TARGET / N) = k * (SUM_TARGET / N) + SUM_TARGET / N :=
      Nat.succ_mul _ _
    have := exact_sum_split (k * (SUM_TARGET / N) + 1) ((k + 1) * (SUM_TARGET / N))
      (by omega) (by omega)
    rw [Nat.add_sub_cancel] at this
    exact this

theorem all_sums (N : Nat) (h1 : 1 ≤ N) (h16 : N ≤ MAX_CPUS) :
    ((List.range N).map (fun i => exact_sum (sum_start N i) (sum_end N i))).sum
      = 50000005000000 := by
  obtain ⟨M, rfl⟩ : ∃ M, N = M + 1 := ⟨N - 1, by omega⟩
  rw [List.range_succ, List.map_append, List.sum_append, prefix_sums (M + 1) h1 h16 M (by omega)]
  simp only [List.map_cons, List.map_nil, List.sum_cons, List.sum_nil, Nat.add_zero]
  have hl := sum_end_last (M + 1) h1
  rw [Nat.add_sub_cancel] at hl
  rw [sum_start_eq (M + 1) M h1 h16 (by omega), hl]
  obtain ⟨hw, hb⟩ := sum_bounds (M + 1) h1 h16
  have hle : M * (SUM_TARGET / (M + 1)) ≤ (M + 1) * (SUM_TARGET / (M + 1)) :=
    Nat.mul_le_mul_right _ (by omega)
  have := exact_sum_split (M * (SUM_TARGET / (M + 1)) + 1) SUM_TARGET (by omega) (by omega)
  rw [Nat.add_sub_cancel] at this
  rw [this, sum_target_total]

theorem exact_sum_le_total (N i : Nat) (h1 : 1 ≤ N) (h16 : N ≤ MAX_CPUS) (hi : i < N) :
    exact_sum (sum_start N i) (sum_end N i) ≤ 50000005000000 := by
  rw [← all_sums N h1 h16]
  apply List.single_le_sum (fun x _ => Nat.zero_le x)
  exact List.mem_map.2 ⟨i, List.mem_range.2 hi, rfl⟩

theorem run_sums (N : Nat) (order : List Nat) :
    ∀ s : SumState,
      (order.foldl (test_distributed_sum N) s).total_sum
        = (s.total_sum
            + (order.map (fun i => exact_sum (sum_start N i) (sum_end N i) % U64)).sum) % U64 ∨
      (order = [] ∧ (order.foldl (test_distributed_sum N) s).total_sum = s.total_sum) := by
  induction order with
  | nil => intro s; exact Or.inr ⟨rfl, rfl⟩
  | cons a l ih =>
    intro s
    left
    rw [List.foldl_cons, List.map_cons, List.sum_cons]
    have hstep : (test_distributed_sum N s a).total_sum
        = (s.total_sum + exact_sum (sum_start N a) (sum_end N a) % U64) % U64 := by
      unfold test_distributed_sum
      simp only
      rw [local_sum_loop_eq]
    have hU : U64 = 2 ^ 64 := by unfold U64; norm_num
    rcases ih (test_distributed_sum N s a) with h | ⟨hl, h⟩
    · rw [h, hstep, hU]; omega
    · rw [h, hstep, hl]; simp

theorem run_sums_each (N : Nat) (order : List Nat) :
    ∀ (s : SumState) (i : Nat), i ∈ order →
      (order.foldl (test_distributed_sum N) s).partial_sums i
        = exact_sum (sum_start N i) (sum_end N i) % U64 := by
  induction order with
  | nil => intro s i hi; simp at hi
  | cons a l ih =>
    intro s i hi
    rw [List.foldl_cons]
    by_cases hil : i ∈ l
    · exact ih _ i hil
    · have hia : i = a := by
        rcases List.mem_cons.1 hi with h | h
        · exact h
        · exact absurd h hil
      subst hia
      have keep : ∀ (l : List Nat) (t : SumState), i ∉ l →
          (l.foldl (test_distributed_sum N) t).partial_sums i = t.partial_sums i := by
        intro l
        induction l with
        | nil => intro t _; rfl
        | cons b l ih2 =>
          intro t hb
          rw [List.foldl_cons, ih2 _ (fun h => hb (List.mem_cons_of_mem _ h))]
          unfold test_distributed_sum
          simp only
          rw [if_neg (fun h => hb (by rw [h]; exact List.mem_cons_self _ _))]
      rw [keep l _ hil]
      unfold test_distributed_sum
      simp only
      rw [if_pos trivial, local_sum_loop_eq]

/-- C22. For `1 ≤ N ≤ MAX_CPUS` the inclusive ranges of the CPUs `0 .. N-1` lie
in `1 .. 10000000`, cover it, and are pairwise disjoint.  When the `N` calls
run in any order from `total_sum = 0`, every `partial_sums[i]` is the exact
sum of its range (no 64-bit wrap-around) and `total_sum` ends at
50000005000000. -/
theorem distributed_sum_correct (N : Nat) (order : List Nat) (s : SumState)
    (h1 : 1 ≤ N) (h16 : N ≤ MAX_CPUS) (hperm : order.Perm (List.range N))
    (h0 : s.total_sum = 0) :
    (∀ i x, i < N → in_sum_range N i x → 1 ≤ x ∧ x ≤ SUM_TARGET) ∧
    (∀ x, 1 ≤ x → x ≤ SUM_TARGET → ∃ i, i < N ∧ in_sum_range N i x) ∧
    (∀ i j x, i < N → j < N → in_sum_range N i x → in_sum_range N j x → i = j) ∧
    (∀ i, i < N →
      (order.foldl (test_distributed_sum N) s).partial_sums i
        = exact_sum (sum_start N i) (sum_end N i)) ∧
    (order.foldl (test_distributed_sum N) s).total_sum = 50000005000000 := by
  obtain ⟨hw, hb⟩ := sum_bounds N h1 h16
  have hU : U64 = 2 ^ 64 := by unfold U64; norm_num
  have hst := fun i hi => sum_start_eq N i h1 h16 hi
  have hen := fun i hi => sum_end_eq N i h1 h16 hi
  have hlast := sum_end_last N h1
  have hend_le : ∀ i, i < N → sum_end N i ≤ SUM_TARGET := by
    intro i hi
    by_cases hl : i + 1 < N
    · rw [hen i hl]
      have : (i + 1) * (SUM_TARGET / N) ≤ N * (SUM_TARGET / N) :=
        Nat.mul_le_mul_right _ (by omega)
      omega
    · rw [show i = N - 1 by omega, hlast]
  have hsmall : ∀ i, i < N → exact_sum (sum_start N i) (sum_end N i) % U64
      = exact_sum (sum_start N i) (sum_end N i) := by
    intro i hi
    apply Nat.mod_eq_of_lt
    have := exact_sum_le_total N i h1 h16 hi
    rw [hU]; omega
  refine ⟨?_, ?_, ?_, ?_, ?_⟩
  · intro i x hi hx
    unfold in_sum_range at hx
    rw [hst i hi] at hx
    have := hend_le i hi
    omega
  · intro x hx1 hxT
    by_cases hbig : (N - 1) * (SUM_TARGET / N) < x
    · refine ⟨N - 1, by omega, ?_⟩
      unfold in_sum_range
      rw [hst (N - 1) (by omega), hlast]
      omega
    · have hq : (x - 1) / (SUM_TARGET / N) < N - 1 := by
        rw [Nat.div_lt_iff_lt_mul (by omega)]
        omega
      refine ⟨(x - 1) / (SUM_TARGET / N), by omega, ?_⟩
      unfold in_sum_range
      rw [hst _ (by omega), hen _ (by omega)]
      have d1 := Nat.div_mul_le_self (x - 1) (SUM_TARGET / N)
      exact ⟨by omega, by
        have : x - 1 < ((x - 1) / (SUM_TARGET / N) + 1) * (SUM_TARGET / N) := by
          rw [Nat.mul_comm]
          exact Nat.lt_mul_div_succ _ (by omega)
        omega⟩
  · intro i j x hi hj hxi hxj
    unfold in_sum_range at hxi hxj
    rw [hst i hi] at hxi
    rw [hst j hj] at hxj
    have ei := hend_le i hi
    have ej := hend_le j hj
    by_contra hne
    rcases Nat.lt_or_gt_of_ne hne with h | h
    · have hei := hen i (by omega)
      have : (i + 1) * (SUM_TARGET / N) ≤ j * (SUM_TARGET / N) :=
        Nat.mul_le_mul_right _ (by omega)
      omega
    · have hej := hen j (by omega)
      have : (j + 1) * (SUM_TARGET / N) ≤ i * (SUM_TARGET / N) :=
        Nat.mul_le_mul_right _ (by omega)
      omega
  · intro i hi
    rw [run_sums_each N order s i (hperm.mem_iff.2 (List.mem_range.2 hi)), hsmall i hi]
  · have hmap : (order.map (fun i => exact_sum (sum_start N i) (sum_end N i) % U64)).sum
        = 50000005000000 := by
      rw [(hperm.map _).sum_eq, ← all_sums N h1 h16]
      congr 1
      apply List.map_congr_left
      intro i hi
      exact hsmall i (List.mem_range.1 hi)
    rcases run_sums N order s with h | ⟨hl, _⟩
    · rw [h, hmap, h0, hU]
      norm_num
    · rw [hl] at hperm
      have := hperm.length_eq
      simp at this
      omega

/-- Four CPUs that finish in the order 2, 0, 3, 1. -/
theorem distributed_sum_correct_witness :
    ([2, 0, 3, 1].foldl (test_distributed_sum 4) ⟨fun _ => 0, 0⟩).total_sum = 50000005000000 :=
  (distributed_sum_correct 4 [2, 0, 3, 1] ⟨fun _ => 0, 0⟩ (by decide) (by decide) (by decide)
    rfl).2.2.2.2

/-! ## Decimal printing -/

theorem dec_loop_spec (size : Nat) :
    ∀ (fuel num : Nat) (buf : Nat → Nat) (j : Nat), 0 < num →
      (Nat.digits 10 num).length ≤ j + 1 → j < size → (Nat.digits 10 num).length < fuel →
      ∃ buf1, dec_loop size fuel buf (j : Int) num
          = some (buf1, (j : Int) - ((Nat.digits 10 num).length : Int)) ∧
        (∀ k, j < k → buf1 k = buf k) ∧
        (∀ t, t < (Nat.digits 10 num).length →
          buf1 (j - t) = 48 + (Nat.digits 10 num).getD t 0) := by
  intro fuel
  induction fuel with
  | zero => intro num buf j _ _ _ h; omega
  | succ f ih =>
    intro num buf j hpos hlen hj hfuel
    have hd : Nat.digits 10 num = num % 10 :: Nat.digits 10 (num / 10) :=
      Nat.digits_def' (by norm_num) hpos
    rw [hd] at hlen hfuel ⊢
    simp only [List.length_cons] at hlen hfuel ⊢
    have hcond : num > 0 ∧ (j : Int) ≥ 0 := ⟨hpos, by omega⟩
    have hdig : (48 + num % 10) % 256 = 48 + num % 10 := by omega
    unfold dec_loop
    rw [if_pos hcond, Int.toNat_ofNat, if_pos hj, hdig]
    by_cases hz : num / 10 = 0
    · rw [hz, Nat.digits_zero] at hfuel ⊢
      simp only [List.length_nil] at hfuel ⊢
      obtain ⟨g, rfl⟩ : ∃ g, f = g + 1 := ⟨f - 1, by omega⟩
      refine ⟨fun k => if k = j then 48 + num % 10 else buf k, ?_, ?_, ?_⟩
      · unfold dec_loop
        rw [if_neg (by omega)]
        simp
      · intro k hk
        simp only
        rw [if_neg (by omega)]
      · intro t ht
        have : t = 0 := by omega
        subst this
        simp
    · have hpos2 : 0 < num / 10 := by omega
      have hne : Nat.digits 10 (num / 10) ≠ [] :=
        Nat.digits_ne_nil_iff_ne_zero.2 hz
      have hl1 : 1 ≤ (Nat.digits 10 (num / 10)).length := by
        cases hq : Nat.digits 10 (num / 10) with
        | nil => exact absurd hq hne
        | cons a l => simp
      have hj1 : 1 ≤ j := by omega
      have hcast : (j : Int) - 1 = ((j - 1 : Nat) : Int) := by omega
      rw [hcast]
      obtain ⟨buf1, hrun, hkeep, hdigs⟩ :=
        ih (num / 10) (fun k => if k = j then 48 + num % 10 else buf k) (j - 1) hpos2
          (by omega) (by omega) (by omega)
      refine ⟨buf1, ?_, ?_, ?_⟩
      · rw [hrun]
        congr 2
        push_cast
        omega
      · intro k hk
        rw [hkeep k (by omega), if_neg (by omega)]
      · intro t ht
        cases t with
        | zero =>
          rw [Nat.sub_zero, hkeep j (by omega)]
          simp
        | succ s =>
          have := hdigs s (by omega)
          rw [show j - (s + 1) = j - 1 - s by omega, this]
          simp

theorem puts_buf_spec (size : Nat) (buf : Nat → Nat) (l : List Nat) :
    ∀ (fuel p : Nat), (∀ s, s < l.length → buf (p + s) = l.getD s 0) →
      buf (p + l.length) = 0 → (∀ c, c ∈ l → c ≠ 0 ∧ c ≠ 10) → p + l.length < size →
      l.length < fuel → puts_buf size fuel buf (p : Int) = some l := by
  induction l with
  | nil =>
    intro fuel p _ hz _ hsz hf
    obtain ⟨g, rfl⟩ : ∃ g, fuel = g + 1 := ⟨fuel - 1, by simp at hf; omega⟩
    simp only [List.length_nil, Nat.add_zero] at hz hsz
    unfold puts_buf
    rw [Int.toNat_ofNat, if_pos ⟨by omega, hsz⟩, if_pos hz]
  | cons c l ih =>
    intro fuel p hbuf hz hc hsz hf
    simp only [List.length_cons] at hbuf hz hsz hf
    obtain ⟨g, rfl⟩ : ∃ g, fuel = g + 1 := ⟨fuel - 1, by omega⟩
    have h0 : buf p = c := by
      have := hbuf 0 (by omega)
      simpa using this
    have hcc := hc c (List.mem_cons_self _ _)
    have hrec := ih g (p + 1)
      (fun s hs => by
        have := hbuf (s + 1) (by omega)
        rw [show p + 1 + s = p + (s + 1) by omega, this]
        simp)
      (by rw [show p + 1 + l.length = p + (l.length + 1) by omega]; exact hz)
      (fun x hx => hc x (List.mem_cons_of_mem _ hx)) (by omega) (by omega)
    have hcast : (p : Int) + 1 = ((p + 1 : Nat) : Int) := by omega
    unfold puts_buf
    rw [Int.toNat_ofNat, if_pos ⟨by omega, by omega⟩, h0, if_neg hcc.1, hcast, hrec]
    simp only [if_neg hcc.2, List.singleton_append]

theorem digits_length_le : ∀ (k n : Nat), n < 10 ^ k → (Nat.digits 10 n).length ≤ k := by
  intro k
  induction k with
  | zero =>
    intro n hn
    have : n = 0 := by omega
    subst this
    simp
  | succ k ih =>
    intro n hn
    by_cases h0 : n = 0
    · subst h0; simp
    · rw [Nat.digits_def' (by norm_num) (by omega), List.length_cons]
      have := ih (n / 10) (by rw [Nat.div_lt_iff_lt_mul (by norm_num)]; rw [pow_succ] at hn; exact hn)
      omega

theorem parse_dec_digits (l : List Nat) :
    parse_dec (l.reverse.map (fun d => 48 + d)) = Nat.ofDigits 10 l := by
  induction l with
  | nil => rfl
  | cons d l ih =>
    unfold parse_dec at ih ⊢
    rw [List.reverse_cons, List.map_append, List.foldl_append, ih, Nat.ofDigits_cons]
    simp only [List.map_cons, List.map_nil, List.foldl_cons, List.foldl_nil]
    omega

theorem digits_out_canonical (width n : Nat) (hn : 0 < n) (hw : n < 10 ^ width) :
    canonical_decimal width ((Nat.digits 10 n).reverse.map (fun d => 48 + d)) := by
  have hne : Nat.digits 10 n ≠ [] := Nat.digits_ne_nil_iff_ne_zero.2 (by omega)
  refine ⟨?_, ?_, ?_, ?_⟩
  · rw [List.length_map, List.length_reverse]
    cases hq : Nat.digits 10 n with
    | nil => exact absurd hq hne
    | cons a l => simp
  · rw [List.length_map, List.length_reverse]
    exact digits_length_le width n hw
  · intro c hc
    obtain ⟨d, hd, rfl⟩ := List.mem_map.1 hc
    have := Nat.digits_lt_base (by norm_num : 1 < 10) (List.mem_reverse.1 hd)
    omega
  · intro hhead
    exfalso
    have hlast := Nat.getLast_digit_ne_zero 10 (by omega : n ≠ 0)
    rw [List.head?_map, List.head?_reverse, List.getLast?_eq_getLast _ hne] at hhead
    simp only [Option.map_some', Option.some.injEq] at hhead
    omega

theorem print_dec_body_spec (size : Nat) (garbage : Nat → Nat) (fuel num : Nat)
    (hsize : 2 ≤ size) (hpos : 0 < num) (hlen : (Nat.digits 10 num).length + 1 ≤ size)
    (hfuel : size ≤ fuel) :
    print_dec_body size garbage fuel num
      = some ((Nat.digits 10 num).reverse.map (fun d => 48 + d)) := by
  have hc1 : (size : Int) - 1 = ((size - 1 : Nat) : Int) := by omega
  have hc2 : ((size - 1 : Nat) : Int) - 1 = ((size - 2 : Nat) : Int) := by omega
  unfold print_dec_body
  simp only [hc1, Int.toNat_ofNat, hc2]
  rw [if_pos ⟨by omega, by omega⟩, if_neg (by omega)]
  obtain ⟨buf1, hrun, hkeep, hdigs⟩ :=
    dec_loop_spec size fuel num (fun k => if k = size - 1 then 0 else garbage k) (size - 2) hpos
      (by omega) (by omega) (by omega)
  rw [hrun]
  simp only
  have hc3 : ((size - 2 : Nat) : Int) - ((Nat.digits 10 num).length : Int) + 1
      = ((size - 1 - (Nat.digits 10 num).length : Nat) : Int) := by omega
  rw [hc3]
  have hL : ((Nat.digits 10 num).reverse.map (fun d => 48 + d)).length
      = (Nat.digits 10 num).length := by
    rw [List.length_map, List.length_reverse]
  apply puts_buf_spec
  · intro s hs
    rw [hL] at hs
    have h1 := hdigs ((Nat.digits 10 num).length - 1 - s) (by omega)
    rw [show size - 2 - ((Nat.digits 10 num).length - 1 - s)
        = size - 1 - (Nat.digits 10 num).length + s by omega] at h1
    have h2 : ((Nat.digits 10 num).reverse.map (fun d => 48 + d)).getD s 0
        = 48 + (Nat.digits 10 num).getD ((Nat.digits 10 num).length - 1 - s) 0 := by
      rw [List.getD_eq_getElem _ _ (by rw [hL]; exact hs),
        List.getD_eq_getElem _ _ (by omega), List.getElem_map, List.getElem_reverse]
    rw [h1, h2]
  · rw [List.length_map, List.length_reverse,
      show size - 1 - (Nat.digits 10 num).length + (Nat.digits 10 num).length = size - 1 by omega,
      hkeep (size - 1) (by omega)]
    simp
  · intro c hc
    obtain ⟨d, _, rfl⟩ := List.mem_map.1 hc
    omega
  · rw [List.length_map, List.length_reverse]
    omega
  · rw [List.length_map, List.length_reverse]
    omega

theorem print_dec_body_correct (size width : Nat) (garbage : Nat → Nat) (fuel num : Nat)
    (hsize : 2 ≤ size) (hw1 : 1 ≤ width) (hw : width + 1 ≤ size) (hnum : num < 10 ^ width)
    (hfuel : size ≤ fuel) :
    ∃ out, print_dec_body size garbage fuel num = some out ∧ canonical_decimal width out ∧
      parse_dec out = num ∧ (num = 0 → out = [48]) := by
  by_cases h0 : num = 0
  · subst h0
    refine ⟨[48], ?_, ⟨by simp, ?_, ?_, fun _ => rfl⟩, rfl, fun _ => rfl⟩
    · have hc1 : (size : Int) - 1 = ((size - 1 : Nat) : Int) := by omega
      unfold print_dec_body
      simp only [hc1, Int.toNat_ofNat]
      rw [if_pos ⟨by omega, by omega⟩, if_pos trivial]
    · simpa using hw1
    · intro c hc
      simp at hc
      omega
  · have hpos : 0 < num := by omega
    have hl := digits_length_le width num hnum
    refine ⟨_, print_dec_body_spec size garbage fuel num hsize hpos (by omega) hfuel,
      digits_out_canonical width num hpos hnum, ?_, fun h => absurd h h0⟩
    rw [parse_dec_digits, Nat.ofDigits_digits]

/-- C30. With a buffer of any initial content, `print_dec_64` on a 64-bit `n`
and `print_dec` on a 32-bit `n` return without using an index outside their
buffers of 24 and 12 bytes, and the characters they print are a canonical
decimal numeral of at most 20 and 10 digits (digits only, no leading zero,
the single character `0` for 0) that reads back as `n`. -/
theorem print_dec_round_trip (garbage : Nat → Nat) (fuel n : Nat) (hn : n < 2 ^ 64)
    (hfuel : 24 ≤ fuel) :
    (∃ out, print_dec_64 garbage fuel n = some out ∧ canonical_decimal 20 out ∧
      parse_dec out = n ∧ (n = 0 → out = [48])) ∧
    (n < 2 ^ 32 →
      ∃ out, print_dec garbage fuel n = some out ∧ canonical_decimal 10 out ∧
        parse_dec out = n ∧ (n = 0 → out = [48])) := by
  constructor
  · unfold print_dec_64
    rw [Nat.mod_eq_of_lt hn]
    exact print_dec_body_correct 24 20 garbage fuel n (by omega) (by omega) (by omega)
      (by norm_num at hn ⊢; omega) hfuel
  · intro h32
    unfold print_dec
    rw [Nat.mod_eq_of_lt h32]
    exact print_dec_body_correct 12 10 garbage fuel n (by omega) (by omega) (by omega)
      (by norm_num at h32 ⊢; omega) (by omega)

/-- The largest 32-bit number, printed by both functions. -/
theorem print_dec_round_trip_witness :
    (∃ out, print_dec_64 (fun _ => 0) 24 4294967295 = some out ∧ canonical_decimal 20 out ∧
      parse_dec out = 4294967295 ∧ (4294967295 = 0 → out = [48])) ∧
    (∃ out, print_dec (fun _ => 0) 24 4294967295 = some out ∧ canonical_decimal 10 out ∧
      parse_dec out = 4294967295 ∧ (4294967295 = 0 → out = [48])) :=
  ⟨(print_dec_round_trip (fun _ => 0) 24 4294967295 (by decide) (by decide)).1,
    (print_dec_round_trip (fun _ => 0) 24 4294967295 (by decide) (by decide)).2 (by decide)⟩

/-! ## Sense-reversing barrier -/

theorem arrivals_same (m : Nat) (s r : BarrierState)
    (h : ∀ k, k < m → incremented (r.callers k) = incremented (s.callers k)) :
    arrivals m r = arrivals m s :=
  countP_range_congr _ _ m h

theorem arrivals_succ (m : Nat) (s r : BarrierState) (t : Nat) (ht : t < m)
    (h0 : incremented (s.callers t) = false) (h1 : incremented (r.callers t) = true)
    (hrest : ∀ k, k ≠ t → r.callers k = s.callers k) :
    arrivals m r = arrivals m s + 1 :=
  countP_range_set (fun k => incremented (s.callers k)) (fun k => incremented (r.callers k)) t
    h0 h1 (fun k hk => by simp only [hrest k hk]) m ht

theorem arrivals_le (m : Nat) (s : BarrierState) : arrivals m s ≤ m := by
  unfold arrivals
  have := List.countP_le_length (fun t => incremented (s.callers t)) (l := List.range m)
  rw [List.length_range] at this
  exact this

theorem arrivals_all (m : Nat) (s : BarrierState) (h : arrivals m s = m) :
    ∀ t, t < m → incremented (s.callers t) = true := by
  intro t ht
  unfold arrivals at h
  have h2 : (List.range m).countP (fun t => incremented (s.callers t)) = (List.range m).length := by
    rw [List.length_range]; exact h
  exact (List.countP_eq_length.1 h2) t (List.mem_range.2 ht)

theorem set_caller_self (s : BarrierState) (t : Nat) (c : BarrierCaller) :
    (set_caller s t c).callers t = c := by
  unfold set_caller
  simp

theorem set_caller_other (s : BarrierState) (t u : Nat) (c : BarrierCaller) (h : u ≠ t) :
    (set_caller s t c).callers u = s.callers u := by
  unfold set_caller
  simp [h]

theorem flip_ne (s0 : Nat) : (if s0 = 0 then 1 else 0) ≠ s0 := by
  split <;> omega

theorem barrier_inv_step (n m s0 : Nat) (s : BarrierState) (t : Nat) (hn32 : n < 2 ^ 32)
    (hm : m ≤ n) (ht : t < m) (hinv : barrier_inv n m s0 s) :
    barrier_inv n m s0 (barrier_step n s t) := by
  rcases hinv with ⟨hc, hlt, hs, hf, hall⟩ | ⟨l, hl, hmn, harr, hms, hoth, hph⟩
  · rcases hall t ht with hr | ⟨ha | hp, hmy⟩
    · -- the read of `barrier_sense`
      have e : barrier_step n s t
          = set_caller s t { s.callers t with pc := .add_count, my_sense := s.barrier_sense } := by
        unfold barrier_step
        simp only [hr]
      rw [e]
      have hsame : arrivals m (set_caller s t
          { s.callers t with pc := .add_count, my_sense := s.barrier_sense }) = arrivals m s := by
        apply arrivals_same
        intro k _
        by_cases hk : k = t
        · subst hk
          rw [set_caller_self]
          simp only [incremented, hr]
        · rw [set_caller_other _ _ _ _ hk]
      left
      refine ⟨by rw [hsame]; exact hc, by rw [hsame]; exact hlt, hs, hf, ?_⟩
      intro u hu
      by_cases hk : u = t
      · subst hk
        rw [set_caller_self]
        exact Or.inr ⟨Or.inl rfl, hs⟩
      · rw [set_caller_other _ _ _ _ hk]
        exact hall u hu
    · -- the atomic increment
      have hcnt : (s.barrier_count + 1) % 2 ^ 32 = arrivals m s + 1 := by
        rw [hc]
        exact Nat.mod_eq_of_lt (by omega)
      have hnn : n % 2 ^ 32 = n := Nat.mod_eq_of_lt hn32
      have e : barrier_step n s t
          = set_caller { s with barrier_count := arrivals m s + 1 } t
              { s.callers t with
                arrived := arrivals m s + 1
                pc := if arrivals m s + 1 = n then .reset_count else .poll } := by
        unfold barrier_step
        simp only [ha, hcnt, hnn]
      rw [e]
      have hinc : arrivals m (set_caller { s with barrier_count := arrivals m s + 1 } t
          { s.callers t with
            arrived := arrivals m s + 1
            pc := if arrivals m s + 1 = n then .reset_count else .poll })
          = arrivals m s + 1 := by
        apply arrivals_succ m s _ t ht
        · simp only [incremented, ha]
        · rw [set_caller_self]
          by_cases h : arrivals m s + 1 = n <;> simp [incremented, h]
        · intro k hk
          rw [set_caller_other _ _ _ _ hk]
      have hle := arrivals_le m (set_caller { s with barrier_count := arrivals m s + 1 } t
          { s.callers t with
            arrived := arrivals m s + 1
            pc := if arrivals m s + 1 = n then .reset_count else .poll })
      rw [hinc] at hle
      by_cases hlast : arrivals m s + 1 = n
      · right
        have hmn : m = n := by omega
        have hfull := arrivals_all m _ (by rw [hinc]; omega)
        refine ⟨t, ht, hmn, ?_, ?_, ?_, ?_⟩
        · rw [set_caller_self]
          exact hlast
        · rw [set_caller_self]
          exact hmy
        · intro u hu hut
          have hi := hfull u hu
          rw [set_caller_other _ _ _ _ hut] at hi ⊢
          rcases hall u hu with h1 | ⟨h1 | h1, h2⟩
          · simp [incremented, h1] at hi
          · simp [incremented, h1] at hi
          · exact ⟨h2, Or.inl h1⟩
        · left
          rw [set_caller_self]
          simp only [if_pos hlast]
          exact ⟨trivial, hlast, hs, hf⟩
      · left
        refine ⟨by rw [hinc]; rfl, by rw [hinc]; omega, hs, hf, ?_⟩
        intro u hu
        by_cases hk : u = t
        · subst hk
          rw [set_caller_self]
          simp only [if_neg hlast]
          exact Or.inr ⟨Or.inr trivial, hmy⟩
        · rw [set_caller_other _ _ _ _ hk]
          exact hall u hu
    · -- a poll that sees the initial sense
      have e : barrier_step n s t = s := by
        unfold barrier_step
        simp only [hp]
        rw [if_pos (by rw [hs, hmy])]
      rw [e]
      exact Or.inl ⟨hc, hlt, hs, hf, hall⟩
  · by_cases htl : t = l
    · subst htl
      rcases hph with ⟨hpc, hcn, hse, hfl⟩ | ⟨hpc, hcn, hse, hfl⟩ | ⟨hpc, hcn, hse, hfl⟩
      · -- the reset of `barrier_count`
        have e : barrier_step n s t
            = set_caller { s with barrier_count := 0 } t
                { s.callers t with pc := .store_sense } := by
          unfold barrier_step
          simp only [hpc]
        rw [e]
        right
        refine ⟨t, hl, hmn, ?_, ?_, ?_, ?_⟩
        · rw [set_caller_self]; exact harr
        · rw [set_caller_self]; exact hms
        · intro u hu hut
          rw [set_caller_other _ _ _ _ hut]
          exact hoth u hu hut
        · right; left
          rw [set_caller_self]
          exact ⟨rfl, rfl, hse, hfl⟩
      · -- the store of the flipped sense
        have e : barrier_step n s t
            = set_caller
                { s with
                  barrier_sense := if (s.callers t).my_sense = 0 then 1 else 0
                  flips := s.flips ++ [t] } t
                { s.callers t with pc := .done } := by
          unfold barrier_step
          simp only [hpc]
        rw [e]
        right
        refine ⟨t, hl, hmn, ?_, ?_, ?_, ?_⟩
        · rw [set_caller_self]; exact harr
        · rw [set_caller_self]; exact hms
        · intro u hu hut
          rw [set_caller_other _ _ _ _ hut]
          obtain ⟨h1, h2⟩ := hoth u hu hut
          refine ⟨h1, ?_⟩
          rcases h2 with h2 | ⟨_, h3⟩
          · exact Or.inl h2
          · rw [hfl] at h3
            simp at h3
        · right; right
          rw [set_caller_self]
          refine ⟨rfl, hcn, ?_, ?_⟩
          · show (if (s.callers t).my_sense = 0 then 1 else 0) = _
            rw [hms]
          · show s.flips ++ [t] = [t]
            rw [hfl]
            rfl
      · -- the last caller has returned
        have e : barrier_step n s t = s := by
          unfold barrier_step
          simp only [hpc]
        rw [e]
        exact Or.inr ⟨t, hl, hmn, harr, hms, hoth, Or.inr (Or.inr ⟨hpc, hcn, hse, hfl⟩)⟩
    · obtain ⟨hmy, hpc⟩ := hoth t ht htl
      rcases hpc with hpoll | ⟨hdone, hfl⟩
      · by_cases hsee : s.barrier_sense = (s.callers t).my_sense
        · have e : barrier_step n s t = s := by
            unfold barrier_step
            simp only [hpoll]
            rw [if_pos hsee]
          rw [e]
          exact Or.inr ⟨l, hl, hmn, harr, hms, hoth, hph⟩
        · have e : barrier_step n s t = set_caller s t { s.callers t with pc := .done } := by
            unfold barrier_step
            simp only [hpoll]
            rw [if_neg hsee]
          have hD : (s.callers l).pc = .done ∧ s.barrier_count = 0 ∧
              s.barrier_sense = (if s0 = 0 then 1 else 0) ∧ s.flips = [l] := by
            rcases hph with ⟨_, _, hse, _⟩ | ⟨_, _, hse, _⟩ | h
            · exact absurd (by rw [hse, hmy]) hsee
            · exact absurd (by rw [hse, hmy]) hsee
            · exact h
          rw [e]
          right
          refine ⟨l, hl, hmn, ?_, ?_, ?_, ?_⟩
          · rw [set_caller_other _ _ _ _ (fun h => htl h.symm)]; exact harr
          · rw [set_caller_other _ _ _ _ (fun h => htl h.symm)]; exact hms
          · intro u hu hul
            by_cases hut : u = t
            · subst hut
              rw [set_caller_self]
              exact ⟨hmy, Or.inr ⟨rfl, hD.2.2.2⟩⟩
            · rw [set_caller_other _ _ _ _ hut]
              exact hoth u hu hul
          · right; right
            rw [set_caller_other _ _ _ _ (fun h => htl h.symm)]
            exact hD
      · have e : barrier_step n s t = s := by
          unfold barrier_step
          simp only [hdone]
        rw [e]
        exact Or.inr ⟨l, hl, hmn, harr, hms, hoth, hph⟩

theorem barrier_inv_init (n m s0 : Nat) (hn : 1 ≤ n) : barrier_inv n m s0 (barrier_init s0) := by
  have h0 : arrivals m (barrier_init s0) = 0 := by
    unfold arrivals
    rw [List.countP_eq_zero]
    intro t _
    simp [barrier_init, incremented]
  left
  refine ⟨by rw [h0]; rfl, by rw [h0]; omega, rfl, rfl, fun t _ => Or.inl rfl⟩

theorem barrier_inv_run (n m s0 : Nat) (hn32 : n < 2 ^ 32) (hm : m ≤ n) (sched : List Nat) :
    ∀ s, (∀ t, t ∈ sched → t < m) → barrier_inv n m s0 s →
      barrier_inv n m s0 (barrier_run n s sched) := by
  induction sched with
  | nil => intro s _ h; exact h
  | cons t l ih =>
    intro s hs h
    have hrun : barrier_run n s (t :: l) = barrier_run n (barrier_step n s t) l := rfl
    rw [hrun]
    exact ih _ (fun u hu => hs u (List.mem_cons_of_mem _ hu))
      (barrier_inv_step n m s0 s t hn32 hm (hs t (List.mem_cons_self _ _)) h)

theorem arrivals_full (m : Nat) (s : BarrierState)
    (h : ∀ t, t < m → incremented (s.callers t) = true) : arrivals m s = m := by
  unfold arrivals
  have := (List.countP_eq_length (p := fun t => incremented (s.callers t))
    (l := List.range m)).2 (fun t ht => h t (List.mem_range.1 ht))
  rw [List.length_range] at this
  exact this

/-- C23. An episode of `barrier_wait` with `cpu_count = n ≥ 1` and `m ≤ n`
callers, started from `barrier_count = 0` and `barrier_sense = s0`, after any
sequence of atomic actions of the callers.  (1) If `barrier_sense` differs
from `s0`, all `n` callers have performed their increment.  (2) A caller has
returned only if all `n` have incremented and the sense is flipped.  (3) Either
no store to `barrier_sense` has happened and it is `s0`, or exactly one has,
by the caller whose increment returned `n`, and it is the negation of `s0`.
(4) When all callers have returned, `barrier_count` is 0 and the sense was
stored once.  (5) With fewer than `n` callers nobody ever returns. -/
theorem barrier_episode (n m s0 : Nat) (sched : List Nat) (hn : 1 ≤ n) (hn31 : n < 2 ^ 31)
    (hm : m ≤ n) (hsched : ∀ t, t ∈ sched → t < m) :
    ((barrier_run n (barrier_init s0) sched).barrier_sense ≠ s0 →
      m = n ∧ arrivals n (barrier_run n (barrier_init s0) sched) = n) ∧
    (∀ t, t < m → ((barrier_run n (barrier_init s0) sched).callers t).pc = .done →
      m = n ∧ arrivals n (barrier_run n (barrier_init s0) sched) = n ∧
      (barrier_run n (barrier_init s0) sched).barrier_sense ≠ s0) ∧
    (((barrier_run n (barrier_init s0) sched).flips = [] ∧
        (barrier_run n (barrier_init s0) sched).barrier_sense = s0) ∨
      ∃ l, l < m ∧ (barrier_run n (barrier_init s0) sched).flips = [l] ∧
        ((barrier_run n (barrier_init s0) sched).callers l).arrived = n ∧
        (barrier_run n (barrier_init s0) sched).barrier_sense = (if s0 = 0 then 1 else 0)) ∧
    (1 ≤ m → (∀ t, t < m → ((barrier_run n (barrier_init s0) sched).callers t).pc = .done) →
      (barrier_run n (barrier_init s0) sched).barrier_count = 0 ∧
      (barrier_run n (barrier_init s0) sched).flips.length = 1) ∧
    (m < n → ∀ t, t < m → ((barrier_run n (barrier_init s0) sched).callers t).pc ≠ .done) := by
  have hinv := barrier_inv_run n m s0 (by omega) hm sched (barrier_init s0) hsched
    (barrier_inv_init n m s0 hn)
  generalize barrier_run n (barrier_init s0) sched = s at hinv ⊢
  rcases hinv with ⟨hc, hlt, hs, hf, hall⟩ | ⟨l, hl, hmn, harr, hms, hoth, hph⟩
  · have hnd : ∀ t, t < m → (s.callers t).pc ≠ .done := by
      intro t ht hd
      rcases hall t ht with h | ⟨h | h, _⟩ <;> rw [hd] at h <;> cases h
    refine ⟨fun h => absurd hs h, fun t ht hd => absurd hd (hnd t ht), Or.inl ⟨hf, hs⟩, ?_,
      fun _ => hnd⟩
    intro h1 hd
    exact absurd (hd 0 (by omega)) (hnd 0 (by omega))
  · subst hmn
    have hfull : arrivals m s = m := by
      apply arrivals_full
      intro t ht
      by_cases htl : t = l
      · subst htl
        rcases hph with ⟨h, _⟩ | ⟨h, _⟩ | ⟨h, _⟩ <;> simp [incremented, h]
      · rcases (hoth t ht htl).2 with h | ⟨h, _⟩ <;> simp [incremented, h]
    have hflipped : s.flips = [l] → s.barrier_sense = (if s0 = 0 then 1 else 0) ∧
        s.barrier_count = 0 := by
      intro hfl
      rcases hph with ⟨_, _, _, h⟩ | ⟨_, _, _, h⟩ | ⟨_, h1, h2, _⟩
      · rw [hfl] at h; cases h
      · rw [hfl] at h; cases h
      · exact ⟨h2, h1⟩
    have hdone : ∀ t, t < m → (s.callers t).pc = .done → s.flips = [l] := by
      intro t ht hd
      by_cases htl : t = l
      · subst htl
        rcases hph with ⟨h, _⟩ | ⟨h, _⟩ | ⟨_, _, _, h⟩
        · rw [hd] at h; cases h
        · rw [hd] at h; cases h
        · exact h
      · rcases (hoth t ht htl).2 with h | ⟨_, h⟩
        · rw [hd] at h; cases h
        · exact h
    refine ⟨fun _ => ⟨rfl, hfull⟩, ?_, ?_, ?_, fun h => absurd h (Nat.lt_irrefl _)⟩
    · intro t ht hd
      refine ⟨rfl, hfull, ?_⟩
      rw [(hflipped (hdone t ht hd)).1]
      exact flip_ne s0
    · rcases hph with ⟨_, _, h2, h3⟩ | ⟨_, _, h2, h3⟩ | ⟨_, _, h2, h3⟩
      · exact Or.inl ⟨h3, h2⟩
      · exact Or.inl ⟨h3, h2⟩
      · exact Or.inr ⟨l, hl, h3, harr, h2⟩
    · intro _ hd
      have hfl := hdone l hl (hd l hl)
      exact ⟨(hflipped hfl).2, by rw [hfl]; rfl⟩

/-- Two callers: both read the sense, caller 0 increments and polls, caller 1
increments to 2, resets the count and stores the sense, caller 0 polls again
and returns. -/
theorem barrier_episode_witness :
    (barrier_run 2 (barrier_init 0) [0, 1, 0, 1, 0, 1, 1, 0]).barrier_count = 0 ∧
    (barrier_run 2 (barrier_init 0) [0, 1, 0, 1, 0, 1, 1, 0]).flips.length = 1 :=
  (barrier_episode 2 2 0 [0, 1, 0, 1, 0, 1, 1, 0] (by decide) (by decide) (by decide)
    (by decide)).2.2.2.1 (by decide) (by decide)

end ZigBoot
